import Mathlib

/-!
# why-blocked: decision model, policy evaluator, decision store and output

A shallow embedding of `internal/decision` (types, `Validate`),
`internal/eval` (`Evaluate` and the four policy checks),
`internal/repository/file` (the file-backed store and `WriteAtomic`),
`internal/i18n` (the translator), `internal/output` (the text renderer with
`wrapIndent`, and the structured output) and `internal/scan` (the parsers of
the scanner reports) together with the properties of these functions stated
in the specification.

Modelling conventions.

* Go strings are Lean `String`s, sequences of characters; on valid UTF-8 text
  the byte-wise `strings.HasSuffix` and `strings.Contains` agree with their
  character-wise counterparts used here. The `string`-based types
  `DecisionStatus`, `Severity` and `EvidenceType` stay strings, so that values
  outside the enumerated constants remain representable.
* A Go slice or map field is an `Option`: `none` is the nil slice or map.
* A generic resource description (`map[string]interface{}` as produced by a
  JSON or YAML decoder) is a tree of `Value`s; an object is an association
  list read with first-match lookup.
* A type assertion `x.(T)` in comma-ok form is a function to `Option`.
* A `for i, x := range xs` loop whose body either returns or continues is
  `rangeFirst body 0 xs`.
* Strings are compared character by character, which on valid UTF-8 text is
  the byte-wise order of Go.
* The text that the renderer writes is a list of bytes, the UTF-8 encoding of
  the strings it is made of: `wrapIndent` measures and cuts in bytes.
* The locale files, the template engine, the colour switch and the formatting
  of instants are parameters of the translator and of the renderer.
* A JSON text is the document it denotes, a `Value`; bytes that are decoded
  with `json.Unmarshal` are the value they decode to, or an error.
-/

namespace WhyBlocked

/-! ## Go runtime values -/

/-- Dynamically typed value held by an `interface{}`. -/
inductive Value where
  | null : Value
  | bool : Bool → Value
  | number : Int → Value
  | string : String → Value
  | array : List Value → Value
  | object : List (String × Value) → Value

/-- Contents of a `map[string]interface{}`. -/
abbrev Obj := List (String × Value)

/-- Map index `m[k]`: `none` when the key is missing. -/
def index (m : Obj) (k : String) : Option Value :=
  List.lookup k m

/-- Comma-ok presence test `_, ok := m[k]`. -/
def hasKey (m : Obj) (k : String) : Bool :=
  (index m k).isSome

/-- Type assertion `x.(string)`. -/
def assertString : Option Value → Option String
  | some (Value.string s) => some s
  | _ => none

/-- Type assertion `x.(bool)`. -/
def assertBool : Option Value → Option Bool
  | some (Value.bool b) => some b
  | _ => none

/-- Type assertion `x.(map[string]interface{})`. -/
def assertMap : Option Value → Option Obj
  | some (Value.object m) => some m
  | _ => none

/-- Type assertion `x.([]interface{})`. -/
def assertSlice : Option Value → Option (List Value)
  | some (Value.array xs) => some xs
  | _ => none

/-- Go slice; `none` is the nil slice. -/
abbrev Slice (α : Type) := Option (List α)

/-- Elements of a slice in order (a nil slice has none). -/
def items {α : Type} : Slice α → List α
  | none => []
  | some xs => xs

/-- Builtin `len` on slices. -/
def len {α : Type} (s : Slice α) : Nat :=
  (items s).length

/-- Builtin `append(s, x)`. -/
def append {α : Type} (s : Slice α) (x : α) : Slice α :=
  some (items s ++ [x])

/-- Range loop with index whose body returns `some r` to leave the function
with `r`, or `none` to go on with the next element; when the elements are
exhausted the function returns nil. -/
def rangeFirst {α β : Type} (body : Nat → α → Option β) : Nat → List α → Option β
  | _, [] => none
  | i, x :: xs =>
    match body i x with
    | some r => some r
    | none => rangeFirst body (i + 1) xs

/-- Verb `%d` of `fmt.Sprintf` on a non-negative int. -/
def fmtInt (n : Nat) : String :=
  Nat.repr n

/-- Function `strings.HasSuffix`. -/
def HasSuffix (s suffix : String) : Bool :=
  suffix.data.isSuffixOf s.data

/-- Function `strings.Contains`: some tail of `s` starts with `substr`. -/
def Contains (s substr : String) : Bool :=
  s.data.tails.any (fun t => substr.data.isPrefixOf t)

/-- Function `strings.Join`. -/
def Join (parts : List String) (sep : String) : String :=
  sep.intercalate parts

/-! ## internal/decision/types.go -/

abbrev DecisionStatus := String
abbrev Severity := String
abbrev EvidenceType := String

def StatusBlocked : DecisionStatus := "BLOCKED"
def StatusAllowed : DecisionStatus := "ALLOWED"

def SeverityLow : Severity := "LOW"
def SeverityMedium : Severity := "MEDIUM"
def SeverityHigh : Severity := "HIGH"
def SeverityCritical : Severity := "CRITICAL"

def EvidenceK8sField : EvidenceType := "K8S_FIELD"
def EvidenceImageScan : EvidenceType := "IMAGE_SCAN"
def EvidenceSbom : EvidenceType := "SBOM"
def EvidenceOther : EvidenceType := "OTHER"

/-- Instant of type `time.Time`: seconds since the Unix epoch and nanoseconds
within the second. -/
structure Time where
  sec : Int
  nsec : Nat
  deriving DecidableEq, Repr

/-- Go `map[string]string`; `none` is the nil map. -/
abbrev StringMap := Option (List (String × String))

structure ResourceRef where
  Kind : String
  Name : String
  Namespace : String
  UID : String := ""
  APIVersion : String := ""
  deriving DecidableEq, Repr

structure PatchSuggestion where
  Format : String := ""
  Content : String := ""
  deriving DecidableEq, Repr

structure Action where
  Title : String
  TitleKey : String := ""
  TitleArgs : StringMap := none
  Detail : String
  DetailKey : String := ""
  DetailArgs : StringMap := none
  Patch : PatchSuggestion := {}
  deriving DecidableEq, Repr

structure Evidence where
  Type_ : EvidenceType
  Subject : String
  Detail : String
  Raw : Option Obj := none

structure Violation where
  PolicyID : String
  Title : String
  TitleKey : String := ""
  TitleArgs : StringMap := none
  Severity : Severity
  Message : String
  MessageKey : String := ""
  MessageArgs : StringMap := none
  Evidence : Slice Evidence := none
  Fix : Slice Action := none
  References : Slice String := none

structure SecurityDecision where
  ID : String
  Timestamp : Time
  Resource : ResourceRef
  Status : DecisionStatus
  Summary : String
  SummaryKey : String := ""
  SummaryArgs : StringMap := none
  Violations : Slice Violation := none
  NextActions : Slice Action := none
  Metadata : StringMap := none
  Version : String

/-! ## internal/decision/validation.go -/

/-- Sentinel errors of the decision package, and the result of
`fmt.Errorf("%w: %s", target, text)`: an error that wraps `target` and whose
message ends with `text`. -/
inductive ValidationError where
  | ErrInvalidID
  | ErrInvalidResource
  | ErrInvalidStatus
  | ErrInvalidVersion
  | wrapped (target : ValidationError) (text : String)
  deriving DecidableEq, Repr

/-- Predicate `errors.Is(err, target)` for a sentinel target. -/
def errorsIs : ValidationError → ValidationError → Bool
  | ValidationError.wrapped inner text, target =>
    decide (ValidationError.wrapped inner text = target) || errorsIs inner target
  | err, target => decide (err = target)

/-- Method `DecisionStatus.IsValid`. -/
def IsValid (s : DecisionStatus) : Bool :=
  if s = StatusBlocked ∨ s = StatusAllowed then true else false

/-- Method `SecurityDecision.Validate`; `none` is the nil error. -/
def Validate (d : SecurityDecision) : Option ValidationError :=
  if d.ID = "" then
    some ValidationError.ErrInvalidID
  else if d.Resource.Kind = "" ∨ d.Resource.Name = "" ∨ d.Resource.Namespace = "" then
    some ValidationError.ErrInvalidResource
  else if !IsValid d.Status then
    some (ValidationError.wrapped ValidationError.ErrInvalidStatus d.Status)
  else if d.Version = "" then
    some ValidationError.ErrInvalidVersion
  else
    none

/-! ## internal/eval/evaluator.go -/

structure Evaluator where
  version : String

/-- Constructor `New`. -/
def New (version : String) : Evaluator :=
  { version := version }

/-- Function `extractResourceRef`. -/
def extractResourceRef (spec : Obj) : ResourceRef :=
  let ref : ResourceRef := { Kind := "Deployment", Name := "unknown", Namespace := "default" }
  let ref := match assertString (index spec "kind") with
    | some kind => { ref with Kind := kind }
    | none => ref
  let ref := match assertString (index spec "apiVersion") with
    | some apiVersion => { ref with APIVersion := apiVersion }
    | none => ref
  match assertMap (index spec "metadata") with
  | some metadata =>
    let ref := match assertString (index metadata "name") with
      | some name => { ref with Name := name }
      | none => ref
    match assertString (index metadata "namespace") with
    | some namespace_ => { ref with Namespace := namespace_ }
    | none => ref
  | none => ref

/-- Function `extractPodSpec`; `none` is the nil map it returns when no pod
spec is found. -/
def extractPodSpec (spec : Obj) : Option Obj :=
  match assertMap (index spec "spec") with
  | some podSpec =>
    if hasKey podSpec "containers" then
      some podSpec
    else
      match assertMap (index podSpec "template") with
      | some template =>
        match assertMap (index template "spec") with
        | some templateSpec => some templateSpec
        | none => none
      | none => none
  | none => none

/-- Function `getContainerName`. -/
def getContainerName (container : Obj) : String :=
  match assertString (index container "name") with
  | some name => name
  | none => "unknown"

/-- Body of the loop of `checkPrivileged` at index `i` and element `c`. -/
def checkPrivilegedBody (i : Nat) (c : Value) : Option Violation :=
  match assertMap (some c) with
  | none => none
  | some container =>
    let containerName := getContainerName container
    match assertMap (index container "securityContext") with
    | none => none
    | some securityContext =>
      match assertBool (index securityContext "privileged") with
      | some true =>
        let fieldPath :=
          "spec.template.spec.containers[" ++ fmtInt i ++ "].securityContext.privileged"
        some {
          PolicyID := "POL-SEC-001"
          Title := "Privileged Container"
          TitleKey := "violation.k8s.privileged.title"
          Severity := SeverityCritical
          Message := "Container '" ++ containerName ++
            "' runs in privileged mode, which grants access to all host devices and bypasses security boundaries."
          Evidence := some [{ Type_ := EvidenceK8sField, Subject := fieldPath,
                              Detail := "privileged: true" }]
          Fix := some [{ Title := "Disable privileged mode"
                         Detail := "Set securityContext.privileged: false for container '" ++
                           containerName ++ "'" }] }
      | _ => none

/-- Function `checkPrivileged`. -/
def checkPrivileged (podSpec : Obj) : Option Violation :=
  match assertSlice (index podSpec "containers") with
  | none => none
  | some containers => rangeFirst checkPrivilegedBody 0 containers

/-- Body of the loop of `checkHostPath` at index `i` and element `v`. -/
def checkHostPathBody (i : Nat) (v : Value) : Option Violation :=
  match assertMap (some v) with
  | none => none
  | some volume =>
    match assertMap (index volume "hostPath") with
    | some hostPath =>
      let volumeName := match assertString (index volume "name") with
        | some name => name
        | none => "unknown"
      let path := match assertString (index hostPath "path") with
        | some p => p
        | none => ""
      let fieldPath := "spec.template.spec.volumes[" ++ fmtInt i ++ "].hostPath"
      some {
        PolicyID := "POL-SEC-002"
        Title := "HostPath Volume"
        TitleKey := "violation.k8s.hostpath.title"
        Severity := SeverityHigh
        Message := "Volume '" ++ volumeName ++
          "' uses hostPath, which exposes host filesystem to the container."
        Evidence := some [{ Type_ := EvidenceK8sField, Subject := fieldPath,
                            Detail := "path: " ++ path }]
        Fix := some [{ Title := "Use alternative volume type"
                       Detail := "Replace hostPath volume '" ++ volumeName ++
                         "' with emptyDir, configMap, or persistent volume" }] }
    | none => none

/-- Function `checkHostPath`. -/
def checkHostPath (podSpec : Obj) : Option Violation :=
  match assertSlice (index podSpec "volumes") with
  | none => none
  | some volumes => rangeFirst checkHostPathBody 0 volumes

/-- Test `m["securityContext"].(map)["runAsNonRoot"].(bool)` is ok and true,
used by `checkRunAsNonRoot` at pod level and at container level. -/
def runAsNonRootSet (m : Obj) : Bool :=
  match assertMap (index m "securityContext") with
  | some securityContext =>
    match assertBool (index securityContext "runAsNonRoot") with
    | some true => true
    | _ => false
  | none => false

/-- Body of the loop of `checkRunAsNonRoot` at index `i` and element `c`. -/
def checkRunAsNonRootBody (i : Nat) (c : Value) : Option Violation :=
  match assertMap (some c) with
  | none => none
  | some container =>
    let containerName := getContainerName container
    let hasRunAsNonRoot := runAsNonRootSet container
    if !hasRunAsNonRoot then
      let fieldPath :=
        "spec.template.spec.containers[" ++ fmtInt i ++ "].securityContext.runAsNonRoot"
      some {
        PolicyID := "POL-SEC-003"
        Title := "Missing runAsNonRoot"
        TitleKey := "violation.k8s.runasnonroot.title"
        Severity := SeverityHigh
        Message := "Container '" ++ containerName ++
          "' does not explicitly set runAsNonRoot: true, allowing potential root execution."
        Evidence := some [{ Type_ := EvidenceK8sField, Subject := fieldPath,
                            Detail := "runAsNonRoot not set or false" }]
        Fix := some [{ Title := "Set runAsNonRoot"
                       Detail := "Add securityContext.runAsNonRoot: true for container '" ++
                         containerName ++ "'" }] }
    else none

/-- Function `checkRunAsNonRoot`. -/
def checkRunAsNonRoot (podSpec : Obj) : Option Violation :=
  if runAsNonRootSet podSpec then
    none
  else
    match assertSlice (index podSpec "containers") with
    | none => none
    | some containers => rangeFirst checkRunAsNonRootBody 0 containers

/-- Body of the loop of `checkLatestTag` at index `i` and element `c`. -/
def checkLatestTagBody (i : Nat) (c : Value) : Option Violation :=
  match assertMap (some c) with
  | none => none
  | some container =>
    match assertString (index container "image") with
    | none => none
    | some image =>
      let containerName := getContainerName container
      if HasSuffix image ":latest" || !Contains image ":" then
        let fieldPath := "spec.template.spec.containers[" ++ fmtInt i ++ "].image"
        some {
          PolicyID := "POL-SEC-004"
          Title := "Latest Image Tag"
          TitleKey := "violation.image.latest.title"
          Severity := SeverityHigh
          Message := "Container '" ++ containerName ++ "' uses image '" ++ image ++
            "' with 'latest' tag or no tag, which is not immutable."
          Evidence := some [{ Type_ := EvidenceK8sField, Subject := fieldPath, Detail := image }]
          Fix := some [{ Title := "Use specific image tag"
                         Detail := "Replace image '" ++ image ++
                           "' with a specific version tag or SHA digest" }] }
      else none

/-- Function `checkLatestTag`. -/
def checkLatestTag (podSpec : Obj) : Option Violation :=
  match assertSlice (index podSpec "containers") with
  | none => none
  | some containers => rangeFirst checkLatestTagBody 0 containers

/-- Statement `if v := check(podSpec); v != nil { violations = append(violations, *v) }`. -/
def appendIfFound (violations : Slice Violation) (v : Option Violation) : Slice Violation :=
  match v with
  | some v => append violations v
  | none => violations

/-- Method `Evaluator.checkViolations`. -/
def checkViolations (_e : Evaluator) (spec : Obj) : Slice Violation :=
  let violations : Slice Violation := none
  match extractPodSpec spec with
  | none => violations
  | some podSpec =>
    let violations := appendIfFound violations (checkPrivileged podSpec)
    let violations := appendIfFound violations (checkHostPath podSpec)
    let violations := appendIfFound violations (checkRunAsNonRoot podSpec)
    let violations := appendIfFound violations (checkLatestTag podSpec)
    violations

/-- Counting loop of `buildSummary`: the pair `(criticalCount, highCount)` after
the `switch v.Severity` has run on every violation. -/
def countSeverities (violations : Slice Violation) : Nat × Nat :=
  (items violations).foldl
    (fun counts v =>
      if v.Severity = SeverityCritical then (counts.1 + 1, counts.2)
      else if v.Severity = SeverityHigh then (counts.1, counts.2 + 1)
      else counts)
    (0, 0)

/-- Function `buildSummary`. -/
def buildSummary (status : DecisionStatus) (violations : Slice Violation) : String :=
  if status = StatusAllowed then
    "Resource meets security requirements"
  else
    let criticalCount := (countSeverities violations).1
    let highCount := (countSeverities violations).2
    let parts : List String := []
    let parts := if criticalCount > 0 then parts ++ [fmtInt criticalCount ++ " critical"] else parts
    let parts := if highCount > 0 then parts ++ [fmtInt highCount ++ " high"] else parts
    "Resource blocked: " ++ Join parts ", " ++ " severity violations found"

/-- Function `buildNextActions`. -/
def buildNextActions (violations : Slice Violation) : Slice Action :=
  if len violations = 0 then
    none
  else
    some [{ Title := "Review violations"
            Detail := "Address the security violations listed above to meet policy requirements" }]

/-- Method `Evaluator.Evaluate`. -/
def Evaluate (e : Evaluator) (spec : Obj) (timestamp : Time) (decisionID : String) :
    SecurityDecision :=
  let resource := extractResourceRef spec
  let violations := checkViolations e spec
  let status := if len violations > 0 then StatusBlocked else StatusAllowed
  let summary := buildSummary status violations
  let d : SecurityDecision :=
    { ID := decisionID, Timestamp := timestamp, Resource := resource, Status := status,
      Summary := summary, Version := e.version }
  if len violations > 0 then
    { d with Violations := violations, NextActions := buildNextActions violations }
  else
    d

/-! ## Notions the specification speaks of -/

/-- An entry of a `containers` list that is an object whose `securityContext`
is an object with `privileged` equal to the boolean true. -/
def privilegedContainer (c : Value) : Prop :=
  ∃ container securityContext, c = Value.object container ∧
    index container "securityContext" = some (Value.object securityContext) ∧
    index securityContext "privileged" = some (Value.bool true)

/-- An entry of a `volumes` list that is an object with a `hostPath`
sub-object. -/
def hostPathVolume (v : Value) : Prop :=
  ∃ volume hostPath, v = Value.object volume ∧
    index volume "hostPath" = some (Value.object hostPath)

/-- The object `m` (a pod spec or a container) has a `securityContext` object
whose `runAsNonRoot` is the boolean true. -/
def setsRunAsNonRoot (m : Obj) : Prop :=
  ∃ securityContext, index m "securityContext" = some (Value.object securityContext) ∧
    index securityContext "runAsNonRoot" = some (Value.bool true)

/-- The image reference ends in `:latest` or contains no colon. -/
def mutableImage (image : String) : Prop :=
  (∃ front : String, image = front ++ ":latest") ∨ ∀ ch ∈ image.data, ch ≠ ':'

/-- An entry of a `containers` list that is a container object lacking an
explicit `securityContext.runAsNonRoot` equal to the boolean true. -/
def lacksRunAsNonRoot (c : Value) : Prop :=
  ∃ container, c = Value.object container ∧ ¬ setsRunAsNonRoot container

/-- An entry of a `containers` list that is a container object whose `image`
is a string that ends in `:latest` or contains no colon. -/
def mutableImageContainer (c : Value) : Prop :=
  ∃ container image, c = Value.object container ∧
    index container "image" = some (Value.string image) ∧ mutableImage image

/-- The image reference carries a tag other than `latest`: it reads
`name:tag` where `tag`, the part after the last colon, is not `latest`. -/
def taggedNotLatest (image : String) : Prop :=
  ∃ name tag : String, image = name ++ ":" ++ tag ∧ (∀ ch ∈ tag.data, ch ≠ ':') ∧
    tag ≠ "latest"

/-- One step of a field path: a key of an object or an index of a list. -/
inductive Seg where
  | key : String → Seg
  | idx : Nat → Seg

/-- The value found by following a field path from `v`, when every step of
the path exists. -/
def resolve : Value → List Seg → Option Value
  | v, [] => some v
  | Value.object m, Seg.key name :: rest => (index m name).bind (fun v => resolve v rest)
  | Value.array xs, Seg.idx i :: rest => (xs[i]?).bind (fun v => resolve v rest)
  | _, _ => none

/-- Rendering of one step that is not the first: `.name` or `[i]`. -/
def renderSeg : Seg → String
  | Seg.key name => "." ++ name
  | Seg.idx i => "[" ++ fmtInt i ++ "]"

/-- Dotted rendering of a field path from the root, as in
`spec.containers[0].image`. -/
def renderPath : List Seg → String
  | [] => ""
  | Seg.key name :: rest => name ++ String.join (rest.map renderSeg)
  | Seg.idx i :: rest => String.join ((Seg.idx i :: rest).map renderSeg)

/-- Number of violations of the sequence whose severity is `sev`. -/
def countOf (sev : Severity) (violations : Slice Violation) : Nat :=
  ((items violations).filter (fun v => decide (v.Severity = sev))).length

/-- The generic next action of a blocked decision. -/
def reviewAction : Action :=
  { Title := "Review violations"
    Detail := "Address the security violations listed above to meet policy requirements" }

/-- The violations found by running the four checks, in their fixed order,
against `podSpec`. -/
def checksAgainst (podSpec : Obj) : List Violation :=
  (checkPrivileged podSpec).toList ++ (checkHostPath podSpec).toList ++
    (checkRunAsNonRoot podSpec).toList ++ (checkLatestTag podSpec).toList

/-! ## Inputs of internal/eval/evaluator_test.go -/

/-- Fixed timestamp of the tests, 2026-02-08 12:00:00 UTC. -/
def testTimestamp : Time := ⟨1770552000, 0⟩

def privilegedEntry : Value :=
  Value.object [("name", Value.string "nginx"), ("image", Value.string "nginx:1.21.0"),
    ("securityContext", Value.object [("privileged", Value.bool true)])]

def privilegedPodSpec : Obj :=
  [("containers", Value.array [privilegedEntry])]

/-- Input of `TestEvaluator_PrivilegedContainer`. -/
def privilegedDeployment : Obj :=
  [("apiVersion", Value.string "apps/v1"), ("kind", Value.string "Deployment"),
   ("metadata", Value.object [("name", Value.string "nginx-deployment"),
      ("namespace", Value.string "production")]),
   ("spec", Value.object [("template", Value.object [("spec", Value.object privilegedPodSpec)])])]

def hostVolumeEntry : Value :=
  Value.object [("name", Value.string "host-volume"),
    ("hostPath", Value.object [("path", Value.string "/var/run/docker.sock")])]

def hostPathPodSpec : Obj :=
  [("containers", Value.array
      [Value.object [("name", Value.string "app"), ("image", Value.string "myapp:1.0.0")]]),
   ("volumes", Value.array [hostVolumeEntry])]

/-- Input of `TestEvaluator_HostPathVolume`. -/
def hostPathDeployment : Obj :=
  [("apiVersion", Value.string "apps/v1"), ("kind", Value.string "Deployment"),
   ("metadata", Value.object [("name", Value.string "app-deployment"),
      ("namespace", Value.string "default")]),
   ("spec", Value.object [("template", Value.object [("spec", Value.object hostPathPodSpec)])])]

def rootEntry : Value :=
  Value.object [("name", Value.string "app"), ("image", Value.string "myapp:2.0.0")]

def rootPodSpec : Obj :=
  [("containers", Value.array [rootEntry])]

/-- Input of `TestEvaluator_RunAsNonRootMissing`. -/
def insecureDeployment : Obj :=
  [("apiVersion", Value.string "apps/v1"), ("kind", Value.string "Deployment"),
   ("metadata", Value.object [("name", Value.string "insecure-deployment"),
      ("namespace", Value.string "default")]),
   ("spec", Value.object [("template", Value.object [("spec", Value.object rootPodSpec)])])]

def latestEntry : Value :=
  Value.object [("name", Value.string "nginx"), ("image", Value.string "nginx:latest")]

def latestPodSpec : Obj :=
  [("containers", Value.array [latestEntry])]

/-- Input of `TestEvaluator_LatestImageTag`. -/
def latestTagDeployment : Obj :=
  [("apiVersion", Value.string "apps/v1"), ("kind", Value.string "Deployment"),
   ("metadata", Value.object [("name", Value.string "latest-tag-deployment"),
      ("namespace", Value.string "default")]),
   ("spec", Value.object [("template", Value.object [("spec", Value.object latestPodSpec)])])]

def safeEntry : Value :=
  Value.object [("name", Value.string "app"), ("image", Value.string "myapp:1.2.3"),
    ("securityContext", Value.object [("privileged", Value.bool false),
      ("runAsNonRoot", Value.bool true)])]

def safePodSpec : Obj :=
  [("securityContext", Value.object [("runAsNonRoot", Value.bool true)]),
   ("containers", Value.array [safeEntry]),
   ("volumes", Value.array [Value.object [("name", Value.string "config-volume"),
      ("configMap", Value.object [("name", Value.string "app-config")])]])]

/-- Input of `TestEvaluator_SafeBaseline`. -/
def safeDeployment : Obj :=
  [("apiVersion", Value.string "apps/v1"), ("kind", Value.string "Deployment"),
   ("metadata", Value.object [("name", Value.string "secure-deployment"),
      ("namespace", Value.string "production")]),
   ("spec", Value.object [("template", Value.object [("spec", Value.object safePodSpec)])])]

/-- Input of `TestEvaluator_PodDirectly`. -/
def testPod : Obj :=
  [("apiVersion", Value.string "v1"), ("kind", Value.string "Pod"),
   ("metadata", Value.object [("name", Value.string "test-pod"),
      ("namespace", Value.string "default")]),
   ("spec", Value.object latestPodSpec)]

/-- A Pod, with its containers directly under `spec`, that runs the
privileged container of `TestEvaluator_PrivilegedContainer`. -/
def privilegedPod : Obj :=
  [("apiVersion", Value.string "v1"), ("kind", Value.string "Pod"),
   ("metadata", Value.object [("name", Value.string "test-pod"),
      ("namespace", Value.string "default")]),
   ("spec", Value.object privilegedPodSpec)]

/-- A workload whose `spec` has a `containers` key with a null value next to
a pod template that runs a privileged container. -/
def nullContainersWorkload : Obj :=
  [("apiVersion", Value.string "apps/v1"), ("kind", Value.string "Deployment"),
   ("metadata", Value.object [("name", Value.string "nginx-deployment"),
      ("namespace", Value.string "production")]),
   ("spec", Value.object [("containers", Value.null),
      ("template", Value.object [("spec", Value.object privilegedPodSpec)])])]

/-! ## internal/repository: the file-backed decision store

The store directory is a list of entries with pairwise different names.
`encoding/json` is taken as an exact codec: the bytes of a file are identified
with what `json.Unmarshal` makes of them, either a decision or a failure, and
`json.MarshalIndent` of a decision yields bytes that unmarshal into it again.
Reading the directory and reading a file that was just listed are taken to
succeed; the faults of a save are chosen by a parameter. -/

/-- Sentinel errors of the repository package; `wrapped target text` is the
result of `fmt.Errorf` with `%w` on `target`, and `other text` an error built
from an error of the `os` or `json` package. -/
inductive RepoError where
  | ErrNotFound
  | ErrInvalidData
  | wrapped (target : RepoError) (text : String)
  | other (text : String)
  deriving DecidableEq, Repr

/-- Predicate `errors.Is(err, target)` on repository errors. -/
def repoErrorsIs : RepoError → RepoError → Bool
  | RepoError.wrapped inner text, target =>
    decide (RepoError.wrapped inner text = target) || repoErrorsIs inner target
  | err, target => decide (err = target)

/-- Method `Error` of a validation error. -/
def ValidationError.Error : ValidationError → String
  | ValidationError.ErrInvalidID => "decision ID is required"
  | ValidationError.ErrInvalidResource => "resource Kind, Name, and Namespace are required"
  | ValidationError.ErrInvalidStatus => "invalid decision status"
  | ValidationError.ErrInvalidVersion => "schema version is required"
  | ValidationError.wrapped target text => ValidationError.Error target ++ ": " ++ text

/-- The bytes of a file, as `json.Unmarshal` into a decision sees them. -/
inductive FileData where
  | json (d : SecurityDecision)
  | corrupt (text : String)

/-- Entry of the store directory; `data` is the content of a regular file. -/
structure DirEntry where
  Name : String
  IsDir : Bool := false
  data : FileData

/-- Content of the store directory. -/
abbrev Dir := List DirEntry

/-- Go comparison `a < b` of two strings, on their characters. -/
def ltChars : List Char → List Char → Bool
  | _, [] => false
  | [], _ :: _ => true
  | a :: as, b :: bs =>
    if a.toNat < b.toNat then true
    else if b.toNat < a.toNat then false
    else ltChars as bs

/-- Go comparison `a < b` of two strings. -/
def strLess (a b : String) : Bool :=
  ltChars a.data b.data

/-- Function `sort.Slice` with the comparison `less`, on elements with
pairwise different keys: `a` stays before `b` unless `less b a`. -/
def sortSlice {α : Type} (less : α → α → Bool) (xs : List α) : List α :=
  List.insertionSort (fun a b => less b a = false) xs

/-- Function `os.ReadDir`: the entries of the directory sorted by filename. -/
def ReadDir (dir : Dir) : List DirEntry :=
  sortSlice (fun a b => strLess a.Name b.Name) dir

/-- Effect on the directory of a `WriteAtomic` that succeeds: the file `name`
is created or replaced and holds `data`. -/
def writeFile (dir : Dir) (name : String) (data : FileData) : Dir :=
  dir.filter (fun f => f.Name != name) ++ [{ Name := name, data := data }]

/-- Function `WriteAtomic` as the store directory sees it: when `fails` is
false the file `name` holds `data` afterwards; otherwise an error is returned
and the file under `name` is what it was. -/
def WriteAtomic (dir : Dir) (name : String) (data : FileData) (fails : Bool) :
    Dir × Option RepoError :=
  if fails then (dir, some (RepoError.other "failed to write file atomically"))
  else (writeFile dir name data, none)

/-- The step of `Save` that fails, if any. -/
inductive Fault where
  | noFault
  | marshalFails
  | recordWriteFails
  | latestWriteFails
  deriving DecidableEq, Repr

/-- Method `Time.Unix`. -/
def Unix (t : Time) : Int :=
  t.sec

/-- Verb `%d` of `fmt.Sprintf` on an int64. -/
def fmtInt64 (n : Int) : String :=
  if n < 0 then "-" ++ Nat.repr n.natAbs else Nat.repr n.toNat

/-- Constant `filepath.Separator` (on Unix). -/
def Separator : Char := '/'

/-- Function `strings.ReplaceAll` for a one-character `old` and `new`. -/
def ReplaceAll (s : String) (old new : Char) : String :=
  ⟨s.data.map (fun ch => if ch = old then new else ch)⟩

/-- The record filename computed by `Save`,
`fmt.Sprintf("%d_%s.json", d.Timestamp.Unix(), safeID)`. -/
def recordFilename (d : SecurityDecision) : String :=
  let safeID := ReplaceAll d.ID Separator '-'
  fmtInt64 (Unix d.Timestamp) ++ "_" ++ safeID ++ ".json"

/-- Method `FileDecisionRepository.Save`: the directory afterwards and the
error returned (`none` is nil). -/
def Save (dir : Dir) (d : SecurityDecision) (fault : Fault) : Dir × Option RepoError :=
  match Validate d with
  | some err => (dir, some (RepoError.wrapped RepoError.ErrInvalidData (ValidationError.Error err)))
  | none =>
    if fault = Fault.marshalFails then
      (dir, some (RepoError.other "failed to marshal decision"))
    else
      let data := FileData.json d
      let filename := recordFilename d
      match WriteAtomic dir filename data (decide (fault = Fault.recordWriteFails)) with
      | (dir, some _) => (dir, some (RepoError.other ("failed to save decision to " ++ filename)))
      | (dir, none) =>
        match WriteAtomic dir "latest.json" data (decide (fault = Fault.latestWriteFails)) with
        | (dir, some _) => (dir, some (RepoError.other "failed to update latest.json"))
        | (dir, none) => (dir, none)

/-- Method `FileDecisionRepository.listDecisionFiles`. -/
def listDecisionFiles (dir : Dir) : List DirEntry :=
  (ReadDir dir).filter
    (fun f => !f.IsDir && f.Name != "latest.json" && HasSuffix f.Name ".json")

/-- Method `FileDecisionRepository.readFile`, on the entry of the file. -/
def readFile (f : DirEntry) : Except RepoError SecurityDecision :=
  match f.data with
  | FileData.corrupt _ =>
    Except.error (RepoError.wrapped RepoError.ErrInvalidData ("failed to unmarshal " ++ f.Name))
  | FileData.json d =>
    match Validate d with
    | some err =>
      Except.error (RepoError.wrapped RepoError.ErrInvalidData
        ("invalid decision in " ++ f.Name ++ ": " ++ ValidationError.Error err))
    | none => Except.ok d

/-- Body of the first loop of `GetByID`: the filename match. -/
def getByIDNameBody (id : String) (_i : Nat) (f : DirEntry) :
    Option (Except RepoError SecurityDecision) :=
  if HasSuffix f.Name ("_" ++ id ++ ".json") then some (readFile f) else none

/-- Body of the second loop of `GetByID`: the scan of the contents. -/
def getByIDScanBody (id : String) (_i : Nat) (f : DirEntry) : Option SecurityDecision :=
  match readFile f with
  | Except.ok d => if d.ID = id then some d else none
  | Except.error _ => none

/-- Method `FileDecisionRepository.GetByID`. -/
def GetByID (dir : Dir) (id : String) : Except RepoError SecurityDecision :=
  let files := listDecisionFiles dir
  match rangeFirst (getByIDNameBody id) 0 files with
  | some r => r
  | none =>
    match rangeFirst (getByIDScanBody id) 0 files with
    | some d => Except.ok d
    | none => Except.error (RepoError.wrapped RepoError.ErrNotFound ("decision " ++ id))

/-- Comparison passed to `sort.Slice` by `GetLatest` and `List`:
`files[i].Name() > files[j].Name()`. -/
def nameGreater (a b : DirEntry) : Bool :=
  strLess b.Name a.Name

/-- Body of the loop of `GetLatest`. -/
def getLatestBody (kind name namespace_ : String) (_i : Nat) (f : DirEntry) :
    Option SecurityDecision :=
  match readFile f with
  | Except.error _ => none
  | Except.ok d =>
    if d.Resource.Kind = kind ∧ d.Resource.Name = name ∧ d.Resource.Namespace = namespace_ then
      some d
    else none

/-- Method `FileDecisionRepository.GetLatest`. -/
def GetLatest (dir : Dir) (kind name namespace_ : String) : Except RepoError SecurityDecision :=
  let files := sortSlice nameGreater (listDecisionFiles dir)
  match rangeFirst (getLatestBody kind name namespace_) 0 files with
  | some d => Except.ok d
  | none =>
    Except.error (RepoError.wrapped RepoError.ErrNotFound
      ("latest decision for " ++ kind ++ "/" ++ name ++ " in " ++ namespace_))

/-- Loop of `List` over the files that remain, with the result so far. -/
def listLoop (namespace_ : String) (limit : Int) :
    List DirEntry → Slice SecurityDecision → Slice SecurityDecision
  | [], result => result
  | f :: rest, result =>
    match readFile f with
    | Except.error _ => listLoop namespace_ limit rest result
    | Except.ok d =>
      if namespace_ ≠ "" ∧ d.Resource.Namespace ≠ namespace_ then
        listLoop namespace_ limit rest result
      else
        let result := append result d
        if limit > 0 ∧ (len result : Int) ≥ limit then result
        else listLoop namespace_ limit rest result

/-- Method `FileDecisionRepository.List` (its error is always nil here). -/
def List_ (dir : Dir) (namespace_ : String) (limit : Int) : Slice SecurityDecision :=
  let files := sortSlice nameGreater (listDecisionFiles dir)
  listLoop namespace_ limit files none

/-- The directory after the decisions of `ds` were saved one after the other,
each save completing without a fault. -/
def saveAll (dir : Dir) (ds : List SecurityDecision) : Dir :=
  ds.foldl (fun dir d => (Save dir d Fault.noFault).1) dir

/-- Helper `createTestDecision` of file_repository_test.go. -/
def createTestDecision (id name namespace_ : String) (ts : Time) : SecurityDecision :=
  { ID := id, Timestamp := ts, Version := "v1alpha1", Status := StatusBlocked,
    Summary := "Test decision",
    Resource := { Kind := "Deployment", Name := name, Namespace := namespace_ } }

/-- Decisions of the store tests: `retry_dec-1` saved first, `dec-1` an hour
later for the same resource. -/
def retryDecision : SecurityDecision :=
  createTestDecision "retry_dec-1" "myapp" "production" ⟨1770300000, 0⟩

def laterDecision : SecurityDecision :=
  createTestDecision "dec-1" "myapp" "production" ⟨1770303600, 0⟩

/-- A decision without identifier, as in `TestSave_InvalidDecision`. -/
def invalidDecision : SecurityDecision :=
  createTestDecision "" "app" "default" ⟨1770307200, 0⟩

/-- The decisions that the files of `files` hold and that pass `readFile`, in
the order of the files. -/
def readable (files : List DirEntry) : List SecurityDecision :=
  files.filterMap (fun f => (readFile f).toOption)

/-- The namespace filter of `List`: an empty `namespace_` lets every decision
through. -/
def inNamespace (namespace_ : String) (d : SecurityDecision) : Bool :=
  decide (namespace_ = "" ∨ d.Resource.Namespace = namespace_)

/-- The comparisons the store sorts with: asymmetric and negatively
transitive, as a strict order on pairwise different keys is. -/
structure StrictLess {α : Type} (less : α → α → Bool) : Prop where
  asymm : ∀ a b, less a b = true → less b a = false
  cases : ∀ a b c, less a c = true → less a b = true ∨ less b c = true

/-- The directory without the file `name`. -/
def withoutFile (dir : Dir) (name : String) : Dir :=
  dir.filter (fun f => f.Name != name)

/-- A record of the identifier `team/dec-1`, stored under its sanitized
filename, whose status was changed to a value that `Validate` rejects. -/
def tamperedStore : Dir :=
  [{ Name := "1770300000_team-dec-1.json"
     data := FileData.json
       { createTestDecision "team/dec-1" "myapp" "production" ⟨1770300000, 0⟩ with
         Status := "INVALID" } }]

/-- The same tampering on a record whose identifier, `dec-1`, holds no path
separator. -/
def tamperedPlainStore : Dir :=
  [{ Name := "1770300000_dec-1.json"
     data := FileData.json
       { createTestDecision "dec-1" "myapp" "production" ⟨1770300000, 0⟩ with
         Status := "INVALID" } }]

/-- Method `Time.Before`. -/
def Before (t u : Time) : Bool :=
  decide (t.sec < u.sec) || (decide (t.sec = u.sec) && decide (t.nsec < u.nsec))

/-- The record files of the directory, the files `listDecisionFiles` keeps, in
no particular order. -/
def recordFiles (dir : Dir) : List DirEntry :=
  dir.filter (fun f => !f.IsDir && f.Name != "latest.json" && HasSuffix f.Name ".json")

/-- The record file that a successful `Save` of `d` writes. -/
def recordOf (d : SecurityDecision) : DirEntry :=
  { Name := recordFilename d, data := FileData.json d }

/-- The decision is about the resource `kind`/`name` in `namespace_`. -/
def aboutResource (kind name namespace_ : String) (d : SecurityDecision) : Bool :=
  decide (d.Resource.Kind = kind ∧ d.Resource.Name = name ∧ d.Resource.Namespace = namespace_)

/-- Two decisions a second apart, at the instant when the Unix time gets its
tenth digit (2001-09-09 01:46:40 UTC). -/
def nineDigitDecision : SecurityDecision :=
  createTestDecision "dec-old" "myapp" "production" ⟨999999999, 0⟩

def tenDigitDecision : SecurityDecision :=
  createTestDecision "dec-new" "myapp" "production" ⟨1000000000, 0⟩

/-- Two decisions on one resource within the same second: `dec-b` comes first,
`dec-a` half a second later. -/
def earlyDecision : SecurityDecision :=
  createTestDecision "dec-b" "myapp" "production" ⟨1770300000, 200000000⟩

def lateDecision : SecurityDecision :=
  createTestDecision "dec-a" "myapp" "production" ⟨1770300000, 700000000⟩


/-! ## internal/repository/file/atomic.go, step by step

The directory-level `WriteAtomic` above says what a write does to the store.
Here the function is followed call by call: each call of the `os` package
either takes effect on the directory or fails, as the parameter `fault` says,
and a failing call changes nothing except that a failing `Write` may leave any
content `written` in the temporary file. The calls of the deferred function,
`Close` and `os.Remove`, whose errors the code discards, take effect. File
modes are not part of a directory entry, so `Chmod` has no effect here. -/

/-- The calls of `WriteAtomic` that can fail. -/
inductive AtomicStep where
  | createTemp
  | write
  | sync
  | close
  | chmod
  | rename
  deriving DecidableEq, Repr

/-- Function `os.CreateTemp`: a new, empty file under the name `tmpName`, a
name the directory does not have yet. -/
def CreateTemp (dir : Dir) (tmpName : String) : Dir :=
  dir ++ [{ Name := tmpName, data := FileData.corrupt "" }]

/-- Method `File.Write` on the file `name`: it holds `data` afterwards. -/
def Write (dir : Dir) (name : String) (data : FileData) : Dir :=
  dir.map (fun f => if f.Name = name then { f with data := data } else f)

/-- Function `os.Remove`. -/
def Remove (dir : Dir) (name : String) : Dir :=
  dir.filter (fun f => f.Name != name)

/-- Function `os.Rename`: the file `oldpath` replaces what `newpath` named. -/
def Rename (dir : Dir) (oldpath newpath : String) : Dir :=
  if oldpath = newpath then dir
  else
    (dir.filter (fun f => f.Name != newpath)).map
      (fun f => if f.Name = oldpath then { f with Name := newpath } else f)

/-- The content visible under `name` in the directory, if there is a file. -/
def fileAt (dir : Dir) (name : String) : Option FileData :=
  (dir.find? (fun f => f.Name == name)).map (fun f => f.data)

/-- Function `WriteAtomic(path, data, perm)` call by call: the directory
afterwards and the error returned. `tmpName` is the name `os.CreateTemp`
chooses, `fault` the call that fails, if any, and `written` what a failing
`Write` leaves in the temporary file. -/
def WriteAtomicSteps (dir : Dir) (path : String) (data : FileData) (tmpName : String)
    (fault : Option AtomicStep) (written : FileData) : Dir × Option RepoError :=
  if fault = some AtomicStep.createTemp then
    (dir, some (RepoError.other "failed to create temp file"))
  else
    let dir := CreateTemp dir tmpName
    if fault = some AtomicStep.write then
      (Remove (Write dir tmpName written) tmpName,
        some (RepoError.other "failed to write to temp file"))
    else
      let dir := Write dir tmpName data
      if fault = some AtomicStep.sync then
        (Remove dir tmpName, some (RepoError.other "failed to sync temp file"))
      else if fault = some AtomicStep.close then
        (Remove dir tmpName, some (RepoError.other "failed to close temp file"))
      else if fault = some AtomicStep.chmod then
        (Remove dir tmpName, some (RepoError.other "failed to chmod temp file"))
      else if fault = some AtomicStep.rename then
        (Remove dir tmpName, some (RepoError.other "failed to rename temp file"))
      else
        (Rename dir tmpName path, none)

/-- A store with one record, and a half-written content. -/
def oneRecordStore : Dir :=
  [recordOf laterDecision]

def halfWritten : FileData :=
  FileData.corrupt "\x7b\"id\": \"dec"


/-! ## internal/i18n/i18n.go

What the program takes from outside this package is gathered in a `Runtime`:
the embedded locale files, the `text/template` engine, the colour switch of
package `ui` and the formatting of an instant. -/

/-- Go `map[string]string` of a locale, read with first-match lookup. -/
abbrev Bundle := List (String × String)

/-- Argument of a template: a string or an integer. -/
inductive TemplateValue where
  | str (s : String)
  | int (n : Int)
  deriving DecidableEq, Repr

/-- The `data any` passed to `T`: the nil interface, or a `map[string]any`
(`none` is the nil map). -/
inductive TemplateData where
  | nil
  | map (m : Option (List (String × TemplateValue)))
  deriving DecidableEq, Repr

/-- The surroundings of the translator and of the renderer.
`locales lang` is what `loadLocale(lang)` returns from the embedded file
`locales/<lang>.json` (`none` is an error: no such file, or one that does not
parse); `Execute tmplStr data` is `template.New("").Parse(tmplStr)` followed by
`Execute` on `data` (`none` when either returns an error); `colorEnabled` is
the variable of package `ui`; `Format t` is
`t.UTC().Format("2006-01-02T15:04:05Z")`. -/
structure Runtime where
  locales : String → Option Bundle
  Execute : String → TemplateData → Option String
  colorEnabled : Bool
  Format : Time → String

structure Translator where
  lang : String
  msgs : Bundle
  fallback : Bundle
  deriving DecidableEq, Repr

/-- Function `loadLocale`. -/
def loadLocale (rt : Runtime) (lang : String) : Option Bundle :=
  rt.locales lang

/-- Function `New` of package `i18n`; `none` is the error return. -/
def i18n.New (rt : Runtime) (lang : String) : Option Translator :=
  match loadLocale rt "en" with
  | none => none
  | some en =>
    let msgs :=
      if lang ≠ "en" then
        match loadLocale rt lang with
        | none => en
        | some m => m
      else en
    some { lang := lang, msgs := msgs, fallback := en }

/-- Method `Translator.resolve`. -/
def Translator.resolve (t : Translator) (key : String) : String :=
  match t.msgs.lookup key with
  | some s => s
  | none =>
    match t.fallback.lookup key with
    | some s => s
    | none => key

/-- Function `renderTemplate`. -/
def renderTemplate (rt : Runtime) (tmplStr : String) (data : TemplateData) : String :=
  if !Contains tmplStr "\x7b\x7b" then tmplStr
  else
    match rt.Execute tmplStr data with
    | none => tmplStr
    | some s => s

/-- Method `Translator.T`. -/
def Translator.T (rt : Runtime) (t : Translator) (key : String) (data : TemplateData) :
    String :=
  let tmplStr := t.resolve key
  renderTemplate rt tmplStr data

/-! ### Named placeholders

The templates of the locale bundles are text with actions of the form
`\x7b\x7b.Name\x7d\x7d`. On these `fieldTemplate` does what `text/template`
does; templates with other actions are outside of it and count as errors. -/

/-- The text of an action up to its closing delimiter, and what follows. -/
def splitAction : List Char → Option (List Char × List Char)
  | [] => none
  | c :: rest =>
    if c = '\x7d' ∧ rest.head? = some '\x7d' then some ([], rest.tail)
    else (splitAction rest).map (fun p => (c :: p.1, p.2))

/-- The text printed for the field `name` of the data: the entry of the map,
`<no value>` when the map has none, an error on nil data. -/
def fieldValue (data : TemplateData) (name : String) : Option String :=
  match data with
  | TemplateData.nil => none
  | TemplateData.map m =>
    match (m.getD []).lookup name with
    | some (TemplateValue.str s) => some s
    | some (TemplateValue.int n) => some (toString n)
    | none => some "<no value>"

/-- Execution of the template `tmpl` on `data`, with `fuel` at least the
length of `tmpl`. -/
def execFields (data : TemplateData) : Nat → List Char → Option (List Char)
  | _, [] => some []
  | 0, _ :: _ => none
  | fuel + 1, c :: rest =>
    if c = '\x7b' ∧ rest.head? = some '\x7b' then
      match splitAction rest.tail with
      | none => none
      | some (action, after) =>
        match action with
        | '.' :: name =>
          if name ≠ [] ∧ name.all Char.isAlphanum then
            match fieldValue data ⟨name⟩, execFields data fuel after with
            | some v, some out => some (v.data ++ out)
            | _, _ => none
          else none
        | _ => none
    else (execFields data fuel rest).map (fun out => c :: out)

/-- Parse and execute a template with named placeholders. -/
def fieldTemplate (tmplStr : String) (data : TemplateData) : Option String :=
  (execFields data tmplStr.length tmplStr.data).map String.mk

/-- Modelled from the spec: the embedded locale files `locales/*.json`, which
are not among the sources. These are the entries of the English and of the
Japanese bundle that `i18n_test.go` and `render_test.go` pin; any other
language (such as `fr`) has no file. -/
def testLocales (lang : String) : Option Bundle :=
  if lang = "en" then
    some [("output.reason", "WHY: \x7b\x7b.Summary\x7d\x7d"),
      ("output.status", "STATUS: \x7b\x7b.Status\x7d\x7d"),
      ("section.violations", "VIOLATIONS (\x7b\x7b.Count\x7d\x7d):"),
      ("section.nextActions", "NEXT ACTIONS:"),
      ("label.evidence", "Evidence:"),
      ("label.fix", "Fix (minimal):")]
  else if lang = "ja" then
    some [("section.violations", "違反 (\x7b\x7b.Count\x7d\x7d):"),
      ("section.nextActions", "次のアクション:"),
      ("label.what", "内容:"),
      ("label.evidence", "証拠:"),
      ("label.fix", "修正 (最小):")]
  else none

/-- A runtime for examples: the pinned locale entries, named placeholders,
colours off, and the instants printed as their Unix second. -/
def testRuntime : Runtime :=
  { locales := testLocales
    Execute := fieldTemplate
    colorEnabled := false
    Format := fun t => fmtInt64 (Unix t) }


/-! ## internal/output/render.go: the texts -/

/-- Function `toAnyMap`: the nil map stays a nil map. -/
def toAnyMap (m : StringMap) : TemplateData :=
  match m with
  | none => TemplateData.map none
  | some kvs => TemplateData.map (some (kvs.map (fun kv => (kv.1, TemplateValue.str kv.2))))

/-- Function `resolveText`, for a translator that is not nil. -/
def resolveText (rt : Runtime) (tr : Translator) (key : String) (args : StringMap)
    (fallback : String) : String :=
  if key = "" then fallback
  else tr.T rt key (toAnyMap args)

/-- Translators of the examples: built by hand, with an active bundle that
lacks a key of the English one. -/
def sparseTranslator : Translator :=
  { lang := "ja"
    msgs := [("label.evidence", "証拠:")]
    fallback := [("label.evidence", "Evidence:"), ("label.fix", "Fix (minimal):")] }


/-! ## Go strings as bytes

`wrapIndent` measures and cuts its text in bytes, and a cut may fall inside a
character, so here a Go string is the list of its bytes. `utf8` gives the
bytes of a `String`. -/

/-- A Go string as its bytes. -/
abbrev Bytes := List Nat

/-- UTF-8 encoding of the code point `r`. -/
def encodeRune (r : Nat) : Bytes :=
  if r < 0x80 then [r]
  else if r < 0x800 then [0xC0 + r / 64, 0x80 + r % 64]
  else if r < 0x10000 then [0xE0 + r / 4096, 0x80 + r / 64 % 64, 0x80 + r % 64]
  else [0xF0 + r / 262144, 0x80 + r / 4096 % 64, 0x80 + r / 64 % 64, 0x80 + r % 64]

/-- The bytes of a string. -/
def utf8 (s : String) : Bytes :=
  (s.data.map (fun c => encodeRune c.toNat)).flatten

/-- Constant `utf8.RuneError`. -/
def RuneError : Nat := 0xFFFD

/-- Function `utf8.DecodeRuneInString`: the first code point of `s` and its
width in bytes; an invalid encoding gives `RuneError` and the width 1. -/
def DecodeRuneInString (s : Bytes) : Nat × Nat :=
  match s with
  | [] => (RuneError, 0)
  | s0 :: rest =>
    if s0 < 0x80 then (s0, 1)
    else if s0 < 0xC2 ∨ 0xF4 < s0 then (RuneError, 1)
    else
      let sz := if s0 < 0xE0 then 2 else if s0 < 0xF0 then 3 else 4
      let lo := if s0 = 0xE0 then 0xA0 else if s0 = 0xF0 then 0x90 else 0x80
      let hi := if s0 = 0xED then 0x9F else if s0 = 0xF4 then 0x8F else 0xBF
      if s.length < sz then (RuneError, 1)
      else
        match rest with
        | [] => (RuneError, 1)
        | s1 :: rest1 =>
          if s1 < lo ∨ hi < s1 then (RuneError, 1)
          else if sz ≤ 2 then (s0 % 32 * 64 + s1 % 64, 2)
          else
            match rest1 with
            | [] => (RuneError, 1)
            | s2 :: rest2 =>
              if s2 < 0x80 ∨ 0xBF < s2 then (RuneError, 1)
              else if sz ≤ 3 then (s0 % 16 * 4096 + s1 % 64 * 64 + s2 % 64, 3)
              else
                match rest2 with
                | [] => (RuneError, 1)
                | s3 :: _ =>
                  if s3 < 0x80 ∨ 0xBF < s3 then (RuneError, 1)
                  else (s0 % 8 * 262144 + s1 % 64 * 4096 + s2 % 64 * 64 + s3 % 64, 4)

/-- Function `utf8.RuneStart`: the byte is not a continuation byte. -/
def RuneStart (b : Nat) : Bool :=
  !(decide (0x80 ≤ b) && decide (b < 0xC0))

/-- The loop of `DecodeLastRuneInString` that steps back from `start` to the
first byte of the last character, not further than `lim`. -/
def lastRuneStart (s : Bytes) (lim : Int) : Nat → Int → Int
  | 0, start => start
  | fuel + 1, start =>
    if start ≥ lim then
      if RuneStart (s.getD start.toNat 0) then start
      else lastRuneStart s lim fuel (start - 1)
    else start

/-- Function `utf8.DecodeLastRuneInString`: the last code point of `s` and its
width. -/
def DecodeLastRuneInString (s : Bytes) : Nat × Nat :=
  let end_ := s.length
  if end_ = 0 then (RuneError, 0)
  else
    let r := s.getD (end_ - 1) 0
    if r < 0x80 then (r, 1)
    else
      let lim : Int := if (end_ : Int) - 4 < 0 then 0 else (end_ : Int) - 4
      let start := lastRuneStart s lim 4 ((end_ : Int) - 2)
      let start := if start < 0 then 0 else start.toNat
      let (r, size) := DecodeRuneInString (s.drop start)
      if start + size ≠ end_ then (RuneError, 1) else (r, size)

/-- Function `unicode.IsSpace`. -/
def IsSpace (r : Nat) : Bool :=
  decide (r = 0x09 ∨ r = 0x0A ∨ r = 0x0B ∨ r = 0x0C ∨ r = 0x0D ∨ r = 0x20 ∨ r = 0x85 ∨
    r = 0xA0 ∨ r = 0x1680 ∨ (0x2000 ≤ r ∧ r ≤ 0x200A) ∨ r = 0x2028 ∨ r = 0x2029 ∨
    r = 0x202F ∨ r = 0x205F ∨ r = 0x3000)

/-- The table `asciiSpace` of package `strings`. -/
def asciiSpace (c : Nat) : Bool :=
  decide (c = 0x09 ∨ c = 0x0A ∨ c = 0x0B ∨ c = 0x0C ∨ c = 0x0D ∨ c = 0x20)

/-- The loop of `strings.TrimLeftFunc(s, unicode.IsSpace)`: what is left of
`s` from its first character that is not a space. -/
def trimLeftLoop : Nat → Bytes → Bytes
  | 0, s => s
  | fuel + 1, s =>
    match s with
    | [] => []
    | _ :: _ =>
      if IsSpace (DecodeRuneInString s).1 then
        trimLeftLoop fuel (s.drop (DecodeRuneInString s).2)
      else s

/-- Function `strings.TrimLeftFunc(s, unicode.IsSpace)`. -/
def TrimLeftSpace (s : Bytes) : Bytes :=
  trimLeftLoop s.length s

/-- The loop of `lastIndexFunc(s, unicode.IsSpace, false)` from the index `i`
down: the index of the last character that is not a space. -/
def lastIndexLoop (s : Bytes) : Nat → Nat → Option Nat
  | 0, _ => none
  | fuel + 1, i =>
    if i > 0 then
      let i2 := i - (DecodeLastRuneInString (s.take i)).2
      if IsSpace (DecodeLastRuneInString (s.take i)).1 then lastIndexLoop s fuel i2
      else some i2
    else none

/-- Function `strings.TrimRightFunc(s, unicode.IsSpace)`. -/
def TrimRightSpace (s : Bytes) : Bytes :=
  match lastIndexLoop s (s.length + 1) s.length with
  | none => s.take 0
  | some i =>
    if s.getD i 0 ≥ 0x80 then s.take (i + (DecodeRuneInString (s.drop i)).2)
    else s.take (i + 1)

/-- Function `strings.TrimSpace`: ASCII spaces are skipped from both ends, and
from the first byte that is not ASCII on, whole characters are examined. -/
def TrimSpace (s : Bytes) : Bytes :=
  let fromStart := s.dropWhile asciiSpace
  match fromStart with
  | [] => []
  | c :: _ =>
    if c ≥ 0x80 then TrimRightSpace (TrimLeftSpace fromStart)
    else
      let toStop := (fromStart.reverse.dropWhile asciiSpace).reverse
      match toStop.getLast? with
      | none => []
      | some c2 => if c2 ≥ 0x80 then TrimRightSpace toStop else toStop

/-- Function `strings.IndexByte`. -/
def IndexByte (s : Bytes) (c : Nat) : Int :=
  if c ∈ s then (s.indexOf c : Int) else -1
/-! ## internal/output/render.go: wrapIndent -/

/-- The first loop of `wrapIndent`, `for i := takeLen; i > takeLen/2 &&
i < len(remaining); i--`, from the index `i` down: the index of the space it
stops at. -/
def searchBack (remaining : Bytes) (half : Nat) : Nat → Option Nat
  | 0 => none
  | i + 1 =>
    if i + 1 > half ∧ i + 1 < remaining.length then
      if remaining.getD (i + 1) 0 = 32 then some (i + 1)
      else searchBack remaining half i
    else none

/-- The value of `breakPoint` when `remaining[:breakPoint]` is written, for a
`takeLen` that is not negative. -/
def breakPoint (remaining : Bytes) (takeLen : Nat) : Nat :=
  let breakPoint := (searchBack remaining (takeLen / 2) takeLen).getD takeLen
  if breakPoint = takeLen ∧ remaining.length > takeLen then
    let spaceIdx := IndexByte (remaining.drop takeLen) 32
    if spaceIdx ≠ -1 ∧ spaceIdx < 20 then takeLen + spaceIdx.toNat
    else breakPoint
  else breakPoint

/-- The value of `takeLen` on a line. -/
def takeLen (width : Int) (indent : Bytes) (firstLine : Bool) : Int :=
  if firstLine then width else width - indent.length

/-- The loop `for len(remaining) > 0` of `wrapIndent`, with what the builder
`result` holds; `none` when the loop does not return: a negative `takeLen`
makes `remaining[takeLen:]` panic, and the loop is abandoned after `fuel`
rounds. -/
def wrapLoop (width : Int) (indent : Bytes) : Nat → Bytes → Bool → Bytes → Option Bytes
  | 0, _, _, _ => none
  | fuel + 1, remaining, firstLine, result =>
    if remaining.length > 0 then
      let result := if !firstLine then result ++ [10] ++ indent else result
      let takeLen := takeLen width indent firstLine
      if (remaining.length : Int) ≤ takeLen then some (result ++ remaining)
      else if takeLen < 0 then none
      else
        let breakPoint := breakPoint remaining takeLen.toNat
        wrapLoop width indent fuel (TrimSpace (remaining.drop breakPoint)) false
          (result ++ remaining.take breakPoint)
    else some result

/-- Function `wrapIndent`. A loop that returns does so within
`len(text) + 2` rounds: a round after the first that leaves `remaining` as it
was is repeated for ever. -/
def wrapIndent (text : Bytes) (width : Int) (indent : Bytes) : Option Bytes :=
  if (text.length : Int) ≤ width then some text
  else wrapLoop width indent (text.length + 2) text true []
/-- The break point of a line as the specification describes it, for the line
limit `limit` and the byte 32, the space: `bp` is the nearest space at or
before the limit that lies beyond half the limit; or there is no such space
and `bp` is the first space after the limit, fewer than 20 bytes after it; or
there is neither and `bp` is the limit. -/
def IsBreakPoint (remaining : Bytes) (limit bp : Nat) : Prop :=
  (limit / 2 < bp ∧ bp ≤ limit ∧ remaining[bp]? = some 32 ∧
      ∀ k, bp < k → k ≤ limit → remaining[k]? ≠ some 32) ∨
  ((∀ j, limit / 2 < j → j ≤ limit → remaining[j]? ≠ some 32) ∧
      ∃ k, k < 20 ∧ bp = limit + k ∧ remaining[limit + k]? = some 32 ∧
        ∀ m, m < k → remaining[limit + m]? ≠ some 32) ∨
  ((∀ j, limit / 2 < j → j ≤ limit → remaining[j]? ≠ some 32) ∧
      (∀ k, k < 20 → remaining[limit + k]? ≠ some 32) ∧ bp = limit)

/-- The lines that the specification cuts a text into: text that fits the
limit of its line (`width` on the first line, `width` less the length of the
indent on the others) is one line; longer text is cut at the break point of
the line, and what follows the cut goes on, trimmed, to the next lines. -/
inductive WrappedLines (width : Int) (indent : Bytes) : Bytes → Bool → List Bytes → Prop where
  | done (firstLine : Bool) : WrappedLines width indent [] firstLine []
  | last (remaining : Bytes) (firstLine : Bool) (hne : remaining ≠ [])
      (hfit : (remaining.length : Int) ≤ takeLen width indent firstLine) :
      WrappedLines width indent remaining firstLine [remaining]
  | cut (remaining : Bytes) (firstLine : Bool) (limit bp : Nat) (lines : List Bytes)
      (hlimit : takeLen width indent firstLine = limit) (hlong : limit < remaining.length)
      (hbreak : IsBreakPoint remaining limit bp)
      (hrest : WrappedLines width indent (TrimSpace (remaining.drop bp)) false lines) :
      WrappedLines width indent remaining firstLine (remaining.take bp :: lines)

/-- The lines after the first, each after a line feed and the indent. -/
def continuationLines (indent : Bytes) (lines : List Bytes) : Bytes :=
  (lines.map (fun line => [10] ++ indent ++ line)).flatten

/-- The wrapped text made of `lines`: the first line as it is, every other
line after a line feed and the indent. -/
def joinLines (indent : Bytes) : List Bytes → Bytes
  | [] => []
  | line :: lines => line ++ continuationLines indent lines

/-- A sentence of 70 bytes, for a width of 20. -/
def foxText : Bytes :=
  utf8 "The quick brown fox jumps over the lazy dog and keeps running far away"


/-! ## internal/ui/color.go -/

/-- Function `Bold`. -/
def Bold (rt : Runtime) (s : String) : String :=
  if !rt.colorEnabled then s else "\x1b[1m" ++ s ++ "\x1b[0m"

/-- Function `Cyan`. -/
def Cyan (rt : Runtime) (s : String) : String :=
  if !rt.colorEnabled then s else "\x1b[36m" ++ s ++ "\x1b[0m"

/-- Function `Yellow`. -/
def Yellow (rt : Runtime) (s : String) : String :=
  if !rt.colorEnabled then s else "\x1b[33m" ++ s ++ "\x1b[0m"

/-- Function `Red`. -/
def Red (rt : Runtime) (s : String) : String :=
  if !rt.colorEnabled then s else "\x1b[31m" ++ s ++ "\x1b[0m"

/-! ## internal/output/render.go: the renderer

A function that writes to the `strings.Builder` is the text it writes; the
text of `RenderDecision` is what its three parts write one after the other.
`none` is a call that does not return. -/

/-- Function `colorSeverity`. -/
def colorSeverity (rt : Runtime) (severity : String) : String :=
  if severity = "CRITICAL" then Red rt severity
  else if severity = "HIGH" then Yellow rt severity
  else if severity = "MEDIUM" then Cyan rt severity
  else severity

/-- Range loop whose body writes to the builder: the texts of the rounds one
after the other, from the index `i` on. -/
def rangeWrite {α : Type} (body : Nat → α → Option Bytes) : Nat → List α → Option Bytes
  | _, [] => some []
  | i, x :: xs =>
    match body i x, rangeWrite body (i + 1) xs with
    | some line, some rest => some (line ++ rest)
    | _, _ => none

/-- A `map[string]any` literal with string values. -/
def stringArgs (kvs : List (String × String)) : TemplateData :=
  TemplateData.map (some (kvs.map (fun kv => (kv.1, TemplateValue.str kv.2))))

/-- Function `renderHeader`. -/
def renderHeader (rt : Runtime) (d : SecurityDecision) (tr : Translator) : Bytes :=
  let summary := resolveText rt tr d.SummaryKey d.SummaryArgs d.Summary
  utf8 (Bold rt (tr.T rt "output.reason" (stringArgs [("Summary", summary)])) ++ "\n") ++
  utf8 (Bold rt (tr.T rt "output.status" (stringArgs [("Status", d.Status)])) ++ "\n") ++
  utf8 "\n" ++
  utf8 (tr.T rt "output.resource"
    (stringArgs [("Kind", d.Resource.Kind), ("Name", d.Resource.Name)]) ++ "\n") ++
  (if d.Resource.Namespace ≠ "" then
    utf8 (tr.T rt "output.namespace" (stringArgs [("Namespace", d.Resource.Namespace)]) ++ "\n")
  else []) ++
  utf8 (tr.T rt "output.decision" (stringArgs [("ID", d.ID)]) ++ "\n") ++
  utf8 (tr.T rt "output.time" (stringArgs [("Time", rt.Format d.Timestamp)]) ++ "\n") ++
  utf8 "\n"

/-- The `What` part of the loop of `renderViolations`. -/
def renderWhat (rt : Runtime) (tr : Translator) (v : Violation) : Option Bytes :=
  let msg := resolveText rt tr v.MessageKey v.MessageArgs v.Message
  if msg ≠ "" then
    match wrapIndent (utf8 msg) 80 (utf8 "   ") with
    | none => none
    | some what =>
      some (utf8 ("   " ++ tr.T rt "label.what" TemplateData.nil ++ " ") ++ what ++ utf8 "\n")
  else some []

/-- Body of the loop over `v.Evidence`. -/
def renderEvidence (e : Evidence) : Option Bytes :=
  let evidenceLine := "(" ++ e.Type_ ++ ") " ++ e.Subject ++ ": " ++ e.Detail
  match wrapIndent (utf8 evidenceLine) 80 (utf8 "     ") with
  | none => none
  | some wrapped => some (utf8 "     - " ++ wrapped ++ utf8 "\n")

/-- The `Evidence` part of the loop of `renderViolations`. -/
def renderEvidenceBlock (rt : Runtime) (tr : Translator) (v : Violation) : Option Bytes :=
  if len v.Evidence > 0 then
    match rangeWrite (fun _ e => renderEvidence e) 0 (items v.Evidence) with
    | none => none
    | some lines =>
      some (utf8 ("   " ++ tr.T rt "label.evidence" TemplateData.nil ++ "\n") ++ lines)
  else some []

/-- Body of the loop over `v.Fix`. -/
def renderFix (rt : Runtime) (tr : Translator) (f : Action) : Option Bytes :=
  let fixTitle := resolveText rt tr f.TitleKey f.TitleArgs f.Title
  let fixDetail := resolveText rt tr f.DetailKey f.DetailArgs f.Detail
  let fixLine := if fixDetail ≠ "" then fixTitle ++ ": " ++ fixDetail else fixTitle
  match wrapIndent (utf8 fixLine) 80 (utf8 "     ") with
  | none => none
  | some wrapped => some (utf8 "     - " ++ wrapped ++ utf8 "\n")

/-- The `Fix` part of the loop of `renderViolations`. -/
def renderFixBlock (rt : Runtime) (tr : Translator) (v : Violation) : Option Bytes :=
  if len v.Fix > 0 then
    match rangeWrite (fun _ f => renderFix rt tr f) 0 (items v.Fix) with
    | none => none
    | some lines => some (utf8 ("   " ++ tr.T rt "label.fix" TemplateData.nil ++ "\n") ++ lines)
  else some []

/-- Body of the loop of `renderViolations`, for the violation `v` at the
index `i` of `n` violations. -/
def renderViolationBody (rt : Runtime) (tr : Translator) (n i : Nat) (v : Violation) :
    Option Bytes :=
  let title := resolveText rt tr v.TitleKey v.TitleArgs v.Title
  let severityColored := colorSeverity rt v.Severity
  let head := utf8 (fmtInt (i + 1) ++ ") [" ++ severityColored ++ "] " ++ title ++ "\n")
  match renderWhat rt tr v, renderEvidenceBlock rt tr v, renderFixBlock rt tr v with
  | some what, some evidence, some fix =>
    some (head ++ what ++ evidence ++ fix ++ (if i + 1 < n then utf8 "\n" else []))
  | _, _, _ => none

/-- Function `renderViolations`. -/
def renderViolations (rt : Runtime) (violations : Slice Violation) (tr : Translator) :
    Option Bytes :=
  if len violations = 0 then some []
  else
    match rangeWrite (renderViolationBody rt tr (len violations)) 0 (items violations) with
    | none => none
    | some entries =>
      some (utf8 (Bold rt (tr.T rt "section.violations"
          (TemplateData.map (some [("Count", TemplateValue.int (len violations))]))) ++ "\n") ++
        entries ++ utf8 "\n")

/-- Body of the loop of `renderNextActions`. -/
def renderNextAction (rt : Runtime) (tr : Translator) (a : Action) : Option Bytes :=
  let actionTitle := resolveText rt tr a.TitleKey a.TitleArgs a.Title
  let actionDetail := resolveText rt tr a.DetailKey a.DetailArgs a.Detail
  let actionLine := if actionDetail ≠ "" then actionTitle ++ ": " ++ actionDetail else actionTitle
  match wrapIndent (utf8 actionLine) 80 (utf8 "  ") with
  | none => none
  | some wrapped => some (utf8 "- " ++ wrapped ++ utf8 "\n")

/-- Function `renderNextActions`: the loop `for i := 0; i < limit; i++` runs
over the first `limit` actions. -/
def renderNextActions (rt : Runtime) (actions : Slice Action) (tr : Translator) :
    Option Bytes :=
  if len actions = 0 then some []
  else
    let limit := if len actions > 4 then 4 else len actions
    match rangeWrite (fun _ a => renderNextAction rt tr a) 0 ((items actions).take limit) with
    | none => none
    | some lines =>
      some (utf8 (Bold rt (tr.T rt "section.nextActions" TemplateData.nil) ++ "\n") ++ lines)

/-- Function `RenderDecision`; `tr = none` is the nil translator, replaced by
the English one, and a nil translator that `New` could not replace makes the
first `tr.T` panic. -/
def RenderDecision (rt : Runtime) (d : SecurityDecision) (tr : Option Translator) :
    Option Bytes :=
  let tr := match tr with
    | none => i18n.New rt "en"
    | some t => some t
  match tr with
  | none => none
  | some tr =>
    match renderViolations rt d.Violations tr, renderNextActions rt d.NextActions tr with
    | some violations, some actions => some (renderHeader rt d tr ++ violations ++ actions)
    | _, _ => none
/-! ### The rendered text, part by part -/

/-- A text wrapped by the wrap policy of the renderer: width 80 and the given
indent. -/
def wrap80 (text : Bytes) (indent : String) : Bytes :=
  (wrapIndent text 80 (utf8 indent)).getD []

/-- The line of an evidence entry: `(type) subject: detail`, wrapped, as an
item of the evidence list. -/
def evidenceLine (e : Evidence) : Bytes :=
  utf8 "     - " ++
    wrap80 (utf8 ("(" ++ e.Type_ ++ ") " ++ e.Subject ++ ": " ++ e.Detail)) "     " ++ utf8 "\n"

/-- The lines of the evidence entries of a violation. -/
def evidenceLines (es : List Evidence) : Bytes :=
  (es.map evidenceLine).flatten

/-- The label line above the evidence entries, when there are any. -/
def evidenceLabel (rt : Runtime) (tr : Translator) (v : Violation) : Bytes :=
  if len v.Evidence > 0 then
    utf8 ("   " ++ tr.T rt "label.evidence" TemplateData.nil ++ "\n")
  else []

/-- The text of an action: `title: detail`, or the title alone when the
detail is empty, title and detail being resolved by `resolveText`. -/
def actionText (rt : Runtime) (tr : Translator) (a : Action) : String :=
  if resolveText rt tr a.DetailKey a.DetailArgs a.Detail = "" then
    resolveText rt tr a.TitleKey a.TitleArgs a.Title
  else
    resolveText rt tr a.TitleKey a.TitleArgs a.Title ++ ": " ++
      resolveText rt tr a.DetailKey a.DetailArgs a.Detail

/-- The entry of a next action: its text, wrapped, as an item of a list. -/
def nextActionEntry (rt : Runtime) (tr : Translator) (a : Action) : Bytes :=
  utf8 "- " ++ wrap80 (utf8 (actionText rt tr a)) "  " ++ utf8 "\n"

/-- The first line of the entry of a violation: number, severity and title. -/
def violationHead (rt : Runtime) (tr : Translator) (i : Nat) (v : Violation) : Bytes :=
  utf8 (fmtInt (i + 1) ++ ") [" ++ colorSeverity rt v.Severity ++ "] " ++
    resolveText rt tr v.TitleKey v.TitleArgs v.Title ++ "\n")

/-- The entries of the elements of `xs` from the index `i` on. -/
def entriesFrom {α : Type} (g : Nat → α → Bytes) : Nat → List α → List Bytes
  | _, [] => []
  | i, x :: xs => g i x :: entriesFrom g (i + 1) xs

/-- The violation and the decision of `TestRenderDecision_Japanese`. -/
def japaneseTestViolation : Violation :=
  { PolicyID := "POL-001", Title := "Privileged Container", Severity := SeverityCritical,
    Message := "Container runs as privileged",
    Evidence := some [
      { Type_ := EvidenceK8sField,
        Subject := "spec.containers[0].securityContext.privileged",
        Detail := "set to true" }],
    Fix := some [{ Title := "Disable privileged", Detail := "Set privileged: false" }] }

def japaneseTestDecision : SecurityDecision :=
  { ID := "test-ja", Timestamp := ⟨1770309000, 0⟩, Version := "v1alpha1",
    Status := StatusBlocked, Summary := "Deployment blocked",
    Resource := { Kind := "Deployment", Name := "test-app", Namespace := "production" },
    Violations := some [japaneseTestViolation],
    NextActions := some [{ Title := "Update manifest", Detail := "Apply patches" }] }

/-- A translator with the Japanese labels of the tests over the English ones. -/
def japaneseTranslator : Translator :=
  { lang := "ja", msgs := (testLocales "ja").getD [], fallback := (testLocales "en").getD [] }

/-- The decision of `TestRenderDecision_NextActionsLimit`, with six actions. -/
def sixActionsDecision : SecurityDecision :=
  { ID := "test-actions", Timestamp := ⟨1770309000, 0⟩, Version := "v1alpha1",
    Status := StatusBlocked, Summary := "Test",
    Resource := { Kind := "Deployment", Name := "test", Namespace := "default" },
    NextActions := some [
      { Title := "Action 1", Detail := "" }, { Title := "Action 2", Detail := "" },
      { Title := "Action 3", Detail := "" }, { Title := "Action 4", Detail := "" },
      { Title := "Action 5", Detail := "" }, { Title := "Action 6", Detail := "" }] }


/-- The entry of the violation `v` at the index `i` of `n` violations: its
first line, the message, the evidence under its label, the fixes, and a blank
line unless the violation is the last. -/
def violationEntry (rt : Runtime) (tr : Translator) (n i : Nat) (v : Violation) : Bytes :=
  violationHead rt tr i v ++ (renderWhat rt tr v).getD [] ++
    (evidenceLabel rt tr v ++ evidenceLines (items v.Evidence)) ++
    (renderFixBlock rt tr v).getD [] ++ (if i + 1 < n then utf8 "\n" else [])


/-! ## Notions of the later evaluator properties -/

/-- The policy identifiers in the order in which `checkViolations` runs the
checks. -/
def policyOrder : List String :=
  ["POL-SEC-001", "POL-SEC-002", "POL-SEC-003", "POL-SEC-004"]

/-- A violation of the policy `policy` as the checks build it: severity
CRITICAL or HIGH, exactly one evidence entry, of type K8S_FIELD, and exactly
one fix. -/
def builtBy (policy : String) (v : Violation) : Prop :=
  v.PolicyID = policy ∧ (v.Severity = SeverityCritical ∨ v.Severity = SeverityHigh) ∧
    ∃ ev f, v.Evidence = some [ev] ∧ ev.Type_ = EvidenceK8sField ∧ v.Fix = some [f]

/-- A Deployment whose `kind` is present and empty. -/
def emptyKindResource : Obj :=
  [("apiVersion", Value.string "apps/v1"), ("kind", Value.string ""),
    ("metadata", Value.object
      [("name", Value.string "web"), ("namespace", Value.string "production")])]

/-- The privileged Deployment of the tests with its entries in another
order. -/
def reorderedDeployment : Obj :=
  privilegedDeployment.reverse


/-! ## internal/output/decision_json.go

The structured output is modelled in two steps, as in the source: the
projection of a decision to the view types, and `json.MarshalIndent` of the
envelope. The JSON text is represented by the document it denotes, a `Value`;
`encoding/json` writes a struct as an object with the keys of its field tags,
a nil slice or map as `null`, a slice as an array, a map as an object, and
leaves out an `omitempty` field of interface type when the interface is
nil. -/

structure resourceView where
  Kind : String
  Name : String
  Namespace : String
  deriving DecidableEq, Repr

/-- View of an evidence entry; `Raw` is the `any` of the source, which holds a
`map[string]any` (`none` is the nil map). -/
structure evidenceView where
  Type_ : String
  Subject : String
  Detail : String
  Raw : Option Obj

/-- View of an action; `Patch` is the `any` of the source, `none` the nil
interface. -/
structure actionView where
  Title : String
  Detail : String
  Patch : Option PatchSuggestion
  deriving DecidableEq, Repr

structure violationView where
  PolicyID : String
  Title : String
  Severity : String
  Message : String
  Evidence : Slice evidenceView
  Fix : Slice actionView
  References : Slice String

structure decisionView where
  ID : String
  Timestamp : String
  Version : String
  Status : String
  Summary : String
  Resource : resourceView
  Violations : Slice violationView
  NextActions : Slice actionView
  Metadata : StringMap

structure DecisionEnvelope where
  SchemaVersion : String
  Decision : decisionView

/-- Function `toActionView`. -/
def toActionView (a : Action) : actionView :=
  let av : actionView := { Title := a.Title, Detail := a.Detail, Patch := none }
  if a.Patch.Format ≠ "" ∨ a.Patch.Content ≠ "" then { av with Patch := some a.Patch }
  else av

/-- Body of the loop of `toViolationView` over the evidence entries. -/
def toEvidenceView (e : Evidence) : evidenceView :=
  let raw := match e.Raw with
    | none => some []
    | some m => some m
  { Type_ := e.Type_, Subject := e.Subject, Detail := e.Detail, Raw := raw }

/-- Function `toViolationView`; `make([]T, len(xs))` filled by a range loop is
the slice of the images of the elements, never nil. -/
def toViolationView (v : Violation) : violationView :=
  let evidence : Slice evidenceView := some ((items v.Evidence).map toEvidenceView)
  let fix : Slice actionView := some ((items v.Fix).map toActionView)
  let refs : Slice String := match v.References with
    | none => some []
    | some rs => some rs
  { PolicyID := v.PolicyID, Title := v.Title, Severity := v.Severity, Message := v.Message,
    Evidence := evidence, Fix := fix, References := refs }

/-- Function `toDecisionView`. -/
def toDecisionView (rt : Runtime) (d : SecurityDecision) : decisionView :=
  let violations : Slice violationView := some ((items d.Violations).map toViolationView)
  let nextActions : Slice actionView := some ((items d.NextActions).map toActionView)
  let meta : StringMap := match d.Metadata with
    | none => some []
    | some m => some m
  { ID := d.ID, Timestamp := rt.Format d.Timestamp, Version := d.Version, Status := d.Status,
    Summary := d.Summary,
    Resource := { Kind := d.Resource.Kind, Name := d.Resource.Name,
                  Namespace := d.Resource.Namespace },
    Violations := violations, NextActions := nextActions, Metadata := meta }

/-- JSON of a slice: `null` for the nil slice, else the array of the JSON of
its elements. -/
def marshalSlice {α : Type} (f : α → Value) : Slice α → Value
  | none => Value.null
  | some xs => Value.array (xs.map f)

/-- JSON of a `map[string]string`. -/
def marshalStringMap : StringMap → Value
  | none => Value.null
  | some kvs => Value.object (kvs.map (fun kv => (kv.1, Value.string kv.2)))

/-- JSON of a `PatchSuggestion`. -/
def marshalPatch (p : PatchSuggestion) : Value :=
  Value.object [("format", Value.string p.Format), ("content", Value.string p.Content)]

/-- JSON of an `actionView`: `patch` has the tag `omitempty`. -/
def marshalAction (a : actionView) : Value :=
  Value.object ([("title", Value.string a.Title), ("detail", Value.string a.Detail)] ++
    match a.Patch with
    | none => []
    | some p => [("patch", marshalPatch p)])

/-- JSON of an `evidenceView`. -/
def marshalEvidence (e : evidenceView) : Value :=
  Value.object [("type", Value.string e.Type_), ("subject", Value.string e.Subject),
    ("detail", Value.string e.Detail),
    ("raw", match e.Raw with
      | none => Value.null
      | some m => Value.object m)]

/-- JSON of a `violationView`. -/
def marshalViolation (v : violationView) : Value :=
  Value.object [("policyId", Value.string v.PolicyID), ("title", Value.string v.Title),
    ("severity", Value.string v.Severity), ("message", Value.string v.Message),
    ("evidence", marshalSlice marshalEvidence v.Evidence),
    ("fix", marshalSlice marshalAction v.Fix),
    ("references", marshalSlice Value.string v.References)]

/-- JSON of a `resourceView`. -/
def marshalResource (r : resourceView) : Value :=
  Value.object [("kind", Value.string r.Kind), ("name", Value.string r.Name),
    ("namespace", Value.string r.Namespace)]

/-- JSON of a `decisionView`. -/
def marshalDecision (d : decisionView) : Value :=
  Value.object [("id", Value.string d.ID), ("timestamp", Value.string d.Timestamp),
    ("version", Value.string d.Version), ("status", Value.string d.Status),
    ("summary", Value.string d.Summary), ("resource", marshalResource d.Resource),
    ("violations", marshalSlice marshalViolation d.Violations),
    ("nextActions", marshalSlice marshalAction d.NextActions),
    ("metadata", marshalStringMap d.Metadata)]

/-- JSON of a `DecisionEnvelope`. -/
def marshalEnvelope (env : DecisionEnvelope) : Value :=
  Value.object [("schemaVersion", Value.string env.SchemaVersion),
    ("decision", marshalDecision env.Decision)]

/-- Function `RenderDecisionJSON`: the JSON document whose indented text it
returns; every envelope can be marshalled, so its error is nil. -/
def RenderDecisionJSON (rt : Runtime) (d : SecurityDecision) : Value :=
  let env : DecisionEnvelope := { SchemaVersion := "v1", Decision := toDecisionView rt d }
  marshalEnvelope env

/-- The member `key` of a JSON object (`none` when the value is not an object
or has no such member). -/
def member (v : Value) (key : String) : Option Value :=
  match v with
  | Value.object kvs => index kvs key
  | _ => none

/-- The decision of `TestRenderDecisionJSON_EmptyArrays`: its slices and its
metadata are nil. -/
def emptyArraysDecision : SecurityDecision :=
  { ID := "test-empty", Timestamp := ⟨1770307200, 0⟩, Version := "v1alpha1",
    Status := StatusAllowed, Summary := "Allowed",
    Resource := { Kind := "Deployment", Name := "safe-app", Namespace := "default" } }

/-- The first fix of `ExampleBlockedDecision`, with a patch, and a fix
without one. -/
def patchedFix : Action :=
  { Title := "Disable privileged mode", TitleKey := "action.fix.disable_privileged.title",
    Detail := "Set securityContext.privileged: false in the container spec.",
    DetailKey := "action.fix.disable_privileged.detail",
    DetailArgs := some [("container", "nginx")],
    Patch := { Format := "strategic-merge", Content := "privileged: false" } }

def plainFix : Action :=
  { Title := "Disable privileged", Detail := "Set privileged: false" }


/-! ## internal/scan

The bytes of a scanner report are what `json.Unmarshal` makes of them: a value
of the output type, or an error. -/

structure ScanResult where
  Scanner : String := ""
  VulnCount : Nat := 0
  TopCVEs : Slice String := none
  PackageCount : Nat := 0
  TopPackages : Slice String := none
  deriving DecidableEq, Repr

/-- Constants `maxTopCVEs` and `maxTopPackages`. -/
def maxTopCVEs : Nat := 5

def maxTopPackages : Nat := 5

structure trivyVuln where
  VulnerabilityID : String
  deriving DecidableEq, Repr

structure trivyResult where
  Vulnerabilities : Slice trivyVuln
  deriving DecidableEq, Repr

structure trivyOutput where
  Results : Slice trivyResult
  deriving DecidableEq, Repr

structure syftArtifact where
  Name : String
  deriving DecidableEq, Repr

structure syftOutput where
  Artifacts : Slice syftArtifact
  deriving DecidableEq, Repr

/-- The bytes of a report, as `json.Unmarshal` into `α` sees them: well-formed
bytes decode to a value, others give an error. -/
inductive ReportData (α : Type) where
  | decoded (out : α)
  | malformed (text : String)

/-- Slice expression `s[:n]` for `n` within the length of `s`. -/
def slicePrefix {α : Type} (s : Slice α) (n : Nat) : Slice α :=
  some ((items s).take n)

/-- The loops of `parseTrivyJSON` that collect the identifiers. -/
def collectCVEs (results : Slice trivyResult) : Slice String :=
  (items results).foldl
    (fun allCVEs r =>
      (items r.Vulnerabilities).foldl (fun allCVEs v => append allCVEs v.VulnerabilityID) allCVEs)
    none

/-- Function `parseTrivyJSON`. -/
def parseTrivyJSON (data : ReportData trivyOutput) : Except String ScanResult :=
  match data with
  | ReportData.malformed _ => Except.error "trivy: parsing output"
  | ReportData.decoded out =>
    let allCVEs := collectCVEs out.Results
    let top := if len allCVEs > maxTopCVEs then slicePrefix allCVEs maxTopCVEs else allCVEs
    Except.ok { Scanner := "trivy", VulnCount := len allCVEs, TopCVEs := top }

/-- Function `parseSyftJSON`. -/
def parseSyftJSON (data : ReportData syftOutput) : Except String ScanResult :=
  match data with
  | ReportData.malformed _ => Except.error "syft: parsing output"
  | ReportData.decoded out =>
    let names : Slice String := some ((items out.Artifacts).map (fun a => a.Name))
    let top := if len names > maxTopPackages then slicePrefix names maxTopPackages else names
    Except.ok { Scanner := "syft", PackageCount := len names, TopPackages := top }

/-- The vulnerability identifiers of a report in report order: those of the
first result, then those of the second, and so on. -/
def reportCVEs (out : trivyOutput) : List String :=
  ((items out.Results).map
    (fun r => (items r.Vulnerabilities).map (fun v => v.VulnerabilityID))).flatten

/-- The artifact names of a report in order. -/
def reportPackages (out : syftOutput) : List String :=
  (items out.Artifacts).map (fun a => a.Name)

/-- The report of `TestTrivyScanner_Scan_TopCVEsCapped`. -/
def sevenCVEs : trivyOutput :=
  { Results := some [{ Vulnerabilities := some [⟨"CVE-1"⟩, ⟨"CVE-2"⟩, ⟨"CVE-3"⟩, ⟨"CVE-4"⟩,
      ⟨"CVE-5"⟩, ⟨"CVE-6"⟩, ⟨"CVE-7"⟩] }] }

/-- A report of six packages. -/
def sixPackages : syftOutput :=
  { Artifacts := some [⟨"openssl"⟩, ⟨"zlib"⟩, ⟨"libc6"⟩, ⟨"bash"⟩, ⟨"curl"⟩, ⟨"nginx"⟩] }


/-! ### Notions of the properties of wrapIndent -/

/-- The bytes of a text that are not ASCII white space, in their order. -/
def nonSpace (s : Bytes) : Bytes :=
  s.filter (fun b => !asciiSpace b)

/-- The loop of `utf8.ValidString`: no character of `s` decodes to the error
of width 1, with `fuel` at least the length of `s`. -/
def validLoop : Nat → Bytes → Bool
  | _, [] => true
  | 0, _ :: _ => false
  | fuel + 1, c :: rest =>
    if (DecodeRuneInString (c :: rest)).1 = RuneError ∧ (DecodeRuneInString (c :: rest)).2 = 1 then
      false
    else validLoop fuel ((c :: rest).drop (DecodeRuneInString (c :: rest)).2)

/-- Function `utf8.ValidString`. -/
def ValidString (s : Bytes) : Bool :=
  validLoop s.length s

/-- A Japanese message of 32 characters, 96 bytes, without a space. -/
def japaneseMessage : Bytes :=
  utf8 "特権コンテナはホストのすべてのデバイスにアクセスできてしまいます"


/-- The cut of `remaining` at `bp` falls between two characters: what is
before it and what is after it are both the encoding of a string. -/
def OnBoundary (remaining : Bytes) (bp : Nat) : Prop :=
  ∃ line rest : String, remaining.take bp = utf8 line ∧ remaining.drop bp = utf8 rest

/-- Every cut that `wrapIndent` makes in `remaining` and in what follows it
falls between two characters. -/
inductive CutsOnBoundaries (width : Int) (indent : Bytes) : Bytes → Bool → Prop where
  | fits (remaining : Bytes) (firstLine : Bool)
      (hfit : (remaining.length : Int) ≤ takeLen width indent firstLine) :
      CutsOnBoundaries width indent remaining firstLine
  | cut (remaining : Bytes) (firstLine : Bool) (limit : Nat)
      (hlimit : takeLen width indent firstLine = limit) (hlong : limit < remaining.length)
      (hcut : OnBoundary remaining (breakPoint remaining limit))
      (hrest : CutsOnBoundaries width indent
        (TrimSpace (remaining.drop (breakPoint remaining limit))) false) :
      CutsOnBoundaries width indent remaining firstLine

/-- A Japanese text of 28 bytes with one space, after its sixth character. -/
def japaneseWithSpace : Bytes :=
  utf8 "特権コンテナ は不可"

end WhyBlocked

namespace WhyBlocked

/-! ## Validation -/

theorem StatusBlocked_ne_StatusAllowed : StatusBlocked ≠ StatusAllowed := by decide

theorem IsValid_iff (s : DecisionStatus) :
    IsValid s = true ↔ s = StatusBlocked ∨ s = StatusAllowed := by
  unfold IsValid
  split <;> simp_all

/-- C1: `Validate` returns the first applicable error in the fixed order
identifier, resource reference, status, version: `ErrInvalidID` when the
identifier is empty; else `ErrInvalidResource` when kind, name or namespace is
empty; else an error wrapping `ErrInvalidStatus` when the status is neither
BLOCKED nor ALLOWED; else `ErrInvalidVersion` when the version is empty. It
returns no error exactly when none of the four conditions holds, and two
decisions that agree on these six fields get the same result. -/
theorem Validate_first_applicable_error (d : SecurityDecision) :
    (d.ID = "" → Validate d = some ValidationError.ErrInvalidID) ∧
    (d.ID ≠ "" →
      (d.Resource.Kind = "" ∨ d.Resource.Name = "" ∨ d.Resource.Namespace = "") →
      Validate d = some ValidationError.ErrInvalidResource) ∧
    (d.ID ≠ "" →
      ¬ (d.Resource.Kind = "" ∨ d.Resource.Name = "" ∨ d.Resource.Namespace = "") →
      ¬ (d.Status = StatusBlocked ∨ d.Status = StatusAllowed) →
      Validate d = some (ValidationError.wrapped ValidationError.ErrInvalidStatus d.Status) ∧
      errorsIs (ValidationError.wrapped ValidationError.ErrInvalidStatus d.Status)
        ValidationError.ErrInvalidStatus = true) ∧
    (d.ID ≠ "" →
      ¬ (d.Resource.Kind = "" ∨ d.Resource.Name = "" ∨ d.Resource.Namespace = "") →
      (d.Status = StatusBlocked ∨ d.Status = StatusAllowed) →
      d.Version = "" →
      Validate d = some ValidationError.ErrInvalidVersion) ∧
    (Validate d = none ↔
      d.ID ≠ "" ∧
      ¬ (d.Resource.Kind = "" ∨ d.Resource.Name = "" ∨ d.Resource.Namespace = "") ∧
      (d.Status = StatusBlocked ∨ d.Status = StatusAllowed) ∧
      d.Version ≠ "") ∧
    (∀ d2 : SecurityDecision,
      d2.ID = d.ID → d2.Resource.Kind = d.Resource.Kind → d2.Resource.Name = d.Resource.Name →
      d2.Resource.Namespace = d.Resource.Namespace → d2.Status = d.Status →
      d2.Version = d.Version → Validate d2 = Validate d) := by
  refine ⟨?_, ?_, ?_, ?_, ?_, ?_⟩
  · intro h
    simp [Validate, h]
  · intro h1 h2
    simp [Validate, h1, h2]
  · intro h1 h2 h3
    have hv : IsValid d.Status = false := by
      cases hs : IsValid d.Status
      · rfl
      · exact absurd ((IsValid_iff _).1 hs) h3
    refine ⟨?_, ?_⟩
    · simp [Validate, h1, h2, hv]
    · simp [errorsIs]
  · intro h1 h2 h3 h4
    have hv : IsValid d.Status = true := (IsValid_iff _).2 h3
    simp [Validate, h1, h2, hv, h4]
  · constructor
    · intro h
      unfold Validate at h
      split_ifs at h with h1 h2 h3 h4
      refine ⟨h1, h2, ?_, h4⟩
      apply (IsValid_iff _).1
      simpa using h3
    · rintro ⟨h1, h2, h3, h4⟩
      have hv : IsValid d.Status = true := (IsValid_iff _).2 h3
      simp [Validate, h1, h2, hv, h4]
  · intro d2 e1 e2 e3 e4 e5 e6
    simp [Validate, e1, e2, e3, e4, e5, e6]

/-- Instance of C1 on a concrete decision: a complete decision with status
`INVALID` (and an empty version) is rejected with the status error. -/
theorem Validate_first_applicable_error_witness :
    Validate { ID := "test-123", Timestamp := ⟨0, 0⟩,
               Resource := { Kind := "Deployment", Name := "test-app", Namespace := "default" },
               Status := "INVALID", Summary := "", Version := "" }
      = some (ValidationError.wrapped ValidationError.ErrInvalidStatus "INVALID") :=
  ((Validate_first_applicable_error _).2.2.1 (by decide) (by decide) (by decide)).1

/-! ## Evaluation: status -/

/-- C2: the decision returned by `Evaluate` has status BLOCKED if and only if
its violation sequence is non-empty, and status ALLOWED if and only if it is
empty. -/
theorem Evaluate_status_iff_violations (e : Evaluator) (spec : Obj) (timestamp : Time)
    (decisionID : String) :
    ((Evaluate e spec timestamp decisionID).Status = StatusBlocked ↔
      items (Evaluate e spec timestamp decisionID).Violations ≠ []) ∧
    ((Evaluate e spec timestamp decisionID).Status = StatusAllowed ↔
      items (Evaluate e spec timestamp decisionID).Violations = []) := by
  unfold Evaluate
  by_cases h : len (checkViolations e spec) > 0
  · have hne : items (checkViolations e spec) ≠ [] := by
      intro h0
      simp [len, h0] at h
    simp [h, hne, StatusBlocked_ne_StatusAllowed]
  · have hnil : items (none : Slice Violation) = [] := rfl
    simp [h, hnil, StatusBlocked_ne_StatusAllowed.symm]

/-! ## Range loops -/

theorem rangeFirst_eq_none {α β : Type} (body : Nat → α → Option β) (xs : List α) (i : Nat) :
    rangeFirst body i xs = none ↔ ∀ j x, xs[j]? = some x → body (i + j) x = none := by
  induction xs generalizing i with
  | nil => simp [rangeFirst]
  | cons a as ih =>
    unfold rangeFirst
    cases hb : body i a with
    | some r =>
      simp only [false_iff, reduceCtorEq]
      intro hall
      have := hall 0 a (by simp)
      simp [hb] at this
    | none =>
      simp only [ih]
      constructor
      · intro hall j x hj
        cases j with
        | zero =>
          simp at hj
          subst hj
          simpa using hb
        | succ k =>
          simp at hj
          have := hall k x hj
          rwa [Nat.add_assoc, Nat.add_comm 1 k] at this
      · intro hall j x hj
        have := hall (j + 1) x (by simpa using hj)
        rwa [Nat.add_assoc, Nat.add_comm 1 j]

theorem rangeFirst_eq_some {α β : Type} (body : Nat → α → Option β) (xs : List α) (i : Nat)
    (r : β) :
    rangeFirst body i xs = some r ↔
      ∃ j x, xs[j]? = some x ∧ body (i + j) x = some r ∧
        ∀ k y, k < j → xs[k]? = some y → body (i + k) y = none := by
  induction xs generalizing i with
  | nil => simp [rangeFirst]
  | cons a as ih =>
    unfold rangeFirst
    cases hb : body i a with
    | some r0 =>
      constructor
      · intro h
        refine ⟨0, a, by simp, ?_, ?_⟩
        · simpa [hb] using h
        · intro k y hk
          omega
      · rintro ⟨j, x, hj, hx, hfirst⟩
        cases j with
        | zero =>
          simp at hj
          subst hj
          simpa [hb] using hx
        | succ k =>
          have := hfirst 0 a (by omega) (by simp)
          simp [hb] at this
    | none =>
      simp only [ih]
      constructor
      · rintro ⟨j, x, hj, hx, hfirst⟩
        refine ⟨j + 1, x, by simpa using hj, ?_, ?_⟩
        · rwa [Nat.add_assoc, Nat.add_comm 1 j] at hx
        · intro k y hk hy
          cases k with
          | zero =>
            simp at hy
            subst hy
            simpa using hb
          | succ m =>
            simp at hy
            have := hfirst m y (by omega) hy
            rwa [Nat.add_assoc, Nat.add_comm 1 m] at this
      · rintro ⟨j, x, hj, hx, hfirst⟩
        cases j with
        | zero =>
          simp at hj
          subst hj
          simp [hb] at hx
        | succ m =>
          refine ⟨m, x, by simpa using hj, ?_, ?_⟩
          · rwa [Nat.add_assoc, Nat.add_comm 1 m]
          · intro k y hk hy
            have := hfirst (k + 1) y (by omega) (by simpa using hy)
            rwa [Nat.add_assoc, Nat.add_comm 1 k]

/-! ## The violation sequence of a decision -/

theorem items_checkViolations_of_podSpec (e : Evaluator) (spec podSpec : Obj)
    (h : extractPodSpec spec = some podSpec) :
    items (checkViolations e spec) = checksAgainst podSpec := by
  unfold checkViolations checksAgainst
  simp only [h]
  cases checkPrivileged podSpec <;> cases checkHostPath podSpec <;>
    cases checkRunAsNonRoot podSpec <;> cases checkLatestTag podSpec <;>
    simp [appendIfFound, append, items]

theorem items_checkViolations_of_none (e : Evaluator) (spec : Obj)
    (h : extractPodSpec spec = none) :
    items (checkViolations e spec) = [] := by
  unfold checkViolations
  simp [h, items]

theorem items_Evaluate_Violations (e : Evaluator) (spec : Obj) (timestamp : Time)
    (decisionID : String) :
    items (Evaluate e spec timestamp decisionID).Violations = items (checkViolations e spec) := by
  unfold Evaluate
  by_cases h : len (checkViolations e spec) > 0
  · simp [h]
  · have h0 : items (checkViolations e spec) = [] := by
      cases hi : items (checkViolations e spec) with
      | nil => rfl
      | cons a as => simp [len, hi] at h
    simp only [h, if_false]
    rw [h0]
    rfl

/-! ## Privileged containers -/

theorem checkPrivilegedBody_eq_none_iff (i : Nat) (c : Value) :
    checkPrivilegedBody i c = none ↔ ¬ privilegedContainer c := by
  unfold checkPrivilegedBody privilegedContainer
  cases c with
  | object container =>
    cases hsc : index container "securityContext" with
    | none => simp [assertMap, hsc]
    | some sv =>
      cases sv with
      | object sc =>
        cases hp : index sc "privileged" with
        | none => simp [assertMap, assertBool, hsc, hp]
        | some pv =>
          cases pv with
          | bool b => cases b <;> simp [assertMap, assertBool, hsc, hp]
          | _ => simp [assertMap, assertBool, hsc, hp]
      | _ => simp [assertMap, hsc]
  | _ => simp [assertMap]

theorem checkPrivilegedBody_eq_some (i : Nat) (c : Value) (v : Violation)
    (h : checkPrivilegedBody i c = some v) :
    v.PolicyID = "POL-SEC-001" ∧ v.Severity = SeverityCritical ∧
    ∃ ev, v.Evidence = some [ev] ∧ ev.Type_ = EvidenceK8sField ∧
      ev.Subject = "spec.template.spec.containers[" ++ fmtInt i ++ "].securityContext.privileged" := by
  unfold checkPrivilegedBody at h
  split at h
  · simp at h
  · split at h
    · simp at h
    · split at h
      · simp only [Option.some.injEq] at h
        subst h
        exact ⟨rfl, rfl, _, rfl, rfl, rfl⟩
      · simp at h

/-! ## Strings -/

theorem HasSuffix_iff (s suffix : String) :
    HasSuffix s suffix = true ↔ ∃ front : String, s = front ++ suffix := by
  unfold HasSuffix
  rw [List.isSuffixOf_iff_suffix]
  constructor
  · rintro ⟨t, ht⟩
    refine ⟨⟨t⟩, ?_⟩
    apply String.ext
    rw [String.data_append]
    exact ht.symm
  · rintro ⟨front, rfl⟩
    exact ⟨front.data, (String.data_append front suffix).symm⟩

theorem tails_any_singleton (ch : Char) (l : List Char) :
    l.tails.any (fun t => [ch].isPrefixOf t) = true ↔ ch ∈ l := by
  induction l with
  | nil => simp [List.isPrefixOf]
  | cons a as ih =>
    simp only [List.tails, List.any_cons, Bool.or_eq_true, ih, List.mem_cons]
    simp [List.isPrefixOf]

theorem Contains_colon_iff (s : String) : Contains s ":" = true ↔ ':' ∈ s.data := by
  unfold Contains
  exact tails_any_singleton ':' s.data

theorem mutableImage_iff (image : String) :
    (HasSuffix image ":latest" || !Contains image ":") = true ↔ mutableImage image := by
  unfold mutableImage
  rw [Bool.or_eq_true, HasSuffix_iff]
  have hc : (!Contains image ":") = true ↔ ∀ ch ∈ image.data, ch ≠ ':' := by
    rw [Bool.not_eq_true', ← Bool.not_eq_true, Contains_colon_iff]
    constructor
    · intro h ch hch heq
      exact h (heq ▸ hch)
    · intro h hmem
      exact h ':' hmem rfl
  rw [hc]

/-! ## HostPath volumes -/

theorem checkHostPathBody_eq_none_iff (i : Nat) (x : Value) :
    checkHostPathBody i x = none ↔ ¬ hostPathVolume x := by
  unfold checkHostPathBody hostPathVolume
  cases x with
  | object volume =>
    cases hh : index volume "hostPath" with
    | none => simp [assertMap, hh]
    | some hv => cases hv <;> simp [assertMap, hh]
  | _ => simp [assertMap]

theorem checkHostPathBody_eq_some (i : Nat) (x : Value) (v : Violation)
    (h : checkHostPathBody i x = some v) :
    v.PolicyID = "POL-SEC-002" ∧ v.Severity = SeverityHigh ∧
    ∃ volume hostPath ev, x = Value.object volume ∧
      index volume "hostPath" = some (Value.object hostPath) ∧
      v.Evidence = some [ev] ∧ ev.Type_ = EvidenceK8sField ∧
      ev.Subject = "spec.template.spec.volumes[" ++ fmtInt i ++ "].hostPath" ∧
      ev.Detail = "path: " ++ (assertString (index hostPath "path")).getD "" ∧
      v.Message = "Volume '" ++ (assertString (index volume "name")).getD "unknown" ++
        "' uses hostPath, which exposes host filesystem to the container." := by
  unfold checkHostPathBody at h
  cases x with
  | object volume =>
    cases hh : index volume "hostPath" with
    | none => simp [assertMap, hh] at h
    | some hv =>
      cases hv with
      | object hostPath =>
        simp only [assertMap, hh, Option.some.injEq] at h
        subst h
        refine ⟨rfl, rfl, volume, hostPath, _, rfl, hh, rfl, rfl, rfl, ?_, ?_⟩
        · cases assertString (index hostPath "path") <;> rfl
        · cases assertString (index volume "name") <;> rfl
      | _ => simp [assertMap, hh] at h
  | _ => simp [assertMap] at h

/-! ## runAsNonRoot -/

theorem runAsNonRootSet_iff (m : Obj) : runAsNonRootSet m = true ↔ setsRunAsNonRoot m := by
  unfold runAsNonRootSet setsRunAsNonRoot
  cases hsc : index m "securityContext" with
  | none => simp [assertMap]
  | some sv =>
    cases sv with
    | object sc =>
      cases hp : index sc "runAsNonRoot" with
      | none => simp [assertMap, assertBool, hp]
      | some pv =>
        cases pv with
        | bool b => cases b <;> simp [assertMap, assertBool, hp]
        | _ => simp [assertMap, assertBool, hp]
    | _ => simp [assertMap]

theorem checkRunAsNonRootBody_eq_none_iff (i : Nat) (c : Value) :
    checkRunAsNonRootBody i c = none ↔
      ¬ ∃ container, c = Value.object container ∧ ¬ setsRunAsNonRoot container := by
  unfold checkRunAsNonRootBody
  cases c with
  | object container =>
    simp only [assertMap, ← runAsNonRootSet_iff]
    cases hr : runAsNonRootSet container <;> simp [hr]
  | _ => simp [assertMap]

theorem checkRunAsNonRootBody_eq_some (i : Nat) (c : Value) (v : Violation)
    (h : checkRunAsNonRootBody i c = some v) :
    v.PolicyID = "POL-SEC-003" ∧ v.Severity = SeverityHigh ∧
    ∃ ev, v.Evidence = some [ev] ∧ ev.Type_ = EvidenceK8sField ∧
      ev.Subject =
        "spec.template.spec.containers[" ++ fmtInt i ++ "].securityContext.runAsNonRoot" := by
  unfold checkRunAsNonRootBody at h
  cases c with
  | object container =>
    simp only [assertMap] at h
    cases hr : runAsNonRootSet container with
    | true => simp [hr] at h
    | false =>
      simp only [hr, Bool.not_false, if_true, Option.some.injEq] at h
      subst h
      exact ⟨rfl, rfl, _, rfl, rfl, rfl⟩
  | _ => simp [assertMap] at h

/-! ## Image tags -/

theorem checkLatestTagBody_eq_none_iff (i : Nat) (c : Value) :
    checkLatestTagBody i c = none ↔
      ¬ ∃ container image, c = Value.object container ∧
        index container "image" = some (Value.string image) ∧ mutableImage image := by
  unfold checkLatestTagBody
  cases c with
  | object container =>
    cases hi : index container "image" with
    | none => simp [assertMap, assertString, hi]
    | some iv =>
      cases iv with
      | string image =>
        simp only [assertMap, assertString, hi]
        by_cases hm : mutableImage image
        · have hb := (mutableImage_iff image).2 hm
          simp only [hb, if_true]
          constructor
          · intro h
            exact absurd h (by simp)
          · intro h
            exact absurd ⟨container, image, rfl, hi, hm⟩ h
        · have hb : (HasSuffix image ":latest" || !Contains image ":") = false := by
            cases hx : (HasSuffix image ":latest" || !Contains image ":") with
            | false => rfl
            | true => exact absurd ((mutableImage_iff image).1 hx) hm
          simp only [hb, Bool.false_eq_true, if_false, true_iff]
          rintro ⟨c2, im2, hc, hi2, hm2⟩
          cases hc
          rw [hi] at hi2
          cases hi2
          exact hm hm2
      | _ => simp [assertMap, assertString, hi]
  | _ => simp [assertMap]

theorem checkLatestTagBody_eq_some (i : Nat) (c : Value) (v : Violation)
    (h : checkLatestTagBody i c = some v) :
    v.PolicyID = "POL-SEC-004" ∧ v.Severity = SeverityHigh ∧
    ∃ container image ev, c = Value.object container ∧
      index container "image" = some (Value.string image) ∧ mutableImage image ∧
      v.Evidence = some [ev] ∧ ev.Type_ = EvidenceK8sField ∧
      ev.Subject = "spec.template.spec.containers[" ++ fmtInt i ++ "].image" ∧
      ev.Detail = image := by
  unfold checkLatestTagBody at h
  cases c with
  | object container =>
    cases hi : index container "image" with
    | none => simp [assertMap, assertString, hi] at h
    | some iv =>
      cases iv with
      | string image =>
        simp only [assertMap, assertString, hi] at h
        cases hm : (HasSuffix image ":latest" || !Contains image ":") with
        | false => simp [hm] at h
        | true =>
          simp only [hm, if_true, Option.some.injEq] at h
          subst h
          exact ⟨rfl, rfl, container, image, _, rfl, hi, (mutableImage_iff image).1 hm,
            rfl, rfl, rfl, rfl⟩
      | _ => simp [assertMap, assertString, hi] at h
  | _ => simp [assertMap] at h

/-! ## Loops that return at the first element with a property -/

theorem rangeFirst_eq_some_first {α β : Type} (body : Nat → α → Option β) (P : α → Prop)
    (hbody : ∀ i x, body i x = none ↔ ¬ P x) (xs : List α) (r : β) :
    rangeFirst body 0 xs = some r ↔
      ∃ j x, xs[j]? = some x ∧ P x ∧ body j x = some r ∧
        ∀ k y, k < j → xs[k]? = some y → ¬ P y := by
  rw [rangeFirst_eq_some]
  constructor
  · rintro ⟨j, x, hj, hx, hfirst⟩
    refine ⟨j, x, hj, ?_, by simpa using hx, ?_⟩
    · by_contra hP
      have := (hbody (0 + j) x).2 hP
      rw [this] at hx
      exact absurd hx (by simp)
    · intro k y hk hy
      exact (hbody (0 + k) y).1 (hfirst k y hk hy)
  · rintro ⟨j, x, hj, _, hx, hfirst⟩
    refine ⟨j, x, hj, by simpa using hx, ?_⟩
    intro k y hk hy
    exact (hbody (0 + k) y).2 (hfirst k y hk hy)

theorem rangeFirst_isSome_iff {α β : Type} (body : Nat → α → Option β) (P : α → Prop)
    (hbody : ∀ i x, body i x = none ↔ ¬ P x) (xs : List α) :
    (∃ r, rangeFirst body 0 xs = some r) ↔ ∃ x ∈ xs, P x := by
  constructor
  · rintro ⟨r, hr⟩
    obtain ⟨j, x, hj, hP, -, -⟩ := (rangeFirst_eq_some_first body P hbody xs r).1 hr
    exact ⟨x, List.mem_iff_getElem?.2 ⟨j, hj⟩, hP⟩
  · rintro ⟨x, hx, hP⟩
    cases hr : rangeFirst body 0 xs with
    | some r => exact ⟨r, rfl⟩
    | none =>
      obtain ⟨j, hj⟩ := List.getElem?_of_mem hx
      have := (rangeFirst_eq_none body xs 0).1 hr j x hj
      exact absurd hP ((hbody _ _).1 this)

theorem assertSlice_eq_some_iff (o : Option Value) (xs : List Value) :
    assertSlice o = some xs ↔ o = some (Value.array xs) := by
  cases o with
  | none => simp [assertSlice]
  | some v => cases v <;> simp [assertSlice]

/-! ## The four checks -/

theorem checkPrivileged_eq_some_iff (podSpec : Obj) (v : Violation) :
    checkPrivileged podSpec = some v ↔
      ∃ containers j c, index podSpec "containers" = some (Value.array containers) ∧
        containers[j]? = some c ∧ privilegedContainer c ∧ checkPrivilegedBody j c = some v ∧
        ∀ k y, k < j → containers[k]? = some y → ¬ privilegedContainer y := by
  unfold checkPrivileged
  cases hs : assertSlice (index podSpec "containers") with
  | none =>
    simp only [false_iff, reduceCtorEq]
    rintro ⟨containers, j, c, hc, -⟩
    rw [(assertSlice_eq_some_iff _ _).2 hc] at hs
    exact absurd hs (by simp)
  | some xs =>
    have hx := (assertSlice_eq_some_iff _ _).1 hs
    simp only [rangeFirst_eq_some_first _ _ checkPrivilegedBody_eq_none_iff, hx,
      Option.some.injEq, Value.array.injEq]
    constructor
    · rintro ⟨j, c, h⟩
      exact ⟨xs, j, c, rfl, h⟩
    · rintro ⟨containers, j, c, rfl, h⟩
      exact ⟨j, c, h⟩

theorem checkHostPath_eq_some_iff (podSpec : Obj) (v : Violation) :
    checkHostPath podSpec = some v ↔
      ∃ volumes j x, index podSpec "volumes" = some (Value.array volumes) ∧
        volumes[j]? = some x ∧ hostPathVolume x ∧ checkHostPathBody j x = some v ∧
        ∀ k y, k < j → volumes[k]? = some y → ¬ hostPathVolume y := by
  unfold checkHostPath
  cases hs : assertSlice (index podSpec "volumes") with
  | none =>
    simp only [false_iff, reduceCtorEq]
    rintro ⟨volumes, j, c, hc, -⟩
    rw [(assertSlice_eq_some_iff _ _).2 hc] at hs
    exact absurd hs (by simp)
  | some xs =>
    have hx := (assertSlice_eq_some_iff _ _).1 hs
    simp only [rangeFirst_eq_some_first _ _ checkHostPathBody_eq_none_iff, hx,
      Option.some.injEq, Value.array.injEq]
    constructor
    · rintro ⟨j, c, h⟩
      exact ⟨xs, j, c, rfl, h⟩
    · rintro ⟨volumes, j, c, rfl, h⟩
      exact ⟨j, c, h⟩

theorem checkRunAsNonRoot_eq_some_iff (podSpec : Obj) (v : Violation) :
    checkRunAsNonRoot podSpec = some v ↔
      ¬ setsRunAsNonRoot podSpec ∧
      ∃ containers j c, index podSpec "containers" = some (Value.array containers) ∧
        containers[j]? = some c ∧
        (∃ container, c = Value.object container ∧ ¬ setsRunAsNonRoot container) ∧
        checkRunAsNonRootBody j c = some v ∧
        ∀ k y, k < j → containers[k]? = some y →
          ¬ ∃ container, y = Value.object container ∧ ¬ setsRunAsNonRoot container := by
  unfold checkRunAsNonRoot
  by_cases hp : setsRunAsNonRoot podSpec
  · simp [(runAsNonRootSet_iff podSpec).2 hp, hp]
  · have hb : runAsNonRootSet podSpec = false := by
      cases hx : runAsNonRootSet podSpec with
      | false => rfl
      | true => exact absurd ((runAsNonRootSet_iff podSpec).1 hx) hp
    simp only [hb, Bool.false_eq_true, if_false, hp, not_false_eq_true, true_and]
    cases hs : assertSlice (index podSpec "containers") with
    | none =>
      simp only [false_iff, reduceCtorEq]
      rintro ⟨containers, j, c, hc, -⟩
      rw [(assertSlice_eq_some_iff _ _).2 hc] at hs
      exact absurd hs (by simp)
    | some xs =>
      have hx := (assertSlice_eq_some_iff _ _).1 hs
      simp only [rangeFirst_eq_some_first _ _ checkRunAsNonRootBody_eq_none_iff, hx,
        Option.some.injEq, Value.array.injEq]
      constructor
      · rintro ⟨j, c, h⟩
        exact ⟨xs, j, c, rfl, h⟩
      · rintro ⟨containers, j, c, rfl, h⟩
        exact ⟨j, c, h⟩

theorem checkLatestTag_eq_some_iff (podSpec : Obj) (v : Violation) :
    checkLatestTag podSpec = some v ↔
      ∃ containers j c, index podSpec "containers" = some (Value.array containers) ∧
        containers[j]? = some c ∧
        (∃ container image, c = Value.object container ∧
          index container "image" = some (Value.string image) ∧ mutableImage image) ∧
        checkLatestTagBody j c = some v ∧
        ∀ k y, k < j → containers[k]? = some y →
          ¬ ∃ container image, y = Value.object container ∧
            index container "image" = some (Value.string image) ∧ mutableImage image := by
  unfold checkLatestTag
  cases hs : assertSlice (index podSpec "containers") with
  | none =>
    simp only [false_iff, reduceCtorEq]
    rintro ⟨containers, j, c, hc, -⟩
    rw [(assertSlice_eq_some_iff _ _).2 hc] at hs
    exact absurd hs (by simp)
  | some xs =>
    have hx := (assertSlice_eq_some_iff _ _).1 hs
    simp only [rangeFirst_eq_some_first _ _ checkLatestTagBody_eq_none_iff, hx,
      Option.some.injEq, Value.array.injEq]
    constructor
    · rintro ⟨j, c, h⟩
      exact ⟨xs, j, c, rfl, h⟩
    · rintro ⟨containers, j, c, rfl, h⟩
      exact ⟨j, c, h⟩

/-! ## Which check a violation of a decision comes from -/

theorem checkPrivileged_policy (podSpec : Obj) (v : Violation)
    (h : checkPrivileged podSpec = some v) :
    v.PolicyID = "POL-SEC-001" ∧ v.Severity = SeverityCritical := by
  obtain ⟨_, j, c, -, -, -, hb, -⟩ := (checkPrivileged_eq_some_iff podSpec v).1 h
  exact ⟨(checkPrivilegedBody_eq_some j c v hb).1, (checkPrivilegedBody_eq_some j c v hb).2.1⟩

theorem checkHostPath_policy (podSpec : Obj) (v : Violation)
    (h : checkHostPath podSpec = some v) :
    v.PolicyID = "POL-SEC-002" ∧ v.Severity = SeverityHigh := by
  obtain ⟨_, j, c, -, -, -, hb, -⟩ := (checkHostPath_eq_some_iff podSpec v).1 h
  exact ⟨(checkHostPathBody_eq_some j c v hb).1, (checkHostPathBody_eq_some j c v hb).2.1⟩

theorem checkRunAsNonRoot_policy (podSpec : Obj) (v : Violation)
    (h : checkRunAsNonRoot podSpec = some v) :
    v.PolicyID = "POL-SEC-003" ∧ v.Severity = SeverityHigh := by
  obtain ⟨-, _, j, c, -, -, -, hb, -⟩ := (checkRunAsNonRoot_eq_some_iff podSpec v).1 h
  exact ⟨(checkRunAsNonRootBody_eq_some j c v hb).1,
    (checkRunAsNonRootBody_eq_some j c v hb).2.1⟩

theorem checkLatestTag_policy (podSpec : Obj) (v : Violation)
    (h : checkLatestTag podSpec = some v) :
    v.PolicyID = "POL-SEC-004" ∧ v.Severity = SeverityHigh := by
  obtain ⟨_, j, c, -, -, -, hb, -⟩ := (checkLatestTag_eq_some_iff podSpec v).1 h
  exact ⟨(checkLatestTagBody_eq_some j c v hb).1, (checkLatestTagBody_eq_some j c v hb).2.1⟩

theorem mem_checksAgainst (podSpec : Obj) (v : Violation) :
    v ∈ checksAgainst podSpec ↔
      checkPrivileged podSpec = some v ∨ checkHostPath podSpec = some v ∨
        checkRunAsNonRoot podSpec = some v ∨ checkLatestTag podSpec = some v := by
  unfold checksAgainst
  simp only [List.mem_append, Option.mem_toList, Option.mem_def, or_assoc]

theorem mem_checksAgainst_privileged (podSpec : Obj) (v : Violation) :
    (v ∈ checksAgainst podSpec ∧ v.PolicyID = "POL-SEC-001") ↔
      checkPrivileged podSpec = some v := by
  rw [mem_checksAgainst]
  constructor
  · rintro ⟨h | h | h | h, hid⟩
    · exact h
    · rw [(checkHostPath_policy podSpec v h).1] at hid
      exact absurd hid (by decide)
    · rw [(checkRunAsNonRoot_policy podSpec v h).1] at hid
      exact absurd hid (by decide)
    · rw [(checkLatestTag_policy podSpec v h).1] at hid
      exact absurd hid (by decide)
  · intro h
    exact ⟨Or.inl h, (checkPrivileged_policy podSpec v h).1⟩

theorem mem_checksAgainst_hostPath (podSpec : Obj) (v : Violation) :
    (v ∈ checksAgainst podSpec ∧ v.PolicyID = "POL-SEC-002") ↔
      checkHostPath podSpec = some v := by
  rw [mem_checksAgainst]
  constructor
  · rintro ⟨h | h | h | h, hid⟩
    · rw [(checkPrivileged_policy podSpec v h).1] at hid
      exact absurd hid (by decide)
    · exact h
    · rw [(checkRunAsNonRoot_policy podSpec v h).1] at hid
      exact absurd hid (by decide)
    · rw [(checkLatestTag_policy podSpec v h).1] at hid
      exact absurd hid (by decide)
  · intro h
    exact ⟨Or.inr (Or.inl h), (checkHostPath_policy podSpec v h).1⟩

theorem mem_checksAgainst_runAsNonRoot (podSpec : Obj) (v : Violation) :
    (v ∈ checksAgainst podSpec ∧ v.PolicyID = "POL-SEC-003") ↔
      checkRunAsNonRoot podSpec = some v := by
  rw [mem_checksAgainst]
  constructor
  · rintro ⟨h | h | h | h, hid⟩
    · rw [(checkPrivileged_policy podSpec v h).1] at hid
      exact absurd hid (by decide)
    · rw [(checkHostPath_policy podSpec v h).1] at hid
      exact absurd hid (by decide)
    · exact h
    · rw [(checkLatestTag_policy podSpec v h).1] at hid
      exact absurd hid (by decide)
  · intro h
    exact ⟨Or.inr (Or.inr (Or.inl h)), (checkRunAsNonRoot_policy podSpec v h).1⟩

theorem mem_checksAgainst_latestTag (podSpec : Obj) (v : Violation) :
    (v ∈ checksAgainst podSpec ∧ v.PolicyID = "POL-SEC-004") ↔
      checkLatestTag podSpec = some v := by
  rw [mem_checksAgainst]
  constructor
  · rintro ⟨h | h | h | h, hid⟩
    · rw [(checkPrivileged_policy podSpec v h).1] at hid
      exact absurd hid (by decide)
    · rw [(checkHostPath_policy podSpec v h).1] at hid
      exact absurd hid (by decide)
    · rw [(checkRunAsNonRoot_policy podSpec v h).1] at hid
      exact absurd hid (by decide)
    · exact h
  · intro h
    exact ⟨Or.inr (Or.inr (Or.inr h)), (checkLatestTag_policy podSpec v h).1⟩

theorem items_Evaluate_of_podSpec (e : Evaluator) (spec podSpec : Obj) (timestamp : Time)
    (decisionID : String) (h : extractPodSpec spec = some podSpec) :
    items (Evaluate e spec timestamp decisionID).Violations = checksAgainst podSpec := by
  rw [items_Evaluate_Violations, items_checkViolations_of_podSpec e spec podSpec h]

theorem Evaluate_blocked_of_mem (e : Evaluator) (spec : Obj) (timestamp : Time)
    (decisionID : String) (v : Violation)
    (h : v ∈ items (Evaluate e spec timestamp decisionID).Violations) :
    (Evaluate e spec timestamp decisionID).Status = StatusBlocked := by
  unfold Evaluate at h ⊢
  by_cases hlen : len (checkViolations e spec) > 0
  · simp [hlen]
  · simp [hlen, items] at h

/-! ## Policy POL-SEC-001: privileged container -/

/-- C3: when the pod spec of a resource is found, the decision contains a
violation with policy id POL-SEC-001 if and only if the `containers` list of
the pod spec contains an object whose `securityContext` is an object with
`privileged` equal to the boolean true; such a violation has severity
CRITICAL and the decision is then BLOCKED; and when every `privileged` value
present is the boolean false or not a boolean, no such violation is raised. -/
theorem Evaluate_privileged_iff (e : Evaluator) (spec podSpec : Obj) (timestamp : Time)
    (decisionID : String) (h : extractPodSpec spec = some podSpec) :
    ((∃ v ∈ items (Evaluate e spec timestamp decisionID).Violations,
        v.PolicyID = "POL-SEC-001") ↔
      ∃ containers, index podSpec "containers" = some (Value.array containers) ∧
        ∃ c ∈ containers, privilegedContainer c) ∧
    (∀ v ∈ items (Evaluate e spec timestamp decisionID).Violations,
      v.PolicyID = "POL-SEC-001" →
        v.Severity = SeverityCritical ∧
        (Evaluate e spec timestamp decisionID).Status = StatusBlocked) ∧
    (∀ containers, index podSpec "containers" = some (Value.array containers) →
      (∀ c ∈ containers, ∀ container securityContext p,
        c = Value.object container →
        index container "securityContext" = some (Value.object securityContext) →
        index securityContext "privileged" = some p →
        p = Value.bool false ∨ ∀ b, p ≠ Value.bool b) →
      ¬ ∃ v ∈ items (Evaluate e spec timestamp decisionID).Violations,
        v.PolicyID = "POL-SEC-001") := by
  have hiff : (∃ v ∈ items (Evaluate e spec timestamp decisionID).Violations,
        v.PolicyID = "POL-SEC-001") ↔
      ∃ containers, index podSpec "containers" = some (Value.array containers) ∧
        ∃ c ∈ containers, privilegedContainer c := by
    rw [items_Evaluate_of_podSpec e spec podSpec timestamp decisionID h]
    constructor
    · rintro ⟨v, hv, hid⟩
      have hc := (mem_checksAgainst_privileged podSpec v).1 ⟨hv, hid⟩
      obtain ⟨containers, j, c, hcs, hj, hP, -, -⟩ := (checkPrivileged_eq_some_iff podSpec v).1 hc
      exact ⟨containers, hcs, c, List.mem_iff_getElem?.2 ⟨j, hj⟩, hP⟩
    · rintro ⟨containers, hcs, c, hc, hP⟩
      obtain ⟨v, hv⟩ := (rangeFirst_isSome_iff checkPrivilegedBody privilegedContainer
        checkPrivilegedBody_eq_none_iff containers).2 ⟨c, hc, hP⟩
      have hcheck : checkPrivileged podSpec = some v := by
        unfold checkPrivileged
        rw [(assertSlice_eq_some_iff _ _).2 hcs]
        exact hv
      have := (mem_checksAgainst_privileged podSpec v).2 hcheck
      exact ⟨v, this.1, this.2⟩
  refine ⟨hiff, ?_, ?_⟩
  · intro v hv hid
    refine ⟨?_, Evaluate_blocked_of_mem e spec timestamp decisionID v hv⟩
    rw [items_Evaluate_of_podSpec e spec podSpec timestamp decisionID h] at hv
    exact (checkPrivileged_policy podSpec v
      ((mem_checksAgainst_privileged podSpec v).1 ⟨hv, hid⟩)).2
  · intro containers hcs hall hex
    obtain ⟨containers2, hcs2, c, hc, container, securityContext, hobj, hsc, hpriv⟩ := hiff.1 hex
    rw [hcs] at hcs2
    cases hcs2
    rcases hall c hc container securityContext (Value.bool true) hobj hsc hpriv with h1 | h1
    · cases h1
    · exact h1 true rfl

/-- Instance of C3 on the input of `TestEvaluator_PrivilegedContainer`: the
decision carries a POL-SEC-001 violation. -/
theorem Evaluate_privileged_iff_witness :
    ∃ v ∈ items (Evaluate (New "v1alpha1") privilegedDeployment testTimestamp
        "test-001").Violations, v.PolicyID = "POL-SEC-001" :=
  (Evaluate_privileged_iff (New "v1alpha1") privilegedDeployment privilegedPodSpec
      testTimestamp "test-001" rfl).1.2
    ⟨[privilegedEntry], rfl, privilegedEntry, List.mem_singleton.2 rfl,
      ⟨_, _, rfl, rfl, rfl⟩⟩

/-! ## Policy POL-SEC-002: hostPath volume -/

theorem assertString_eq_some_iff (o : Option Value) (s : String) :
    assertString o = some s ↔ o = some (Value.string s) := by
  cases o with
  | none => simp [assertString]
  | some v => cases v <;> simp [assertString]

theorem assertString_getD_of_string (o : Option Value) (s d : String)
    (h : o = some (Value.string s)) : (assertString o).getD d = s := by
  rw [(assertString_eq_some_iff o s).2 h]
  rfl

theorem assertString_getD_of_not_string (o : Option Value) (d : String)
    (h : ∀ s, o ≠ some (Value.string s)) : (assertString o).getD d = d := by
  cases hs : assertString o with
  | none => rfl
  | some s => exact absurd ((assertString_eq_some_iff o s).1 hs) (h s)

/-- C4: when the pod spec of a resource is found, the decision contains a
violation with policy id POL-SEC-002 and severity HIGH if and only if the
`volumes` list of the pod spec contains an entry with a `hostPath`
sub-object. That violation describes the first such volume in list order (its
index is in the evidence subject and its name in the message), and it has a
single evidence entry whose detail is `path: ` followed by the string at
`hostPath.path`, or by nothing when that path is absent or not a string. -/
theorem Evaluate_hostPath_iff (e : Evaluator) (spec podSpec : Obj) (timestamp : Time)
    (decisionID : String) (h : extractPodSpec spec = some podSpec) :
    ((∃ v ∈ items (Evaluate e spec timestamp decisionID).Violations,
        v.PolicyID = "POL-SEC-002" ∧ v.Severity = SeverityHigh) ↔
      ∃ volumes, index podSpec "volumes" = some (Value.array volumes) ∧
        ∃ x ∈ volumes, hostPathVolume x) ∧
    (∀ v ∈ items (Evaluate e spec timestamp decisionID).Violations,
      v.PolicyID = "POL-SEC-002" →
      ∃ volumes j volume hostPath ev,
        index podSpec "volumes" = some (Value.array volumes) ∧
        volumes[j]? = some (Value.object volume) ∧
        index volume "hostPath" = some (Value.object hostPath) ∧
        (∀ k y, k < j → volumes[k]? = some y → ¬ hostPathVolume y) ∧
        v.Severity = SeverityHigh ∧
        v.Evidence = some [ev] ∧
        ev.Type_ = EvidenceK8sField ∧
        ev.Subject = "spec.template.spec.volumes[" ++ fmtInt j ++ "].hostPath" ∧
        (∀ p, index hostPath "path" = some (Value.string p) → ev.Detail = "path: " ++ p) ∧
        ((∀ p, index hostPath "path" ≠ some (Value.string p)) → ev.Detail = "path: ") ∧
        (∀ n, index volume "name" = some (Value.string n) →
          v.Message = "Volume '" ++ n ++
            "' uses hostPath, which exposes host filesystem to the container.") ∧
        ((∀ n, index volume "name" ≠ some (Value.string n)) →
          v.Message =
            "Volume 'unknown' uses hostPath, which exposes host filesystem to the container.")) := by
  rw [items_Evaluate_of_podSpec e spec podSpec timestamp decisionID h]
  constructor
  · constructor
    · rintro ⟨v, hv, hid, -⟩
      have hc := (mem_checksAgainst_hostPath podSpec v).1 ⟨hv, hid⟩
      obtain ⟨volumes, j, x, hvs, hj, hP, -, -⟩ := (checkHostPath_eq_some_iff podSpec v).1 hc
      exact ⟨volumes, hvs, x, List.mem_iff_getElem?.2 ⟨j, hj⟩, hP⟩
    · rintro ⟨volumes, hvs, x, hx, hP⟩
      obtain ⟨v, hv⟩ := (rangeFirst_isSome_iff checkHostPathBody hostPathVolume
        checkHostPathBody_eq_none_iff volumes).2 ⟨x, hx, hP⟩
      have hcheck : checkHostPath podSpec = some v := by
        unfold checkHostPath
        rw [(assertSlice_eq_some_iff _ _).2 hvs]
        exact hv
      have := (mem_checksAgainst_hostPath podSpec v).2 hcheck
      exact ⟨v, this.1, this.2, (checkHostPath_policy podSpec v hcheck).2⟩
  · intro v hv hid
    have hc := (mem_checksAgainst_hostPath podSpec v).1 ⟨hv, hid⟩
    obtain ⟨volumes, j, x, hvs, hj, -, hb, hfirst⟩ := (checkHostPath_eq_some_iff podSpec v).1 hc
    obtain ⟨-, hsev, volume, hostPath, ev, rfl, hhp, hev, hty, hsub, hdet, hmsg⟩ :=
      checkHostPathBody_eq_some j x v hb
    refine ⟨volumes, j, volume, hostPath, ev, hvs, hj, hhp, hfirst, hsev, hev, hty, hsub,
      ?_, ?_, ?_, ?_⟩
    · intro p hp
      rw [hdet, assertString_getD_of_string _ p "" hp]
    · intro hp
      rw [hdet, assertString_getD_of_not_string _ "" hp]
      rfl
    · intro n hn
      rw [hmsg, assertString_getD_of_string _ n "unknown" hn]
    · intro hn
      rw [hmsg, assertString_getD_of_not_string _ "unknown" hn]
      decide

/-- Instance of C4 on the input of `TestEvaluator_HostPathVolume`: the decision
carries a HIGH violation POL-SEC-002. -/
theorem Evaluate_hostPath_iff_witness :
    ∃ v ∈ items (Evaluate (New "v1alpha1") hostPathDeployment testTimestamp
        "test-002").Violations, v.PolicyID = "POL-SEC-002" ∧ v.Severity = SeverityHigh :=
  (Evaluate_hostPath_iff (New "v1alpha1") hostPathDeployment hostPathPodSpec
      testTimestamp "test-002" rfl).1.2
    ⟨[hostVolumeEntry], rfl, hostVolumeEntry, List.mem_singleton.2 rfl, ⟨_, _, rfl, rfl⟩⟩

/-! ## Policy POL-SEC-003: missing runAsNonRoot -/

/-- C5: when the pod spec of a resource is found: if the pod-level
`securityContext.runAsNonRoot` is the boolean true, no POL-SEC-003 violation
is raised, whatever the containers set; otherwise a HIGH violation POL-SEC-003
is raised if and only if some container of the `containers` list lacks an
explicit `securityContext.runAsNonRoot` equal to the boolean true, in
particular when the list has containers and none of them sets it; and the
evidence subject of the violation carries the list index of the first such
container in list order. -/
theorem Evaluate_runAsNonRoot (e : Evaluator) (spec podSpec : Obj) (timestamp : Time)
    (decisionID : String) (h : extractPodSpec spec = some podSpec) :
    (setsRunAsNonRoot podSpec →
      ¬ ∃ v ∈ items (Evaluate e spec timestamp decisionID).Violations,
        v.PolicyID = "POL-SEC-003") ∧
    (¬ setsRunAsNonRoot podSpec →
      ((∃ v ∈ items (Evaluate e spec timestamp decisionID).Violations,
          v.PolicyID = "POL-SEC-003" ∧ v.Severity = SeverityHigh) ↔
        ∃ containers, index podSpec "containers" = some (Value.array containers) ∧
          ∃ c ∈ containers, lacksRunAsNonRoot c)) ∧
    (¬ setsRunAsNonRoot podSpec →
      ∀ containers, index podSpec "containers" = some (Value.array containers) →
        (∃ container, Value.object container ∈ containers) →
        (∀ container, Value.object container ∈ containers → ¬ setsRunAsNonRoot container) →
        ∃ v ∈ items (Evaluate e spec timestamp decisionID).Violations,
          v.PolicyID = "POL-SEC-003" ∧ v.Severity = SeverityHigh) ∧
    (∀ v ∈ items (Evaluate e spec timestamp decisionID).Violations,
      v.PolicyID = "POL-SEC-003" →
      ∃ containers j c ev,
        index podSpec "containers" = some (Value.array containers) ∧
        containers[j]? = some c ∧ lacksRunAsNonRoot c ∧
        (∀ k y, k < j → containers[k]? = some y → ¬ lacksRunAsNonRoot y) ∧
        v.Severity = SeverityHigh ∧
        v.Evidence = some [ev] ∧
        ev.Type_ = EvidenceK8sField ∧
        ev.Subject = "spec.template.spec.containers[" ++ fmtInt j ++
          "].securityContext.runAsNonRoot") := by
  rw [items_Evaluate_of_podSpec e spec podSpec timestamp decisionID h]
  have hraise : ¬ setsRunAsNonRoot podSpec →
      ∀ containers, index podSpec "containers" = some (Value.array containers) →
        (∃ c ∈ containers, lacksRunAsNonRoot c) →
        ∃ v ∈ checksAgainst podSpec, v.PolicyID = "POL-SEC-003" ∧ v.Severity = SeverityHigh := by
    rintro hpod containers hcs ⟨c, hc, hP⟩
    obtain ⟨v, hv⟩ := (rangeFirst_isSome_iff checkRunAsNonRootBody lacksRunAsNonRoot
      checkRunAsNonRootBody_eq_none_iff containers).2 ⟨c, hc, hP⟩
    have hb : runAsNonRootSet podSpec = false := by
      cases hx : runAsNonRootSet podSpec with
      | false => rfl
      | true => exact absurd ((runAsNonRootSet_iff podSpec).1 hx) hpod
    have hcheck : checkRunAsNonRoot podSpec = some v := by
      unfold checkRunAsNonRoot
      rw [hb, (assertSlice_eq_some_iff _ _).2 hcs]
      exact hv
    have := (mem_checksAgainst_runAsNonRoot podSpec v).2 hcheck
    exact ⟨v, this.1, this.2, (checkRunAsNonRoot_policy podSpec v hcheck).2⟩
  refine ⟨?_, ?_, ?_, ?_⟩
  · rintro hpod ⟨v, hv, hid⟩
    have hc := (mem_checksAgainst_runAsNonRoot podSpec v).1 ⟨hv, hid⟩
    exact ((checkRunAsNonRoot_eq_some_iff podSpec v).1 hc).1 hpod
  · intro hpod
    constructor
    · rintro ⟨v, hv, hid, -⟩
      have hc := (mem_checksAgainst_runAsNonRoot podSpec v).1 ⟨hv, hid⟩
      obtain ⟨-, containers, j, c, hcs, hj, hP, -, -⟩ :=
        (checkRunAsNonRoot_eq_some_iff podSpec v).1 hc
      exact ⟨containers, hcs, c, List.mem_iff_getElem?.2 ⟨j, hj⟩, hP⟩
    · rintro ⟨containers, hcs, hex⟩
      exact hraise hpod containers hcs hex
  · rintro hpod containers hcs ⟨container, hmem⟩ hnone
    exact hraise hpod containers hcs ⟨_, hmem, container, rfl, hnone container hmem⟩
  · intro v hv hid
    have hc := (mem_checksAgainst_runAsNonRoot podSpec v).1 ⟨hv, hid⟩
    obtain ⟨-, containers, j, c, hcs, hj, hP, hb, hfirst⟩ :=
      (checkRunAsNonRoot_eq_some_iff podSpec v).1 hc
    obtain ⟨-, hsev, ev, hev, hty, hsub⟩ := checkRunAsNonRootBody_eq_some j c v hb
    exact ⟨containers, j, c, ev, hcs, hj, hP, hfirst, hsev, hev, hty, hsub⟩

/-- Instance of C5 on the input of `TestEvaluator_RunAsNonRootMissing`: the
decision carries a HIGH violation POL-SEC-003. -/
theorem Evaluate_runAsNonRoot_witness :
    ∃ v ∈ items (Evaluate (New "v1alpha1") insecureDeployment testTimestamp
        "test-003").Violations, v.PolicyID = "POL-SEC-003" ∧ v.Severity = SeverityHigh :=
  ((Evaluate_runAsNonRoot (New "v1alpha1") insecureDeployment rootPodSpec
      testTimestamp "test-003" rfl).2.1
      (fun ⟨sc, hsc, _⟩ =>
        Option.noConfusion (show (none : Option Value) = some (Value.object sc) from hsc))).2
    ⟨[rootEntry], rfl, rootEntry, List.mem_singleton.2 rfl, ⟨_, rfl,
      fun ⟨sc, hsc, _⟩ =>
        Option.noConfusion (show (none : Option Value) = some (Value.object sc) from hsc)⟩⟩

/-! ## Policy POL-SEC-004: mutable image tag -/

/-- C6: when the pod spec of a resource is found, a HIGH violation POL-SEC-004
is raised if and only if some container of the `containers` list has an
`image` string that ends in `:latest` or contains no colon; the violation is
for the first such container in list order, and the detail of its single
evidence entry is that container's image string itself. -/
theorem Evaluate_latestTag_iff (e : Evaluator) (spec podSpec : Obj) (timestamp : Time)
    (decisionID : String) (h : extractPodSpec spec = some podSpec) :
    ((∃ v ∈ items (Evaluate e spec timestamp decisionID).Violations,
        v.PolicyID = "POL-SEC-004" ∧ v.Severity = SeverityHigh) ↔
      ∃ containers, index podSpec "containers" = some (Value.array containers) ∧
        ∃ c ∈ containers, mutableImageContainer c) ∧
    (∀ v ∈ items (Evaluate e spec timestamp decisionID).Violations,
      v.PolicyID = "POL-SEC-004" →
      ∃ containers j container image ev,
        index podSpec "containers" = some (Value.array containers) ∧
        containers[j]? = some (Value.object container) ∧
        index container "image" = some (Value.string image) ∧
        mutableImage image ∧
        (∀ k y, k < j → containers[k]? = some y → ¬ mutableImageContainer y) ∧
        v.Severity = SeverityHigh ∧
        v.Evidence = some [ev] ∧
        ev.Type_ = EvidenceK8sField ∧
        ev.Subject = "spec.template.spec.containers[" ++ fmtInt j ++ "].image" ∧
        ev.Detail = image) := by
  rw [items_Evaluate_of_podSpec e spec podSpec timestamp decisionID h]
  constructor
  · constructor
    · rintro ⟨v, hv, hid, -⟩
      have hc := (mem_checksAgainst_latestTag podSpec v).1 ⟨hv, hid⟩
      obtain ⟨containers, j, c, hcs, hj, hP, -, -⟩ := (checkLatestTag_eq_some_iff podSpec v).1 hc
      exact ⟨containers, hcs, c, List.mem_iff_getElem?.2 ⟨j, hj⟩, hP⟩
    · rintro ⟨containers, hcs, c, hc, hP⟩
      obtain ⟨v, hv⟩ := (rangeFirst_isSome_iff checkLatestTagBody mutableImageContainer
        checkLatestTagBody_eq_none_iff containers).2 ⟨c, hc, hP⟩
      have hcheck : checkLatestTag podSpec = some v := by
        unfold checkLatestTag
        rw [(assertSlice_eq_some_iff _ _).2 hcs]
        exact hv
      have := (mem_checksAgainst_latestTag podSpec v).2 hcheck
      exact ⟨v, this.1, this.2, (checkLatestTag_policy podSpec v hcheck).2⟩
  · intro v hv hid
    have hc := (mem_checksAgainst_latestTag podSpec v).1 ⟨hv, hid⟩
    obtain ⟨containers, j, c, hcs, hj, -, hb, hfirst⟩ :=
      (checkLatestTag_eq_some_iff podSpec v).1 hc
    obtain ⟨-, hsev, container, image, ev, rfl, himg, hmut, hev, hty, hsub, hdet⟩ :=
      checkLatestTagBody_eq_some j c v hb
    exact ⟨containers, j, container, image, ev, hcs, hj, himg, hmut, hfirst, hsev, hev, hty,
      hsub, hdet⟩

/-- Instance of C6 on the input of `TestEvaluator_LatestImageTag` (image
`nginx:latest`): the decision carries a HIGH violation POL-SEC-004. -/
theorem Evaluate_latestTag_iff_witness :
    ∃ v ∈ items (Evaluate (New "v1alpha1") latestTagDeployment testTimestamp
        "test-004").Violations, v.PolicyID = "POL-SEC-004" ∧ v.Severity = SeverityHigh :=
  (Evaluate_latestTag_iff (New "v1alpha1") latestTagDeployment latestPodSpec
      testTimestamp "test-004" rfl).1.2
    ⟨[latestEntry], rfl, latestEntry, List.mem_singleton.2 rfl,
      ⟨_, "nginx:latest", rfl, rfl, Or.inl ⟨"nginx", by decide⟩⟩⟩

/-! ## The safe baseline -/

theorem tail_after_last_eq {α : Type} (a : α) (l1 l2 t1 t2 : List α)
    (h : l1 ++ a :: t1 = l2 ++ a :: t2) (h1 : a ∉ t1) (h2 : a ∉ t2) : t1 = t2 := by
  induction l1 generalizing l2 with
  | nil =>
    cases l2 with
    | nil => simpa using h
    | cons b bs =>
      simp only [List.nil_append, List.cons_append, List.cons.injEq] at h
      exact absurd (h.2 ▸ List.mem_append_right bs (List.mem_cons_self a t2)) h1
  | cons c cs ih =>
    cases l2 with
    | nil =>
      simp only [List.nil_append, List.cons_append, List.cons.injEq] at h
      exact absurd (h.2 ▸ List.mem_append_right cs (List.mem_cons_self a t1)) h2
    | cons b bs =>
      simp only [List.cons_append, List.cons.injEq] at h
      exact ih bs h.2

theorem not_mutableImage_of_tagged (image : String) (h : taggedNotLatest image) :
    ¬ mutableImage image := by
  obtain ⟨name, tag, rfl, hcolon, hne⟩ := h
  rintro (⟨front, hfront⟩ | hno)
  · have hdata := congrArg String.data hfront
    simp only [String.data_append] at hdata
    have htag : tag.data = "latest".data := by
      apply tail_after_last_eq ':' name.data front.data tag.data "latest".data
      · simpa using hdata
      · intro hmem
        exact hcolon ':' hmem rfl
      · decide
    exact hne (String.ext htag)
  · apply hno ':' _ rfl
    simp [String.data_append]

theorem Evaluate_of_no_violations (e : Evaluator) (spec : Obj) (timestamp : Time)
    (decisionID : String) (h : items (checkViolations e spec) = []) :
    (Evaluate e spec timestamp decisionID).Status = StatusAllowed ∧
    (Evaluate e spec timestamp decisionID).Violations = none ∧
    (Evaluate e spec timestamp decisionID).NextActions = none ∧
    (Evaluate e spec timestamp decisionID).Summary = "Resource meets security requirements" := by
  have hlen : ¬ len (checkViolations e spec) > 0 := by simp [len, h]
  unfold Evaluate
  simp [hlen, buildSummary]

/-- C7: a resource in whose pod spec (when one is found) no container has
`securityContext.privileged` true, no volume has a `hostPath`, `runAsNonRoot:
true` is set at pod level or on every container, and every container image
carries a tag other than `latest`, is evaluated to status ALLOWED with zero
violations, zero next actions and the summary `Resource meets security
requirements`. -/
theorem Evaluate_safe_baseline (e : Evaluator) (spec : Obj) (timestamp : Time)
    (decisionID : String)
    (hsafe : ∀ podSpec, extractPodSpec spec = some podSpec →
      (∀ containers, index podSpec "containers" = some (Value.array containers) →
        ∀ c ∈ containers, ¬ privilegedContainer c) ∧
      (∀ volumes, index podSpec "volumes" = some (Value.array volumes) →
        ∀ x ∈ volumes, ¬ hostPathVolume x) ∧
      (setsRunAsNonRoot podSpec ∨
        ∀ containers, index podSpec "containers" = some (Value.array containers) →
          ∀ container, Value.object container ∈ containers → setsRunAsNonRoot container) ∧
      (∀ containers, index podSpec "containers" = some (Value.array containers) →
        ∀ container image, Value.object container ∈ containers →
          index container "image" = some (Value.string image) → taggedNotLatest image)) :
    (Evaluate e spec timestamp decisionID).Status = StatusAllowed ∧
    len (Evaluate e spec timestamp decisionID).Violations = 0 ∧
    len (Evaluate e spec timestamp decisionID).NextActions = 0 ∧
    (Evaluate e spec timestamp decisionID).Summary = "Resource meets security requirements" := by
  have hnone : items (checkViolations e spec) = [] := by
    cases hp : extractPodSpec spec with
    | none => exact items_checkViolations_of_none e spec hp
    | some podSpec =>
      obtain ⟨h1, h2, h3, h4⟩ := hsafe podSpec hp
      rw [items_checkViolations_of_podSpec e spec podSpec hp]
      apply List.eq_nil_iff_forall_not_mem.2
      intro v hv
      rcases (mem_checksAgainst podSpec v).1 hv with hc | hc | hc | hc
      · obtain ⟨containers, j, c, hcs, hj, hP, -, -⟩ :=
          (checkPrivileged_eq_some_iff podSpec v).1 hc
        exact h1 containers hcs c (List.mem_iff_getElem?.2 ⟨j, hj⟩) hP
      · obtain ⟨volumes, j, x, hvs, hj, hP, -, -⟩ := (checkHostPath_eq_some_iff podSpec v).1 hc
        exact h2 volumes hvs x (List.mem_iff_getElem?.2 ⟨j, hj⟩) hP
      · obtain ⟨hpod, containers, j, c, hcs, hj, ⟨container, rfl, hlack⟩, -, -⟩ :=
          (checkRunAsNonRoot_eq_some_iff podSpec v).1 hc
        rcases h3 with h3 | h3
        · exact hpod h3
        · exact hlack (h3 containers hcs container (List.mem_iff_getElem?.2 ⟨j, hj⟩))
      · obtain ⟨containers, j, c, hcs, hj, ⟨container, image, rfl, himg, hmut⟩, -, -⟩ :=
          (checkLatestTag_eq_some_iff podSpec v).1 hc
        exact not_mutableImage_of_tagged image
          (h4 containers hcs container image (List.mem_iff_getElem?.2 ⟨j, hj⟩) himg) hmut
  obtain ⟨hs, hv, hn, hsum⟩ := Evaluate_of_no_violations e spec timestamp decisionID hnone
  refine ⟨hs, ?_, ?_, hsum⟩
  · rw [hv]
    rfl
  · rw [hn]
    rfl

/-- Instance of C7 on the input of `TestEvaluator_SafeBaseline`. -/
theorem Evaluate_safe_baseline_witness :
    (Evaluate (New "v1alpha1") safeDeployment testTimestamp "test-005").Status = StatusAllowed ∧
    len (Evaluate (New "v1alpha1") safeDeployment testTimestamp "test-005").Violations = 0 ∧
    len (Evaluate (New "v1alpha1") safeDeployment testTimestamp "test-005").NextActions = 0 ∧
    (Evaluate (New "v1alpha1") safeDeployment testTimestamp "test-005").Summary =
      "Resource meets security requirements" := by
  apply Evaluate_safe_baseline
  intro podSpec hp
  have hp2 : some safePodSpec = some podSpec := hp
  cases hp2
  refine ⟨?_, ?_, ?_, ?_⟩
  · intro containers hcs c hc
    have hcs2 : some (Value.array [safeEntry]) = some (Value.array containers) := hcs
    cases hcs2
    rw [List.mem_singleton] at hc
    subst hc
    exact (checkPrivilegedBody_eq_none_iff 0 safeEntry).1 rfl
  · intro volumes hvs x hx
    have hvs2 : some (Value.array [Value.object [("name", Value.string "config-volume"),
        ("configMap", Value.object [("name", Value.string "app-config")])]]) =
        some (Value.array volumes) := hvs
    cases hvs2
    rw [List.mem_singleton] at hx
    subst hx
    exact (checkHostPathBody_eq_none_iff 0 _).1 rfl
  · exact Or.inl ⟨_, rfl, rfl⟩
  · intro containers hcs container image hc himg
    have hcs2 : some (Value.array [safeEntry]) = some (Value.array containers) := hcs
    cases hcs2
    rw [List.mem_singleton] at hc
    have hc2 : container = [("name", Value.string "app"), ("image", Value.string "myapp:1.2.3"),
        ("securityContext", Value.object [("privileged", Value.bool false),
          ("runAsNonRoot", Value.bool true)])] := by
      injection hc
    subst hc2
    have himg2 : some (Value.string "myapp:1.2.3") = some (Value.string image) := himg
    cases himg2
    exact ⟨"myapp", "1.2.3", by decide, by decide, by decide⟩

/-! ## Evidence subjects and field paths -/

theorem renderPath_template_containers (j : Nat) :
    renderPath [Seg.key "spec", Seg.key "template", Seg.key "spec", Seg.key "containers",
      Seg.idx j, Seg.key "securityContext", Seg.key "privileged"] =
    "spec.template.spec.containers[" ++ fmtInt j ++ "].securityContext.privileged" := by
  apply String.ext
  simp only [renderPath, renderSeg, String.join, List.map, List.foldl, String.data_append]
  generalize (fmtInt j).data = n
  simp only [List.append_assoc]
  rfl

theorem extractPodSpec_of_containers (spec s : Obj) (x : Value)
    (hs : index spec "spec" = some (Value.object s)) (hc : index s "containers" = some x) :
    extractPodSpec spec = some s := by
  unfold extractPodSpec
  simp [hs, assertMap, hasKey, hc]

theorem extractPodSpec_of_template (spec s t ts : Obj)
    (hs : index spec "spec" = some (Value.object s)) (hc : index s "containers" = none)
    (ht : index s "template" = some (Value.object t))
    (hts : index t "spec" = some (Value.object ts)) :
    extractPodSpec spec = some ts := by
  unfold extractPodSpec
  simp [hs, assertMap, hasKey, hc, ht, hts]

/-- For a workload, whose containers are under `spec.template.spec`, the
evidence subject of the POL-SEC-001 violation is the rendering of a field path
that leads, from the root of the input, to the `privileged` flag of the first
privileged container. -/
theorem Evaluate_privileged_subject_workload (e : Evaluator) (spec s t ts : Obj)
    (timestamp : Time) (decisionID : String)
    (hs : index spec "spec" = some (Value.object s)) (hc : index s "containers" = none)
    (ht : index s "template" = some (Value.object t))
    (hts : index t "spec" = some (Value.object ts)) :
    ∀ v ∈ items (Evaluate e spec timestamp decisionID).Violations,
      v.PolicyID = "POL-SEC-001" →
      ∃ containers j ev,
        index ts "containers" = some (Value.array containers) ∧
        (∀ k y, k < j → containers[k]? = some y → ¬ privilegedContainer y) ∧
        v.Evidence = some [ev] ∧ ev.Type_ = EvidenceK8sField ∧
        ev.Subject = renderPath [Seg.key "spec", Seg.key "template", Seg.key "spec",
          Seg.key "containers", Seg.idx j, Seg.key "securityContext", Seg.key "privileged"] ∧
        resolve (Value.object spec) [Seg.key "spec", Seg.key "template", Seg.key "spec",
          Seg.key "containers", Seg.idx j, Seg.key "securityContext", Seg.key "privileged"] =
          some (Value.bool true) := by
  intro v hv hid
  rw [items_Evaluate_of_podSpec e spec ts timestamp decisionID
    (extractPodSpec_of_template spec s t ts hs hc ht hts)] at hv
  have hcheck := (mem_checksAgainst_privileged ts v).1 ⟨hv, hid⟩
  obtain ⟨containers, j, c, hcs, hj, ⟨container, sc, rfl, hsc, hpriv⟩, hb, hfirst⟩ :=
    (checkPrivileged_eq_some_iff ts v).1 hcheck
  obtain ⟨-, -, ev, hev, hty, hsub⟩ := checkPrivilegedBody_eq_some j _ v hb
  refine ⟨containers, j, ev, hcs, hfirst, hev, hty, ?_, ?_⟩
  · rw [hsub, renderPath_template_containers]
  · simp [resolve, hs, ht, hts, hcs, hj, hsc, hpriv]

/-- C8 (evaluation at the failing input): for the Pod `privilegedPod`, whose
privileged flag is at `spec.containers[0].securityContext.privileged`, the
evidence of the POL-SEC-001 violation has type K8S_FIELD and subject
`spec.template.spec.containers[0].securityContext.privileged`, a field path
that leads nowhere in the input. -/
theorem Evaluate_privileged_pod_subject :
    ((items (Evaluate (New "v1alpha1") privilegedPod testTimestamp "test-pod").Violations).filter
        (fun v => v.PolicyID == "POL-SEC-001")).map
      (fun v => (items v.Evidence).map (fun ev => (ev.Type_, ev.Subject))) =
      [[("K8S_FIELD", "spec.template.spec.containers[0].securityContext.privileged")]] ∧
    renderPath [Seg.key "spec", Seg.key "template", Seg.key "spec", Seg.key "containers",
      Seg.idx 0, Seg.key "securityContext", Seg.key "privileged"] =
      "spec.template.spec.containers[0].securityContext.privileged" ∧
    resolve (Value.object privilegedPod) [Seg.key "spec", Seg.key "template", Seg.key "spec",
      Seg.key "containers", Seg.idx 0, Seg.key "securityContext", Seg.key "privileged"] = none ∧
    renderPath [Seg.key "spec", Seg.key "containers", Seg.idx 0, Seg.key "securityContext",
      Seg.key "privileged"] = "spec.containers[0].securityContext.privileged" ∧
    resolve (Value.object privilegedPod) [Seg.key "spec", Seg.key "containers", Seg.idx 0,
      Seg.key "securityContext", Seg.key "privileged"] = some (Value.bool true) :=
  ⟨by decide, by decide, rfl, by decide, rfl⟩

/-! ## Pod-spec selection -/

/-- C9 (counterexample): in `nullContainersWorkload` the top-level `spec` has
a `containers` key that holds null, not a list, and `spec.template.spec`
exists; the checks run against `spec.template.spec` find POL-SEC-001 and
POL-SEC-003, yet the decision is ALLOWED with no violation, because the checks
ran against the top-level `spec`. -/
theorem Evaluate_podSpec_nullContainers :
    resolve (Value.object nullContainersWorkload) [Seg.key "spec", Seg.key "containers"] =
      some Value.null ∧
    resolve (Value.object nullContainersWorkload)
      [Seg.key "spec", Seg.key "template", Seg.key "spec"] =
      some (Value.object privilegedPodSpec) ∧
    (checksAgainst privilegedPodSpec).map (fun v => v.PolicyID) =
      ["POL-SEC-001", "POL-SEC-003"] ∧
    (items (Evaluate (New "v1alpha1") nullContainersWorkload testTimestamp
      "test-009").Violations).map (fun v => v.PolicyID) = [] ∧
    (Evaluate (New "v1alpha1") nullContainersWorkload testTimestamp "test-009").Status =
      StatusAllowed :=
  ⟨rfl, rfl, by decide, by decide, by decide⟩

/-- C9 (amended): the checks run against the top-level `spec` section when it
is an object that has a `containers` key, whatever that key holds; otherwise
they run against `spec.template.spec` when `spec`, its `template` and the
`spec` of the template are objects; and when neither shape is found the
decision is ALLOWED with zero violations. -/
theorem Evaluate_podSpec_selection (e : Evaluator) (spec : Obj) (timestamp : Time)
    (decisionID : String) :
    (∀ s x, index spec "spec" = some (Value.object s) → index s "containers" = some x →
      items (Evaluate e spec timestamp decisionID).Violations = checksAgainst s) ∧
    (∀ s t ts, index spec "spec" = some (Value.object s) → index s "containers" = none →
      index s "template" = some (Value.object t) → index t "spec" = some (Value.object ts) →
      items (Evaluate e spec timestamp decisionID).Violations = checksAgainst ts) ∧
    ((∀ s, index spec "spec" = some (Value.object s) →
        index s "containers" = none ∧
        ∀ t, index s "template" = some (Value.object t) →
          ∀ ts, index t "spec" ≠ some (Value.object ts)) →
      (Evaluate e spec timestamp decisionID).Status = StatusAllowed ∧
      len (Evaluate e spec timestamp decisionID).Violations = 0) := by
  refine ⟨?_, ?_, ?_⟩
  · intro s x hs hc
    exact items_Evaluate_of_podSpec e spec s timestamp decisionID
      (extractPodSpec_of_containers spec s x hs hc)
  · intro s t ts hs hc ht hts
    exact items_Evaluate_of_podSpec e spec ts timestamp decisionID
      (extractPodSpec_of_template spec s t ts hs hc ht hts)
  · intro hneither
    have hnone : extractPodSpec spec = none := by
      unfold extractPodSpec
      cases hs : index spec "spec" with
      | none => simp [assertMap]
      | some sv =>
        cases sv with
        | object s =>
          obtain ⟨hc, ht⟩ := hneither s hs
          simp only [assertMap, hasKey, hc, Option.isSome_none, Bool.false_eq_true, if_false]
          cases htv : index s "template" with
          | none => simp [assertMap]
          | some tv =>
            cases tv with
            | object t =>
              simp only [assertMap]
              cases htsv : index t "spec" with
              | none => simp [assertMap]
              | some tsv =>
                cases tsv with
                | object ts => exact absurd htsv (ht t htv ts)
                | _ => simp [assertMap]
            | _ => simp [assertMap]
        | _ => simp [assertMap]
    obtain ⟨hst, hv, -, -⟩ := Evaluate_of_no_violations e spec timestamp decisionID
      (items_checkViolations_of_none e spec hnone)
    refine ⟨hst, ?_⟩
    rw [hv]
    rfl

/-- Instance of the amended C9 on the input of `TestEvaluator_PodDirectly`: the
violations of the decision are those of the checks run against the top-level
`spec`. -/
theorem Evaluate_podSpec_selection_witness :
    items (Evaluate (New "v1alpha1") testPod testTimestamp "test-006").Violations =
      checksAgainst latestPodSpec :=
  (Evaluate_podSpec_selection (New "v1alpha1") testPod testTimestamp "test-006").1
    latestPodSpec (Value.array [latestEntry]) rfl rfl

/-! ## Resource identification -/

theorem assertMap_eq_some_iff (o : Option Value) (m : Obj) :
    assertMap o = some m ↔ o = some (Value.object m) := by
  cases o with
  | none => simp [assertMap]
  | some v => cases v <;> simp [assertMap]

theorem extractResourceRef_fields (spec : Obj) :
    (extractResourceRef spec).Kind = (assertString (index spec "kind")).getD "Deployment" ∧
    (extractResourceRef spec).APIVersion = (assertString (index spec "apiVersion")).getD "" ∧
    (extractResourceRef spec).Name =
      ((assertMap (index spec "metadata")).bind
        (fun metadata => assertString (index metadata "name"))).getD "unknown" ∧
    (extractResourceRef spec).Namespace =
      ((assertMap (index spec "metadata")).bind
        (fun metadata => assertString (index metadata "namespace"))).getD "default" := by
  unfold extractResourceRef
  cases assertString (index spec "kind") <;> cases assertString (index spec "apiVersion") <;>
    cases assertMap (index spec "metadata") with
    | none => simp
    | some metadata =>
      dsimp only
      cases hn : assertString (index metadata "name") <;>
        cases hns : assertString (index metadata "namespace") <;> simp [hn, hns]

/-- C10: the resource reference of the decision has kind equal to the
top-level `kind` when that is a string and `Deployment` otherwise, name equal
to `metadata.name` when that is a string and `unknown` otherwise, namespace
equal to `metadata.namespace` when that is a string and `default` otherwise,
and API version equal to the top-level `apiVersion` when that is a string and
empty otherwise; a field that is missing or of another type gives the
default. -/
theorem Evaluate_resource_ref (e : Evaluator) (spec : Obj) (timestamp : Time)
    (decisionID : String) :
    ((∀ kind, index spec "kind" = some (Value.string kind) →
        (Evaluate e spec timestamp decisionID).Resource.Kind = kind) ∧
      ((∀ kind, index spec "kind" ≠ some (Value.string kind)) →
        (Evaluate e spec timestamp decisionID).Resource.Kind = "Deployment")) ∧
    ((∀ metadata name, index spec "metadata" = some (Value.object metadata) →
        index metadata "name" = some (Value.string name) →
        (Evaluate e spec timestamp decisionID).Resource.Name = name) ∧
      ((∀ metadata name, index spec "metadata" = some (Value.object metadata) →
          index metadata "name" ≠ some (Value.string name)) →
        (Evaluate e spec timestamp decisionID).Resource.Name = "unknown")) ∧
    ((∀ metadata ns, index spec "metadata" = some (Value.object metadata) →
        index metadata "namespace" = some (Value.string ns) →
        (Evaluate e spec timestamp decisionID).Resource.Namespace = ns) ∧
      ((∀ metadata ns, index spec "metadata" = some (Value.object metadata) →
          index metadata "namespace" ≠ some (Value.string ns)) →
        (Evaluate e spec timestamp decisionID).Resource.Namespace = "default")) ∧
    ((∀ apiVersion, index spec "apiVersion" = some (Value.string apiVersion) →
        (Evaluate e spec timestamp decisionID).Resource.APIVersion = apiVersion) ∧
      ((∀ apiVersion, index spec "apiVersion" ≠ some (Value.string apiVersion)) →
        (Evaluate e spec timestamp decisionID).Resource.APIVersion = "")) := by
  have hres : (Evaluate e spec timestamp decisionID).Resource = extractResourceRef spec := by
    unfold Evaluate
    by_cases h : len (checkViolations e spec) > 0 <;> simp [h]
  rw [hres]
  obtain ⟨hk, ha, hn, hns⟩ := extractResourceRef_fields spec
  rw [hk, ha, hn, hns]
  refine ⟨⟨?_, ?_⟩, ⟨?_, ?_⟩, ⟨?_, ?_⟩, ⟨?_, ?_⟩⟩
  · intro kind h
    exact assertString_getD_of_string _ kind _ h
  · intro h
    exact assertString_getD_of_not_string _ _ h
  · intro metadata name hm h
    rw [(assertMap_eq_some_iff _ _).2 hm]
    exact assertString_getD_of_string _ name _ h
  · intro h
    cases hm : assertMap (index spec "metadata") with
    | none => rfl
    | some metadata =>
      exact assertString_getD_of_not_string _ _
        (fun name => h metadata name ((assertMap_eq_some_iff _ _).1 hm))
  · intro metadata ns hm h
    rw [(assertMap_eq_some_iff _ _).2 hm]
    exact assertString_getD_of_string _ ns _ h
  · intro h
    cases hm : assertMap (index spec "metadata") with
    | none => rfl
    | some metadata =>
      exact assertString_getD_of_not_string _ _
        (fun ns => h metadata ns ((assertMap_eq_some_iff _ _).1 hm))
  · intro apiVersion h
    exact assertString_getD_of_string _ apiVersion _ h
  · intro h
    exact assertString_getD_of_not_string _ _ h

/-- Instance of C10 on the input of `TestEvaluator_PrivilegedContainer`: the
name of the resource reference is the string at `metadata.name`. -/
theorem Evaluate_resource_ref_witness :
    (Evaluate (New "v1alpha1") privilegedDeployment testTimestamp "test-001").Resource.Name =
      "nginx-deployment" :=
  (Evaluate_resource_ref (New "v1alpha1") privilegedDeployment testTimestamp "test-001").2.1.1
    _ "nginx-deployment" rfl rfl

/-! ## Summary and next actions -/

theorem countSeverities_foldl (l : List Violation) (a b : Nat) :
    l.foldl
      (fun counts v =>
        if v.Severity = SeverityCritical then (counts.1 + 1, counts.2)
        else if v.Severity = SeverityHigh then (counts.1, counts.2 + 1)
        else counts)
      (a, b) =
    (a + (l.filter (fun v => decide (v.Severity = SeverityCritical))).length,
     b + (l.filter (fun v => decide (v.Severity = SeverityHigh))).length) := by
  induction l generalizing a b with
  | nil => simp
  | cons v vs ih =>
    simp only [List.foldl_cons, List.filter_cons]
    by_cases hc : v.Severity = SeverityCritical
    · have hh : ¬ v.Severity = SeverityHigh := by
        rw [hc]
        decide
      simp only [hc, hh, if_true, decide_True, decide_False, List.length_cons, ih]
      congr 1
      omega
    · by_cases hh : v.Severity = SeverityHigh
      · have hhc : ¬ SeverityHigh = SeverityCritical := by decide
        simp only [hh, hhc, if_true, if_false, decide_True, decide_False, List.length_cons, ih]
        congr 1
        omega
      · simp only [hc, hh, if_false, decide_False, ih]
        try simp only [Bool.false_eq_true, if_false]

theorem countSeverities_eq (violations : Slice Violation) :
    countSeverities violations =
      (countOf SeverityCritical violations, countOf SeverityHigh violations) := by
  unfold countSeverities countOf
  rw [countSeverities_foldl]
  simp

theorem countOf_filter_other (sev : Severity) (violations : Slice Violation)
    (keep : Violation → Bool) (hkeep : ∀ v, v.Severity = sev → keep v = true) :
    countOf sev (some ((items violations).filter keep)) = countOf sev violations := by
  unfold countOf
  simp only [items, List.filter_filter]
  congr 1
  apply List.filter_congr
  intro v _
  by_cases hv : v.Severity = sev
  · simp [hv, hkeep v hv]
  · simp [hv]

/-- C11: for status BLOCKED and a violation list with `c` CRITICAL and `h`
HIGH violations, `buildSummary` returns `Resource blocked: P severity
violations found`, where `P` is `<c> critical, <h> high` when both counts are
positive, `<c> critical` or `<h> high` when only one is, and empty when none
is; dropping the MEDIUM and LOW violations from the list does not change the
summary; and for status ALLOWED the summary is the fixed success message. -/
theorem buildSummary_counts (violations : Slice Violation) :
    (0 < countOf SeverityCritical violations → 0 < countOf SeverityHigh violations →
      buildSummary StatusBlocked violations =
        "Resource blocked: " ++
          (fmtInt (countOf SeverityCritical violations) ++ " critical" ++ ", " ++
            (fmtInt (countOf SeverityHigh violations) ++ " high")) ++
          " severity violations found") ∧
    (0 < countOf SeverityCritical violations → countOf SeverityHigh violations = 0 →
      buildSummary StatusBlocked violations =
        "Resource blocked: " ++ (fmtInt (countOf SeverityCritical violations) ++ " critical") ++
          " severity violations found") ∧
    (countOf SeverityCritical violations = 0 → 0 < countOf SeverityHigh violations →
      buildSummary StatusBlocked violations =
        "Resource blocked: " ++ (fmtInt (countOf SeverityHigh violations) ++ " high") ++
          " severity violations found") ∧
    (countOf SeverityCritical violations = 0 → countOf SeverityHigh violations = 0 →
      buildSummary StatusBlocked violations =
        "Resource blocked: " ++ "" ++ " severity violations found") ∧
    buildSummary StatusBlocked
        (some ((items violations).filter
          (fun v => decide (v.Severity ≠ SeverityMedium ∧ v.Severity ≠ SeverityLow)))) =
      buildSummary StatusBlocked violations ∧
    buildSummary StatusAllowed violations = "Resource meets security requirements" := by
  have hne : ¬ StatusBlocked = StatusAllowed := by decide
  refine ⟨?_, ?_, ?_, ?_, ?_, ?_⟩
  · intro hc hh
    unfold buildSummary
    simp only [hne, if_false, countSeverities_eq, gt_iff_lt, hc, hh, if_true, List.nil_append,
      List.cons_append, Join, String.intercalate, String.intercalate.go]
  · intro hc hh
    unfold buildSummary
    simp only [hne, if_false, countSeverities_eq, gt_iff_lt, hc, hh, if_true, List.nil_append,
      Nat.lt_irrefl, Join, String.intercalate, String.intercalate.go]
  · intro hc hh
    unfold buildSummary
    simp only [hne, if_false, countSeverities_eq, gt_iff_lt, hc, hh, if_true, List.nil_append,
      Nat.lt_irrefl, Join, String.intercalate, String.intercalate.go]
  · intro hc hh
    unfold buildSummary
    simp only [hne, if_false, countSeverities_eq, gt_iff_lt, hc, hh, Nat.lt_irrefl, Join,
      String.intercalate]
  · unfold buildSummary
    simp only [hne, if_false, countSeverities_eq]
    rw [countOf_filter_other SeverityCritical violations, countOf_filter_other SeverityHigh
      violations]
    · intro v hv
      rw [hv]
      decide
    · intro v hv
      rw [hv]
      decide
  · unfold buildSummary
    simp

/-- Instance of C11 on the violations found in the privileged Pod, one
CRITICAL and one HIGH. -/
theorem buildSummary_counts_witness :
    buildSummary StatusBlocked (some (checksAgainst privilegedPodSpec)) =
      "Resource blocked: 1 critical, 1 high severity violations found" :=
  ((buildSummary_counts (some (checksAgainst privilegedPodSpec))).1 (by decide)
    (by decide)).trans (by decide)

/-- C12: the decision returned by `Evaluate` has exactly one next action, the
generic `Review violations` action, when at least one violation was found,
and no next action when none was found. -/
theorem Evaluate_next_actions (e : Evaluator) (spec : Obj) (timestamp : Time)
    (decisionID : String) :
    (items (Evaluate e spec timestamp decisionID).Violations ≠ [] →
      items (Evaluate e spec timestamp decisionID).NextActions = [reviewAction]) ∧
    (items (Evaluate e spec timestamp decisionID).Violations = [] →
      items (Evaluate e spec timestamp decisionID).NextActions = []) := by
  constructor
  · intro h
    rw [items_Evaluate_Violations] at h
    have hlen : len (checkViolations e spec) > 0 := by
      unfold len
      exact List.length_pos.2 h
    have hlen0 : ¬ len (checkViolations e spec) = 0 := by omega
    unfold Evaluate
    simp only [hlen, if_true, buildNextActions, hlen0, if_false]
    rfl
  · intro h
    rw [items_Evaluate_Violations] at h
    exact (congrArg items (Evaluate_of_no_violations e spec timestamp decisionID h).2.2.1).trans
      rfl

/-- Instance of C12 on the input of `TestEvaluator_PrivilegedContainer`, which
has two violations and one next action. -/
theorem Evaluate_next_actions_witness :
    items (Evaluate (New "v1alpha1") privilegedDeployment testTimestamp
      "test-001").NextActions = [reviewAction] :=
  (Evaluate_next_actions (New "v1alpha1") privilegedDeployment testTimestamp "test-001").1
    (by
      rw [items_Evaluate_of_podSpec (New "v1alpha1") privilegedDeployment privilegedPodSpec
        testTimestamp "test-001" rfl]
      intro h
      exact absurd (congrArg List.length h) (by decide))

/-! ## Store: saving -/

/-- C13: for a decision that fails `Validate`, `Save` returns an error that
matches `ErrInvalidData` and leaves the store directory exactly as it was,
whichever fault is chosen for the steps it never reaches. -/
theorem Save_invalid (dir : Dir) (d : SecurityDecision) (fault : Fault)
    (h : Validate d ≠ none) :
    (∃ err, (Save dir d fault).2 = some err ∧
      repoErrorsIs err RepoError.ErrInvalidData = true) ∧
    (Save dir d fault).1 = dir := by
  unfold Save
  cases hv : Validate d with
  | none => exact absurd hv h
  | some err =>
    refine ⟨⟨_, rfl, ?_⟩, rfl⟩
    simp [repoErrorsIs]

/-- Instance of C13 on the decision of `TestSave_InvalidDecision`, saved into a
store that holds one record. -/
theorem Save_invalid_witness :
    (Save (saveAll [] [retryDecision]) invalidDecision Fault.noFault).1 =
      saveAll [] [retryDecision] :=
  (Save_invalid (saveAll [] [retryDecision]) invalidDecision Fault.noFault (by decide)).2

/-! ## Store: lookup by identifier -/

/-- C14 (evaluation at the failing input): `retry_dec-1` is saved, then
`dec-1`; both saves succeed and the directory holds the two records, yet
`GetByID("dec-1")` succeeds with the decision `retry_dec-1`, whose record
filename ends in `_dec-1.json` and comes first in the directory. -/
theorem GetByID_after_Save_suffix :
    (Save [] retryDecision Fault.noFault).2 = none ∧
    (Save (saveAll [] [retryDecision]) laterDecision Fault.noFault).2 = none ∧
    (ReadDir (saveAll [] [retryDecision, laterDecision])).map (fun f => f.Name) =
      ["1770300000_retry_dec-1.json", "1770303600_dec-1.json", "latest.json"] ∧
    laterDecision.ID = "dec-1" ∧
    (GetByID (saveAll [] [retryDecision, laterDecision]) "dec-1").toOption.map (fun d => d.ID) =
      some "retry_dec-1" :=
  ⟨by decide, by decide, by decide, rfl, by decide⟩

/-- C15 (evaluation at the failing input): the store holds the single record
`retry_dec-1`; no record carries the identifier `dec-1`, yet `GetByID("dec-1")`
returns the decision `retry_dec-1` and no error. -/
theorem GetByID_unknown_suffix :
    (listDecisionFiles (saveAll [] [retryDecision])).map (fun f => f.Name) =
      ["1770300000_retry_dec-1.json"] ∧
    (listDecisionFiles (saveAll [] [retryDecision])).map
      (fun f => (readFile f).toOption.map (fun d => d.ID)) = [some "retry_dec-1"] ∧
    (GetByID (saveAll [] [retryDecision]) "dec-1").toOption.map (fun d => d.ID) =
      some "retry_dec-1" :=
  ⟨by decide, by decide, by decide⟩

/-! ## Store: listing -/

theorem items_append {α : Type} (s : Slice α) (x : α) : items (append s x) = items s ++ [x] :=
  rfl

theorem listLoop_unbounded (namespace_ : String) (limit : Int) (hlimit : limit ≤ 0)
    (files : List DirEntry) (result : Slice SecurityDecision) :
    items (listLoop namespace_ limit files result) =
      items result ++ (readable files).filter (inNamespace namespace_) := by
  induction files generalizing result with
  | nil => simp [listLoop, readable]
  | cons f rest ih =>
    unfold listLoop
    cases hr : readFile f with
    | error e =>
      simp only [ih]
      simp [readable, hr, Except.toOption]
    | ok d =>
      have hrd : readable (f :: rest) = d :: readable rest := by
        simp [readable, hr, Except.toOption]
      by_cases hns : namespace_ ≠ "" ∧ d.Resource.Namespace ≠ namespace_
      · have hin : inNamespace namespace_ d = false := by
          simp only [inNamespace, decide_eq_false_iff_not, not_or]
          exact hns
        simp only [hns, and_self, if_true, not_false_eq_true, ne_eq, ih, hrd, List.filter_cons,
          hin]
        simp
      · have hin : inNamespace namespace_ d = true := by
          simp only [inNamespace, decide_eq_true_eq]
          by_cases h1 : namespace_ = ""
          · exact Or.inl h1
          · by_cases h2 : d.Resource.Namespace = namespace_
            · exact Or.inr h2
            · exact absurd ⟨h1, h2⟩ hns
        have hnot : ¬ (limit > 0 ∧ (len (append result d) : Int) ≥ limit) := by
          intro h
          omega
        simp only [hns, if_false, hnot, ih, items_append, hrd, List.filter_cons, hin, if_true,
          List.append_assoc, List.singleton_append]

theorem listLoop_bounded (namespace_ : String) (limit : Int) (hlimit : 0 < limit)
    (files : List DirEntry) (result : Slice SecurityDecision)
    (hlen : (len result : Int) < limit) :
    items (listLoop namespace_ limit files result) =
      (items result ++ (readable files).filter (inNamespace namespace_)).take limit.toNat := by
  induction files generalizing result with
  | nil =>
    simp only [listLoop, readable, List.filterMap_nil, List.filter_nil, List.append_nil]
    rw [List.take_of_length_le]
    unfold len at hlen
    omega
  | cons f rest ih =>
    unfold listLoop
    cases hr : readFile f with
    | error e =>
      simp only [ih result hlen]
      simp [readable, hr, Except.toOption]
    | ok d =>
      have hrd : readable (f :: rest) = d :: readable rest := by
        simp [readable, hr, Except.toOption]
      by_cases hns : namespace_ ≠ "" ∧ d.Resource.Namespace ≠ namespace_
      · have hin : inNamespace namespace_ d = false := by
          simp only [inNamespace, decide_eq_false_iff_not, not_or]
          exact hns
        simp only [hns, and_self, if_true, not_false_eq_true, ne_eq, ih result hlen, hrd,
          List.filter_cons, hin]
        simp
      · have hin : inNamespace namespace_ d = true := by
          simp only [inNamespace, decide_eq_true_eq]
          by_cases h1 : namespace_ = ""
          · exact Or.inl h1
          · by_cases h2 : d.Resource.Namespace = namespace_
            · exact Or.inr h2
            · exact absurd ⟨h1, h2⟩ hns
        have hlen2 : len (append result d) = len result + 1 := by
          simp [len, items_append]
        simp only [hns, if_false, hrd, List.filter_cons, hin, if_true]
        by_cases hfull : limit > 0 ∧ (len (append result d) : Int) ≥ limit
        · simp only [hfull, and_self, if_true, items_append]
          have hexact : (items result ++ [d]).length = limit.toNat := by
            have h1 := hfull.2
            rw [hlen2] at h1
            unfold len at hlen h1
            simp only [List.length_append, List.length_singleton]
            omega
          have hsplit : items result ++ d :: List.filter (inNamespace namespace_) (readable rest) =
              (items result ++ [d]) ++ List.filter (inNamespace namespace_) (readable rest) := by
            simp
          rw [hsplit, List.take_append_of_le_length (by omega), List.take_of_length_le (by omega)]
        · simp only [hfull, if_false]
          have hlt : (len (append result d) : Int) < limit := by
            by_contra hc
            exact hfull ⟨hlimit, by omega⟩
          rw [ih (append result d) hlt, items_append]
          simp

theorem items_List_ (dir : Dir) (namespace_ : String) (limit : Int) :
    items (List_ dir namespace_ limit) =
      if 0 < limit then
        ((readable (sortSlice nameGreater (listDecisionFiles dir))).filter
          (inNamespace namespace_)).take limit.toNat
      else
        (readable (sortSlice nameGreater (listDecisionFiles dir))).filter
          (inNamespace namespace_) := by
  unfold List_
  by_cases h : 0 < limit
  · rw [listLoop_bounded namespace_ limit h _ none (by simpa [len, items] using h)]
    simp [h, items]
  · rw [listLoop_unbounded namespace_ limit (by omega)]
    simp [h, items]

/-- C18: every decision returned by `List(ns, n)` has resource namespace `ns`
when `ns` is non-empty; when `n > 0` the result has at most `n` decisions and
is the first `n` entries of `List(ns, 0)`; when `n ≤ 0` the result is that of
`List(ns, 0)`, which holds every decision `List("", 0)` returns that passes
the namespace filter, in the same order (an empty `ns` filters nothing); and
`List("", 0)` holds the decision of every record file that reads and
validates, in descending filename order. -/
theorem List_namespace_limit (dir : Dir) (namespace_ : String) (limit : Int) :
    (namespace_ ≠ "" →
      ∀ d ∈ items (List_ dir namespace_ limit), d.Resource.Namespace = namespace_) ∧
    (0 < limit →
      (len (List_ dir namespace_ limit) : Int) ≤ limit ∧
      items (List_ dir namespace_ limit) =
        (items (List_ dir namespace_ 0)).take limit.toNat) ∧
    (limit ≤ 0 → items (List_ dir namespace_ limit) = items (List_ dir namespace_ 0)) ∧
    items (List_ dir namespace_ 0) =
      (items (List_ dir "" 0)).filter
        (fun d => decide (namespace_ = "" ∨ d.Resource.Namespace = namespace_)) ∧
    items (List_ dir "" 0) = readable (sortSlice nameGreater (listDecisionFiles dir)) := by
  have h0 : ∀ ns, items (List_ dir ns 0) =
      (readable (sortSlice nameGreater (listDecisionFiles dir))).filter (inNamespace ns) := by
    intro ns
    rw [items_List_]
    simp
  have hall : (readable (sortSlice nameGreater (listDecisionFiles dir))).filter (inNamespace "") =
      readable (sortSlice nameGreater (listDecisionFiles dir)) := by
    apply List.filter_eq_self.2
    intro d _
    simp [inNamespace]
  refine ⟨?_, ?_, ?_, ?_, ?_⟩
  · intro hns d hd
    rw [items_List_] at hd
    have hmem : d ∈ (readable (sortSlice nameGreater (listDecisionFiles dir))).filter
        (inNamespace namespace_) := by
      by_cases h : 0 < limit
      · rw [if_pos h] at hd
        exact List.mem_of_mem_take hd
      · rw [if_neg h] at hd
        exact hd
    have hin := (List.mem_filter.1 hmem).2
    simp only [inNamespace, decide_eq_true_eq] at hin
    rcases hin with hin | hin
    · exact absurd hin hns
    · exact hin
  · intro hpos
    have heq : items (List_ dir namespace_ limit) =
        (items (List_ dir namespace_ 0)).take limit.toNat := by
      rw [items_List_, h0, if_pos hpos]
    refine ⟨?_, heq⟩
    unfold len
    rw [heq, List.length_take]
    omega
  · intro hle
    rw [items_List_, h0, if_neg (by omega)]
  · rw [h0, h0, hall]
    rfl
  · rw [h0, hall]

/-- Instance of C18 on the store that holds `retry_dec-1` and `dec-1`: with
limit 1, the production listing is the first entry of the unbounded one. -/
theorem List_namespace_limit_witness :
    items (List_ (saveAll [] [retryDecision, laterDecision]) "production" 1) =
      (items (List_ (saveAll [] [retryDecision, laterDecision]) "production" 0)).take 1 :=
  ((List_namespace_limit (saveAll [] [retryDecision, laterDecision]) "production" 1).2.1
    (by decide)).2

/-! ## Order of strings -/

theorem ltChars_irrefl (a : List Char) : ltChars a a = false := by
  induction a with
  | nil => rfl
  | cons x xs ih => simp [ltChars, ih]

theorem ltChars_asymm (a b : List Char) (h : ltChars a b = true) : ltChars b a = false := by
  induction a generalizing b with
  | nil =>
    cases b with
    | nil => simp [ltChars] at h
    | cons y ys => rfl
  | cons x xs ih =>
    cases b with
    | nil => simp [ltChars] at h
    | cons y ys =>
      unfold ltChars at h ⊢
      by_cases h1 : x.toNat < y.toNat
      · have h2 : ¬ y.toNat < x.toNat := by omega
        simp [h1, h2]
      · by_cases h2 : y.toNat < x.toNat
        · simp [h1, h2] at h
        · simp only [h1, h2, if_false] at h ⊢
          exact ih ys h

theorem ltChars_trans (a b c : List Char) (hab : ltChars a b = true) (hbc : ltChars b c = true) :
    ltChars a c = true := by
  induction a generalizing b c with
  | nil =>
    cases c with
    | nil =>
      cases b <;> simp [ltChars] at hbc
    | cons z zs => rfl
  | cons x xs ih =>
    cases b with
    | nil => simp [ltChars] at hab
    | cons y ys =>
      cases c with
      | nil => simp [ltChars] at hbc
      | cons z zs =>
        unfold ltChars at hab hbc ⊢
        by_cases h1 : x.toNat < y.toNat
        · by_cases h2 : y.toNat < z.toNat
          · have : x.toNat < z.toNat := by omega
            simp [this]
          · by_cases h3 : z.toNat < y.toNat
            · simp [h2, h3] at hbc
            · have : x.toNat < z.toNat := by omega
              simp [this]
        · by_cases h1' : y.toNat < x.toNat
          · simp [h1, h1'] at hab
          · simp only [h1, h1', if_false] at hab
            by_cases h2 : y.toNat < z.toNat
            · have : x.toNat < z.toNat := by omega
              simp [this]
            · by_cases h3 : z.toNat < y.toNat
              · simp [h2, h3] at hbc
              · simp only [h2, h3, if_false] at hbc
                have e1 : ¬ x.toNat < z.toNat := by omega
                have e2 : ¬ z.toNat < x.toNat := by omega
                simp only [e1, e2, if_false]
                exact ih ys zs hab hbc

theorem Char_toNat_injective (x y : Char) (h : x.toNat = y.toNat) : x = y := by
  apply Char.ext
  apply UInt32.ext
  exact h

theorem ltChars_connected (a b : List Char) (hab : ltChars a b = false)
    (hba : ltChars b a = false) : a = b := by
  induction a generalizing b with
  | nil =>
    cases b with
    | nil => rfl
    | cons y ys => simp [ltChars] at hab
  | cons x xs ih =>
    cases b with
    | nil => simp [ltChars] at hba
    | cons y ys =>
      unfold ltChars at hab hba
      by_cases h1 : x.toNat < y.toNat
      · simp [h1] at hab
      · by_cases h2 : y.toNat < x.toNat
        · simp [h2] at hba
        · simp only [h1, h2, if_false] at hab hba
          have hxy : x = y := Char_toNat_injective x y (by omega)
          rw [hxy, ih ys hab hba]

theorem strLess_irrefl (a : String) : strLess a a = false :=
  ltChars_irrefl a.data

theorem strLess_asymm (a b : String) (h : strLess a b = true) : strLess b a = false :=
  ltChars_asymm a.data b.data h

theorem strLess_trans (a b c : String) (hab : strLess a b = true) (hbc : strLess b c = true) :
    strLess a c = true :=
  ltChars_trans a.data b.data c.data hab hbc

theorem strLess_connected (a b : String) (hab : strLess a b = false)
    (hba : strLess b a = false) : a = b :=
  String.ext (ltChars_connected a.data b.data hab hba)

/-- Negative transitivity: what is not below `b` and not above it is `b`. -/
theorem strLess_cases (a b c : String) (hac : strLess a c = true) :
    strLess a b = true ∨ strLess b c = true := by
  cases hab : strLess a b with
  | true => exact Or.inl rfl
  | false =>
    right
    cases hba : strLess b a with
    | true => exact strLess_trans b a c hba hac
    | false =>
      rw [← strLess_connected a b hab hba]
      exact hac

/-! ## Sorting with `sort.Slice` -/

theorem StrictLess.total {α : Type} {less : α → α → Bool} (h : StrictLess less) :
    IsTotal α (fun a b => less b a = false) :=
  ⟨fun a b => by
    cases hba : less b a with
    | false => exact Or.inl rfl
    | true => exact Or.inr (h.asymm b a hba)⟩

theorem StrictLess.trans {α : Type} {less : α → α → Bool} (h : StrictLess less) :
    IsTrans α (fun a b => less b a = false) :=
  ⟨fun a b c hab hbc => by
    cases hca : less c a with
    | false => rfl
    | true =>
      rcases h.cases c b a hca with h1 | h1
      · rw [h1] at hbc
        exact absurd hbc (by simp)
      · rw [h1] at hab
        exact absurd hab (by simp)⟩

theorem sortSlice_perm {α : Type} (less : α → α → Bool) (xs : List α) :
    (sortSlice less xs).Perm xs :=
  List.perm_insertionSort _ xs

theorem sortSlice_sorted {α : Type} {less : α → α → Bool} (h : StrictLess less) (xs : List α) :
    List.Sorted (fun a b => less b a = false) (sortSlice less xs) := by
  haveI := h.total
  haveI := h.trans
  exact List.sorted_insertionSort _ xs

theorem orderedInsert_filter {α : Type} {less : α → α → Bool} (h : StrictLess less)
    (p : α → Bool) (a : α) (l : List α) (hl : List.Sorted (fun a b => less b a = false) l) :
    (List.orderedInsert (fun a b => less b a = false) a l).filter p =
      if p a = true then List.orderedInsert (fun a b => less b a = false) a (l.filter p)
      else l.filter p := by
  haveI := h.trans
  induction l with
  | nil =>
    cases hp : p a <;> simp [hp]
  | cons b l' ih =>
    have hl' : List.Sorted (fun a b => less b a = false) l' := hl.of_cons
    by_cases hab : less b a = false
    · -- `a` goes to the front, also of the filtered list
      have hfront : List.orderedInsert (fun a b => less b a = false) a (b :: l') = a :: b :: l' :=
        List.orderedInsert_of_le _ l' hab
      rw [hfront]
      cases hp : p a with
      | false => simp [hp]
      | true =>
        simp only [List.filter_cons, hp, if_true]
        have hall : ∀ x ∈ (b :: l').filter p, less x a = false := by
          intro x hx
          have hx' : x ∈ b :: l' := List.mem_of_mem_filter hx
          rcases List.mem_cons.1 hx' with rfl | hx''
          · exact hab
          · exact h.trans.trans a b x hab (List.rel_of_sorted_cons hl x hx'')
        cases hf : (b :: l').filter p with
        | nil =>
          simp only [List.filter_cons] at hf
          rw [hf]
          rfl
        | cons c cs =>
          simp only [List.filter_cons] at hf
          rw [hf]
          have hc : less c a = false := hall c (by
            simp only [List.filter_cons, hf]
            exact List.mem_cons_self c cs)
          exact (List.orderedInsert_of_le _ cs hc).symm
    · have hins : List.orderedInsert (fun a b => less b a = false) a (b :: l') =
          b :: List.orderedInsert (fun a b => less b a = false) a l' := by
        simp [List.orderedInsert, hab]
      rw [hins]
      simp only [List.filter_cons, ih hl']
      cases hpb : p b <;> cases hpa : p a <;> simp [List.orderedInsert, hab]

theorem sortSlice_filter {α : Type} {less : α → α → Bool} (h : StrictLess less) (p : α → Bool)
    (xs : List α) : sortSlice less (xs.filter p) = (sortSlice less xs).filter p := by
  induction xs with
  | nil => rfl
  | cons a l ih =>
    have hs := sortSlice_sorted h l
    unfold sortSlice at ih hs ⊢
    simp only [List.insertionSort, List.filter_cons]
    rw [orderedInsert_filter h p a _ hs]
    cases hp : p a with
    | false => simpa using ih
    | true =>
      simp only [if_true, List.insertionSort]
      rw [ih]

theorem nameLess_strict : StrictLess (fun a b : DirEntry => strLess a.Name b.Name) :=
  ⟨fun a b h => strLess_asymm a.Name b.Name h,
   fun a b c h => strLess_cases a.Name b.Name c.Name h⟩

theorem nameGreater_strict : StrictLess nameGreater :=
  ⟨fun a b h => strLess_asymm b.Name a.Name h,
   fun a b c h => (strLess_cases c.Name b.Name a.Name h).symm⟩

theorem rangeFirst_filterMap {α β : Type} (g : α → Option β) (i : Nat) (xs : List α) :
    rangeFirst (fun _ x => g x) i xs = (xs.filterMap g).head? := by
  induction xs generalizing i with
  | nil => rfl
  | cons a as ih =>
    unfold rangeFirst
    cases hg : g a with
    | none => simp [List.filterMap_cons, hg, ih]
    | some r => simp [List.filterMap_cons, hg]

/-! ## Store: files that do not read -/

theorem listDecisionFiles_filter (dir : Dir) (p : DirEntry → Bool) :
    listDecisionFiles (dir.filter p) = (listDecisionFiles dir).filter p := by
  unfold listDecisionFiles ReadDir
  rw [sortSlice_filter nameLess_strict, List.filter_filter, List.filter_filter]
  apply List.filter_congr
  intro f _
  exact Bool.and_comm _ _

theorem sorted_files_filter (dir : Dir) (p : DirEntry → Bool) :
    sortSlice nameGreater (listDecisionFiles (dir.filter p)) =
      (sortSlice nameGreater (listDecisionFiles dir)).filter p := by
  rw [listDecisionFiles_filter, sortSlice_filter nameGreater_strict]

theorem listLoop_filter (namespace_ : String) (limit : Int) (p : DirEntry → Bool)
    (files : List DirEntry) (result : Slice SecurityDecision)
    (hbad : ∀ f ∈ files, p f = false → ∃ e, readFile f = Except.error e) :
    listLoop namespace_ limit (files.filter p) result = listLoop namespace_ limit files result := by
  induction files generalizing result with
  | nil => rfl
  | cons f rest ih =>
    have hrest : ∀ g ∈ rest, p g = false → ∃ e, readFile g = Except.error e :=
      fun g hg => hbad g (List.mem_cons_of_mem f hg)
    cases hp : p f with
    | false =>
      obtain ⟨e, he⟩ := hbad f (List.mem_cons_self f rest) hp
      rw [List.filter_cons_of_neg (by simp [hp]), ih result hrest]
      conv => rhs; unfold listLoop
      simp only [he]
    | true =>
      rw [List.filter_cons_of_pos (by simp [hp])]
      conv => lhs; unfold listLoop
      conv => rhs; unfold listLoop
      cases readFile f with
      | error e => exact ih result hrest
      | ok d =>
        simp only
        split
        · exact ih result hrest
        · split
          · rfl
          · exact ih _ hrest

theorem filterMap_filter_of_none {α β : Type} (g : α → Option β) (p : α → Bool) (xs : List α)
    (h : ∀ x ∈ xs, p x = false → g x = none) :
    (xs.filter p).filterMap g = xs.filterMap g := by
  induction xs with
  | nil => rfl
  | cons a as ih =>
    have has : ∀ x ∈ as, p x = false → g x = none := fun x hx => h x (List.mem_cons_of_mem a hx)
    cases hp : p a with
    | false =>
      rw [List.filter_cons_of_neg (by simp [hp]), ih has, List.filterMap_cons,
        h a (List.mem_cons_self a as) hp]
    | true =>
      rw [List.filter_cons_of_pos (by simp [hp]), List.filterMap_cons, List.filterMap_cons, ih has]

theorem mem_files_of_dir (dir : Dir) (f : DirEntry)
    (hf : f ∈ sortSlice nameGreater (listDecisionFiles dir)) : f ∈ dir := by
  have h1 : f ∈ listDecisionFiles dir := (sortSlice_perm _ _).subset hf
  unfold listDecisionFiles ReadDir at h1
  exact (sortSlice_perm _ _).subset (List.mem_of_mem_filter h1)

theorem mem_listDecisionFiles_of_dir (dir : Dir) (f : DirEntry)
    (hf : f ∈ listDecisionFiles dir) : f ∈ dir := by
  unfold listDecisionFiles ReadDir at hf
  exact (sortSlice_perm _ _).subset (List.mem_of_mem_filter hf)

/-- C20 (evaluation at the failing input): the only file of `tamperedStore` is
the record of the identifier `team/dec-1`, under the name that `Save` gives to
that record, and it fails `Validate`. `List` and `GetLatest` skip it, but
`GetByID("team/dec-1")` fails with an error that matches `ErrNotFound` and
not `ErrInvalidData`: `Save` replaces the separators of the identifier in the
filename, the filename loop of `GetByID` looks for the identifier as it is,
and the scan of the contents skips files that do not read. The same lookup
finds the record as long as it is valid, and it reports `ErrInvalidData` for
the record of `dec-1` tampered with in the same way. -/
theorem GetByID_tampered_sanitized :
    recordFilename (createTestDecision "team/dec-1" "myapp" "production" ⟨1770300000, 0⟩) =
      "1770300000_team-dec-1.json" ∧
    (listDecisionFiles tamperedStore).map
      (fun f => (f.Name, (readFile f).toOption.map (fun d => d.ID))) =
      [("1770300000_team-dec-1.json", none)] ∧
    len (List_ tamperedStore "" 0) = 0 ∧
    (GetByID tamperedStore "team/dec-1").toOption.map (fun d => d.ID) = none ∧
    (match GetByID tamperedStore "team/dec-1" with
      | Except.ok _ => false
      | Except.error err => repoErrorsIs err RepoError.ErrInvalidData) = false ∧
    (match GetByID tamperedStore "team/dec-1" with
      | Except.ok _ => false
      | Except.error err => repoErrorsIs err RepoError.ErrNotFound) = true ∧
    (GetByID
        (saveAll [] [createTestDecision "team/dec-1" "myapp" "production" ⟨1770300000, 0⟩])
        "team/dec-1").toOption.map (fun d => d.ID) = some "team/dec-1" ∧
    (match GetByID tamperedPlainStore "dec-1" with
      | Except.ok _ => false
      | Except.error err => repoErrorsIs err RepoError.ErrInvalidData) = true :=
  ⟨by decide, by decide, by decide, by decide, by decide, by decide, by decide, by decide⟩

/-- How far the handling of unreadable files is right, beside the defect of
the lookup by identifier: when no file named `name` reads and
validates, `List` and `GetLatest` return what they return on the directory
without that file. `GetByID(id)` surfaces the failure, as an error that
matches `ErrInvalidData` and not `ErrNotFound`, only from its filename loop,
that is when the file is the first record file in directory order whose name
ends in `_<id>.json`; when the name of the file does not end so, the file is
passed over by `GetByID(id)` as well, whatever identifier its record
carries. -/
theorem unreadable_file_skipped (dir : Dir) (name : String)
    (hbad : ∀ f ∈ dir, f.Name = name → ∃ e, readFile f = Except.error e) :
    (∀ namespace_ limit,
      List_ (withoutFile dir name) namespace_ limit = List_ dir namespace_ limit) ∧
    (∀ kind resource namespace_,
      GetLatest (withoutFile dir name) kind resource namespace_ =
        GetLatest dir kind resource namespace_) ∧
    (∀ (id : String) (j : Nat) (f : DirEntry),
      (listDecisionFiles dir)[j]? = some f → f.Name = name →
      HasSuffix name ("_" ++ id ++ ".json") = true →
      (∀ (k : Nat) (g : DirEntry), k < j → (listDecisionFiles dir)[k]? = some g →
        HasSuffix g.Name ("_" ++ id ++ ".json") = false) →
      ∃ err, GetByID dir id = Except.error err ∧
        repoErrorsIs err RepoError.ErrInvalidData = true ∧
        repoErrorsIs err RepoError.ErrNotFound = false) ∧
    (∀ id, HasSuffix name ("_" ++ id ++ ".json") = false →
      GetByID (withoutFile dir name) id = GetByID dir id) := by
  have hp : ∀ f ∈ dir, (fun f : DirEntry => f.Name != name) f = false →
      ∃ e, readFile f = Except.error e := by
    intro f hf hne
    apply hbad f hf
    simpa using hne
  refine ⟨?_, ?_, ?_, ?_⟩
  · intro namespace_ limit
    unfold List_ withoutFile
    rw [sorted_files_filter]
    exact listLoop_filter namespace_ limit _ _ none
      (fun f hf => hp f (mem_files_of_dir dir f hf))
  · intro kind resource namespace_
    unfold GetLatest withoutFile
    rw [sorted_files_filter]
    have hbody : getLatestBody kind resource namespace_ =
        fun _ f => getLatestBody kind resource namespace_ 0 f := rfl
    dsimp only
    rw [hbody, rangeFirst_filterMap (getLatestBody kind resource namespace_ 0),
      rangeFirst_filterMap (getLatestBody kind resource namespace_ 0),
      filterMap_filter_of_none]
    intro f hf hne
    obtain ⟨e, he⟩ := hp f (mem_files_of_dir dir f hf) hne
    simp [getLatestBody, he]
  · intro id j f hj hname hsuffix hfirst
    obtain ⟨e, he⟩ := hbad f (mem_listDecisionFiles_of_dir dir f (List.mem_iff_getElem?.2 ⟨j, hj⟩))
      hname
    have hread : ∃ text, readFile f =
        Except.error (RepoError.wrapped RepoError.ErrInvalidData text) := by
      unfold readFile at he ⊢
      cases hd : f.data with
      | corrupt text => exact ⟨_, rfl⟩
      | json d =>
        simp only [hd] at he ⊢
        cases hv : Validate d with
        | none => simp [hv] at he
        | some verr => exact ⟨_, rfl⟩
    obtain ⟨text, htext⟩ := hread
    have hfound : rangeFirst (getByIDNameBody id) 0 (listDecisionFiles dir) =
        some (readFile f) := by
      rw [rangeFirst_eq_some]
      refine ⟨j, f, hj, ?_, ?_⟩
      · simp [getByIDNameBody, hname, hsuffix]
      · intro k g hk hg
        simp [getByIDNameBody, hfirst k g hk hg]
    refine ⟨RepoError.wrapped RepoError.ErrInvalidData text, ?_, ?_, ?_⟩
    · unfold GetByID
      simp only [hfound, htext]
    · simp [repoErrorsIs]
    · simp [repoErrorsIs]
  · intro id hsuffix
    unfold GetByID withoutFile
    rw [listDecisionFiles_filter]
    have hb1 : getByIDNameBody id = fun _ f => getByIDNameBody id 0 f := rfl
    have hb2 : getByIDScanBody id = fun _ f => getByIDScanBody id 0 f := rfl
    dsimp only
    rw [hb1, hb2]
    simp only [rangeFirst_filterMap (getByIDNameBody id 0),
      rangeFirst_filterMap (getByIDScanBody id 0)]
    rw [filterMap_filter_of_none (getByIDNameBody id 0),
      filterMap_filter_of_none (getByIDScanBody id 0)]
    · intro f hf hne
      obtain ⟨e, he⟩ := hp f (mem_listDecisionFiles_of_dir dir f hf) hne
      simp [getByIDScanBody, he]
    · intro f hf hne
      have hn : f.Name = name := by simpa using hne
      simp [getByIDNameBody, hn, hsuffix]

/-- Instance of `unreadable_file_skipped` on `tamperedStore`: the listing is
the same with and without the tampered file. -/
theorem unreadable_file_skipped_witness :
    List_ (withoutFile tamperedStore "1770300000_team-dec-1.json") "" 0 =
      List_ tamperedStore "" 0 :=
  (unreadable_file_skipped tamperedStore "1770300000_team-dec-1.json"
    (by
      intro f hf _
      have hf2 : f ∈ [({ Name := "1770300000_team-dec-1.json"
                         data := FileData.json
                           { createTestDecision "team/dec-1" "myapp" "production"
                               ⟨1770300000, 0⟩ with Status := "INVALID" } } : DirEntry)] := hf
      rw [List.mem_singleton] at hf2
      subst hf2
      exact ⟨_, rfl⟩)).1 "" 0

/-! ## Decimal rendering and the order of filenames -/

theorem toDigitsCore_acc (b fuel n : Nat) (ds : List Char) :
    Nat.toDigitsCore b fuel n ds = Nat.toDigitsCore b fuel n [] ++ ds := by
  induction fuel generalizing n ds with
  | zero => simp [Nat.toDigitsCore]
  | succ f ih =>
    simp only [Nat.toDigitsCore]
    split
    · simp
    · rw [ih (n / b) (Nat.digitChar (n % b) :: ds), ih (n / b) [Nat.digitChar (n % b)]]
      simp

theorem toDigitsCore_fuel (b : Nat) (hb : 2 ≤ b) (n : Nat) :
    ∀ fuel, n < fuel → ∀ ds,
      Nat.toDigitsCore b fuel n ds = Nat.toDigitsCore b (n + 1) n ds := by
  induction n using Nat.strong_induction_on with
  | _ n ih =>
    intro fuel hfuel ds
    cases fuel with
    | zero => omega
    | succ f =>
      simp only [Nat.toDigitsCore]
      by_cases h0 : n / b = 0
      · simp [h0]
      · simp only [h0, if_false]
        have hpos : 0 < n := by
          rcases Nat.eq_zero_or_pos n with h | h
          · rw [h] at h0
            simp at h0
          · exact h
        have hlt : n / b < n := Nat.div_lt_self hpos (by omega)
        rw [ih (n / b) hlt f (by omega), ih (n / b) hlt n hlt]

theorem toDigits_small (n : Nat) (h : n < 10) : Nat.toDigits 10 n = [Nat.digitChar n] := by
  unfold Nat.toDigits
  simp only [Nat.toDigitsCore]
  have h0 : n / 10 = 0 := Nat.div_eq_of_lt h
  have hm : n % 10 = n := Nat.mod_eq_of_lt h
  simp [h0, hm]

theorem toDigits_step (n : Nat) (h : 10 ≤ n) :
    Nat.toDigits 10 n = Nat.toDigits 10 (n / 10) ++ [Nat.digitChar (n % 10)] := by
  have h0 : ¬ n / 10 = 0 := by
    intro hz
    have := (Nat.div_eq_zero_iff (by decide : 0 < 10)).1 hz
    omega
  have hlt : n / 10 < n := Nat.div_lt_self (by omega) (by decide)
  have e1 : Nat.toDigits 10 n = Nat.toDigitsCore 10 (n + 1) n [] := rfl
  have e2 : Nat.toDigits 10 (n / 10) = Nat.toDigitsCore 10 (n / 10 + 1) (n / 10) [] := rfl
  rw [e1, e2, Nat.toDigitsCore]
  simp only [h0, if_false]
  rw [toDigitsCore_acc, toDigitsCore_fuel 10 (by decide) (n / 10) n hlt]

theorem digitChar_toNat (d : Nat) (h : d < 10) : (Nat.digitChar d).toNat = 48 + d := by
  interval_cases d <;> rfl

theorem toDigits_length_pos (n : Nat) : 0 < (Nat.toDigits 10 n).length := by
  by_cases h : n < 10
  · rw [toDigits_small n h]
    simp
  · rw [toDigits_step n (by omega)]
    simp

theorem ltChars_append_left (p x y : List Char) : ltChars (p ++ x) (p ++ y) = ltChars x y := by
  induction p with
  | nil => rfl
  | cons c cs ih => simp [ltChars, ih]

theorem ltChars_toDigits (b : Nat) :
    ∀ a, a < b → (Nat.toDigits 10 a).length = (Nat.toDigits 10 b).length →
      ∀ s t, ltChars (Nat.toDigits 10 a ++ s) (Nat.toDigits 10 b ++ t) = true := by
  induction b using Nat.strong_induction_on with
  | _ b ih =>
    intro a hab hlen s t
    by_cases hb : b < 10
    · have ha : a < 10 := by omega
      rw [toDigits_small a ha, toDigits_small b hb]
      simp only [List.singleton_append, ltChars, digitChar_toNat a ha, digitChar_toNat b hb]
      simp [hab]
    · have hb10 : 10 ≤ b := by omega
      by_cases ha : a < 10
      · rw [toDigits_small a ha, toDigits_step b hb10] at hlen
        have := toDigits_length_pos (b / 10)
        simp only [List.length_append, List.length_singleton] at hlen
        omega
      · have ha10 : 10 ≤ a := by omega
        rw [toDigits_step a ha10, toDigits_step b hb10] at hlen ⊢
        simp only [List.length_append, List.length_singleton, Nat.add_right_cancel_iff] at hlen
        simp only [List.append_assoc, List.singleton_append]
        by_cases hq : a / 10 < b / 10
        · exact ih (b / 10) (Nat.div_lt_self (by omega) (by decide)) (a / 10) hq hlen _ _
        · have hqe : a / 10 = b / 10 := by
            have : a / 10 ≤ b / 10 := Nat.div_le_div_right (by omega)
            omega
          have hr : a % 10 < b % 10 := by omega
          rw [hqe, ltChars_append_left]
          simp only [ltChars, digitChar_toNat (a % 10) (Nat.mod_lt a (by decide)),
            digitChar_toNat (b % 10) (Nat.mod_lt b (by decide))]
          simp [hr]

theorem fmtInt64_data (n : Int) (h : 0 ≤ n) : (fmtInt64 n).data = Nat.toDigits 10 n.toNat := by
  unfold fmtInt64
  have hn : ¬ n < 0 := by omega
  simp only [hn, if_false]
  rfl

theorem recordFilename_data (d : SecurityDecision) :
    (recordFilename d).data =
      (fmtInt64 (Unix d.Timestamp)).data ++
        ("_" ++ ReplaceAll d.ID Separator '-' ++ ".json").data := by
  unfold recordFilename
  simp only [String.data_append, List.append_assoc]

/-- Filenames follow the Unix seconds: of two decisions whose Unix seconds are
not negative and have equally many decimal digits, the one with the smaller
Unix second has the smaller record filename. -/
theorem recordFilename_lt (d1 d2 : SecurityDecision) (h0 : 0 ≤ Unix d1.Timestamp)
    (hlt : Unix d1.Timestamp < Unix d2.Timestamp)
    (hlen : (fmtInt64 (Unix d1.Timestamp)).length = (fmtInt64 (Unix d2.Timestamp)).length) :
    strLess (recordFilename d1) (recordFilename d2) = true := by
  unfold strLess
  rw [recordFilename_data, recordFilename_data]
  have h2 : 0 ≤ Unix d2.Timestamp := by omega
  simp only [String.length, fmtInt64_data _ h0, fmtInt64_data _ h2] at hlen
  rw [fmtInt64_data _ h0, fmtInt64_data _ h2]
  exact ltChars_toDigits _ _ (by omega) hlen _ _

/-! ## Store: record filenames -/

/-- C17 (counterexample): the decision `dec-old` is one second older than
`dec-new`, but its record filename `999999999_dec-old.json` is not smaller
than `1000000000_dec-new.json`; it is larger. -/
theorem recordFilename_nine_ten_digits :
    Unix nineDigitDecision.Timestamp < Unix tenDigitDecision.Timestamp ∧
    recordFilename nineDigitDecision = "999999999_dec-old.json" ∧
    recordFilename tenDigitDecision = "1000000000_dec-new.json" ∧
    strLess (recordFilename nineDigitDecision) (recordFilename tenDigitDecision) = false ∧
    strLess (recordFilename tenDigitDecision) (recordFilename nineDigitDecision) = true :=
  ⟨by decide, by decide, by decide, by decide, by decide⟩

theorem Save_valid (dir : Dir) (d : SecurityDecision) (h : Validate d = none) :
    Save dir d Fault.noFault =
      (writeFile (writeFile dir (recordFilename d) (FileData.json d)) "latest.json"
        (FileData.json d), none) := by
  unfold Save
  simp [h, WriteAtomic]

/-- C17 (amended): the record filename computed by `Save` is the Unix second
in decimal, `_`, the identifier with every `/` replaced by `-`, and `.json`;
a successful save leaves a file of that name that holds the decision; and of
two decisions whose Unix seconds are not negative and have the same number of
decimal digits, the one with the earlier Unix second has the lexically smaller
filename. -/
theorem recordFilename_order (dir : Dir) (d1 d2 : SecurityDecision) :
    recordFilename d1 =
      fmtInt64 (Unix d1.Timestamp) ++ "_" ++
        String.mk (d1.ID.data.map (fun ch => if ch = '/' then '-' else ch)) ++ ".json" ∧
    (Validate d1 = none →
      (Save dir d1 Fault.noFault).2 = none ∧
      ∃ f ∈ (Save dir d1 Fault.noFault).1,
        f.Name = recordFilename d1 ∧ f.IsDir = false ∧ f.data = FileData.json d1) ∧
    (0 ≤ Unix d1.Timestamp → Unix d1.Timestamp < Unix d2.Timestamp →
      (fmtInt64 (Unix d1.Timestamp)).length = (fmtInt64 (Unix d2.Timestamp)).length →
      strLess (recordFilename d1) (recordFilename d2) = true) := by
  refine ⟨rfl, ?_, recordFilename_lt d1 d2⟩
  intro hv
  rw [Save_valid dir d1 hv]
  refine ⟨rfl, recordOf d1, ?_, rfl, rfl, rfl⟩
  unfold writeFile
  simp only [List.mem_append, List.mem_filter, List.mem_singleton]
  left
  refine ⟨Or.inr rfl, ?_⟩
  have hne : recordFilename d1 ≠ "latest.json" := by
    intro heq
    have hmem : '_' ∈ (recordFilename d1).data := by
      rw [recordFilename_data]
      simp [String.data_append]
    rw [heq] at hmem
    exact absurd hmem (by decide)
  simpa [recordOf] using hne

/-- Instance of the amended C17 on the decisions `retry_dec-1` and `dec-1`,
saved an hour apart: the filename of the first is the smaller one. -/
theorem recordFilename_order_witness :
    strLess (recordFilename retryDecision) (recordFilename laterDecision) = true :=
  (recordFilename_order [] retryDecision laterDecision).2.2 (by decide) (by decide) (by decide)

/-! ## Store: the directory after a sequence of saves -/

theorem recordFilename_ne_latest (d : SecurityDecision) : recordFilename d ≠ "latest.json" := by
  intro heq
  have hmem : '_' ∈ (recordFilename d).data := by
    rw [recordFilename_data]
    simp [String.data_append]
  rw [heq] at hmem
  exact absurd hmem (by decide)

theorem recordFilename_json (d : SecurityDecision) :
    HasSuffix (recordFilename d) ".json" = true :=
  (HasSuffix_iff _ _).2 ⟨_, rfl⟩

theorem recordFiles_writeFile_latest (dir : Dir) (data : FileData) :
    recordFiles (writeFile dir "latest.json" data) = recordFiles dir := by
  unfold recordFiles writeFile
  rw [List.filter_append, List.filter_filter]
  have h1 : List.filter
      (fun f : DirEntry => !f.IsDir && f.Name != "latest.json" && HasSuffix f.Name ".json")
      [({ Name := "latest.json", data := data } : DirEntry)] = [] := by
    simp
  rw [h1, List.append_nil]
  apply List.filter_congr
  intro f _
  cases hn : (f.Name != "latest.json") <;> simp [hn]

theorem recordFiles_writeFile_record (dir : Dir) (d : SecurityDecision) :
    recordFiles (writeFile dir (recordFilename d) (FileData.json d)) =
      (recordFiles dir).filter (fun f => f.Name != recordFilename d) ++ [recordOf d] := by
  unfold recordFiles writeFile
  rw [List.filter_append, List.filter_filter, List.filter_filter]
  have h1 : List.filter
      (fun f : DirEntry => !f.IsDir && f.Name != "latest.json" && HasSuffix f.Name ".json")
      [({ Name := recordFilename d, data := FileData.json d } : DirEntry)] = [recordOf d] := by
    have hne := recordFilename_ne_latest d
    simp [recordFilename_json d, hne, recordOf]
  rw [h1]
  congr 1
  apply List.filter_congr
  intro f _
  exact Bool.and_comm _ _

theorem recordFiles_Save (dir : Dir) (d : SecurityDecision) (h : Validate d = none) :
    recordFiles (Save dir d Fault.noFault).1 =
      (recordFiles dir).filter (fun f => f.Name != recordFilename d) ++ [recordOf d] := by
  rw [Save_valid dir d h, recordFiles_writeFile_latest, recordFiles_writeFile_record]

theorem saveAll_append (dir : Dir) (ds : List SecurityDecision) (d : SecurityDecision) :
    saveAll dir (ds ++ [d]) = (Save (saveAll dir ds) d Fault.noFault).1 := by
  unfold saveAll
  rw [List.foldl_append]
  rfl

theorem recordFiles_saveAll (ds : List SecurityDecision)
    (hvalid : ∀ d ∈ ds, Validate d = none) (hnames : (ds.map recordFilename).Nodup) :
    recordFiles (saveAll [] ds) = ds.map recordOf := by
  induction ds using List.reverseRecOn with
  | nil => rfl
  | append_singleton l d ih =>
    rw [List.map_append, List.nodup_append] at hnames
    obtain ⟨hl, -, hdisj⟩ := hnames
    have hvl : ∀ x ∈ l, Validate x = none := fun x hx => hvalid x (List.mem_append_left _ hx)
    have hvd : Validate d = none := hvalid d (List.mem_append_right _ (List.mem_singleton.2 rfl))
    rw [saveAll_append, recordFiles_Save _ d hvd, ih hvl hl, List.map_append]
    congr 1
    apply List.filter_eq_self.2
    intro f hf
    obtain ⟨x, hx, rfl⟩ := List.mem_map.1 hf
    have hne : recordFilename x ≠ recordFilename d := by
      intro heq
      exact hdisj (List.mem_map.2 ⟨x, hx, rfl⟩) (by simp [← heq])
    simpa [recordOf] using hne

theorem listDecisionFiles_eq (dir : Dir) :
    listDecisionFiles dir = sortSlice (fun a b => strLess a.Name b.Name) (recordFiles dir) := by
  unfold listDecisionFiles ReadDir recordFiles
  rw [sortSlice_filter nameLess_strict]

theorem readFile_recordOf (d : SecurityDecision) (h : Validate d = none) :
    readFile (recordOf d) = Except.ok d := by
  simp [readFile, recordOf, h]

theorem readable_recordOf (ds : List SecurityDecision) (hvalid : ∀ d ∈ ds, Validate d = none) :
    readable (ds.map recordOf) = ds := by
  induction ds with
  | nil => rfl
  | cons d l ih =>
    have hd := readFile_recordOf d (hvalid d (List.mem_cons_self d l))
    have hl := ih (fun x hx => hvalid x (List.mem_cons_of_mem d hx))
    unfold readable at hl ⊢
    simp only [List.map_cons, List.filterMap_cons, hd]
    exact congrArg (List.cons d) hl

/-- The files that `List` and `GetLatest` go through after the saves of `ds`:
a rearrangement of the record files of `ds`, by descending filename. -/
theorem sorted_files_saveAll (ds : List SecurityDecision)
    (hvalid : ∀ d ∈ ds, Validate d = none) (hnames : (ds.map recordFilename).Nodup) :
    (sortSlice nameGreater (listDecisionFiles (saveAll [] ds))).Perm (ds.map recordOf) ∧
    List.Sorted (fun a b : DirEntry => strLess a.Name b.Name = false)
      (sortSlice nameGreater (listDecisionFiles (saveAll [] ds))) := by
  constructor
  · rw [listDecisionFiles_eq, recordFiles_saveAll ds hvalid hnames]
    exact (sortSlice_perm _ _).trans (sortSlice_perm _ _)
  · exact sortSlice_sorted nameGreater_strict _

/-- The decisions read from these files: a rearrangement of `ds`, by
descending record filename. -/
theorem readable_saveAll (ds : List SecurityDecision)
    (hvalid : ∀ d ∈ ds, Validate d = none) (hnames : (ds.map recordFilename).Nodup) :
    (readable (sortSlice nameGreater (listDecisionFiles (saveAll [] ds)))).Perm ds ∧
    List.Pairwise (fun a b => strLess (recordFilename b) (recordFilename a) = true)
      (readable (sortSlice nameGreater (listDecisionFiles (saveAll [] ds)))) := by
  obtain ⟨hperm, hsorted⟩ := sorted_files_saveAll ds hvalid hnames
  have hp : (readable (sortSlice nameGreater (listDecisionFiles (saveAll [] ds)))).Perm ds := by
    have := hperm.filterMap (fun f => (readFile f).toOption)
    rw [show List.filterMap (fun f => (readFile f).toOption) (ds.map recordOf) =
      readable (ds.map recordOf) from rfl, readable_recordOf ds hvalid] at this
    exact this
  refine ⟨hp, ?_⟩
  have hweak : List.Pairwise (fun a b => strLess (recordFilename a) (recordFilename b) = false)
      (readable (sortSlice nameGreater (listDecisionFiles (saveAll [] ds)))) := by
    unfold readable
    apply List.Pairwise.filterMap (R := fun a b : DirEntry =>
      strLess a.Name b.Name = false ∧ a ∈ ds.map recordOf ∧ b ∈ ds.map recordOf)
    · rintro a b ⟨hab, ha, hb⟩ x hx y hy
      obtain ⟨da, hda, rfl⟩ := List.mem_map.1 ha
      obtain ⟨db, hdb, rfl⟩ := List.mem_map.1 hb
      rw [readFile_recordOf da (hvalid da hda)] at hx
      rw [readFile_recordOf db (hvalid db hdb)] at hy
      simp only [Except.toOption, Option.mem_def, Option.some.injEq] at hx hy
      subst hx
      subst hy
      exact hab
    · apply List.Pairwise.imp_of_mem _ hsorted
      intro a b ha hb hab
      exact ⟨hab, hperm.subset ha, hperm.subset hb⟩
  have hnodup : ((readable (sortSlice nameGreater (listDecisionFiles (saveAll [] ds)))).map
      recordFilename).Nodup := (hp.map recordFilename).nodup_iff.2 hnames
  have hpw := List.pairwise_map.1 hnodup
  apply (hweak.and hpw).imp
  rintro a b ⟨h1, h2⟩
  cases hba : strLess (recordFilename b) (recordFilename a) with
  | true => rfl
  | false => exact absurd (strLess_connected _ _ h1 hba) h2

/-! ## Store: listing and latest lookup after a sequence of saves -/

/-- C16 (evaluation at the failing input): `dec-b` and `dec-a` have different
identifiers and are saved in this order within one second, `dec-a` with the
later timestamp; both saves succeed, yet `List("", 0)` returns `dec-b` before
`dec-a`, the older decision first, where `TestList` asks for the decisions
"sorted by timestamp descending (newest first)". -/
theorem List_same_second :
    (Save [] earlyDecision Fault.noFault).2 = none ∧
    (Save (saveAll [] [earlyDecision]) lateDecision Fault.noFault).2 = none ∧
    earlyDecision.ID ≠ lateDecision.ID ∧
    (items (List_ (saveAll [] [earlyDecision, lateDecision]) "" 0)).map
        (fun d => (d.ID, d.Timestamp)) =
      [("dec-b", ⟨1770300000, 200000000⟩), ("dec-a", ⟨1770300000, 700000000⟩)] ∧
    Before earlyDecision.Timestamp lateDecision.Timestamp = true :=
  ⟨by decide, by decide, by decide, by decide, by decide⟩

theorem items_List_all (dir : Dir) :
    items (List_ dir "" 0) = readable (sortSlice nameGreater (listDecisionFiles dir)) := by
  rw [items_List_]
  simp only [Int.lt_irrefl, if_false]
  apply List.filter_eq_self.2
  intro d _
  simp [inNamespace]

theorem unix_le_of_not_less (a b : SecurityDecision) (ha : 0 ≤ Unix a.Timestamp)
    (hlen : (fmtInt64 (Unix a.Timestamp)).length = (fmtInt64 (Unix b.Timestamp)).length)
    (h : strLess (recordFilename b) (recordFilename a) = true) :
    Unix b.Timestamp ≤ Unix a.Timestamp := by
  by_contra hlt
  have := recordFilename_lt a b ha (by omega) hlen
  rw [strLess_asymm _ _ this] at h
  exact absurd h (by simp)

/-- How far the listing is right, beside its defect on decisions of one
second: after successful saves, into an empty store, of decisions
whose record filenames are pairwise different, `List("", 0)` returns every
saved decision exactly once; the order it gives is that of the record
filenames, descending, so that, when the Unix seconds of the timestamps are
not negative and have the same number of decimal digits, no decision comes
before one of a later Unix second. Within one second the timestamps play no
part. -/
theorem List_after_saves (ds : List SecurityDecision)
    (hvalid : ∀ d ∈ ds, Validate d = none) (hnames : (ds.map recordFilename).Nodup) :
    (items (List_ (saveAll [] ds) "" 0)).Perm ds ∧
    List.Pairwise (fun a b => strLess (recordFilename b) (recordFilename a) = true)
      (items (List_ (saveAll [] ds) "" 0)) ∧
    ((∀ d ∈ ds, 0 ≤ Unix d.Timestamp) →
      (∀ a ∈ ds, ∀ b ∈ ds,
        (fmtInt64 (Unix a.Timestamp)).length = (fmtInt64 (Unix b.Timestamp)).length) →
      List.Pairwise (fun a b => Unix b.Timestamp ≤ Unix a.Timestamp)
        (items (List_ (saveAll [] ds) "" 0))) := by
  rw [items_List_all]
  obtain ⟨hperm, hpw⟩ := readable_saveAll ds hvalid hnames
  refine ⟨hperm, hpw, ?_⟩
  intro hpos hlen
  apply List.Pairwise.imp_of_mem _ hpw
  intro a b ha hb hab
  exact unix_le_of_not_less a b (hpos a (hperm.subset ha))
    (hlen a (hperm.subset ha) b (hperm.subset hb)) hab

/-- Instance of `List_after_saves` on the saves of `retry_dec-1` and `dec-1`:
the listing is a rearrangement of the two decisions. -/
theorem List_after_saves_witness :
    (items (List_ (saveAll [] [retryDecision, laterDecision]) "" 0)).Perm
      [retryDecision, laterDecision] :=
  (List_after_saves [retryDecision, laterDecision]
    (by
      intro d hd
      rcases List.mem_cons.1 hd with rfl | hd
      · decide
      · rw [List.mem_singleton] at hd
        subst hd
        decide)
    (by decide)).1

/-- C19 (evaluation at the failing input): `dec-b` and `dec-a` are decisions
on the same resource, saved in this order within one second, `dec-a` with the
later timestamp; both saves succeed, yet `GetLatest` returns `dec-b`, the
decision saved first and with the earlier timestamp, where `TestGetLatest`
asks for the last of the decisions saved "at different times". -/
theorem GetLatest_same_second :
    (Save [] earlyDecision Fault.noFault).2 = none ∧
    (Save (saveAll [] [earlyDecision]) lateDecision Fault.noFault).2 = none ∧
    aboutResource "Deployment" "myapp" "production" earlyDecision = true ∧
    aboutResource "Deployment" "myapp" "production" lateDecision = true ∧
    Before earlyDecision.Timestamp lateDecision.Timestamp = true ∧
    (GetLatest (saveAll [] [earlyDecision, lateDecision]) "Deployment" "myapp"
        "production").toOption.map (fun d => (d.ID, d.Timestamp)) =
      some ("dec-b", ⟨1770300000, 200000000⟩) :=
  ⟨by decide, by decide, by decide, by decide, by decide, by decide⟩

theorem filterMap_getLatestBody (kind name namespace_ : String) (files : List DirEntry) :
    files.filterMap (getLatestBody kind name namespace_ 0) =
      (readable files).filter (aboutResource kind name namespace_) := by
  induction files with
  | nil => rfl
  | cons f rest ih =>
    unfold readable at ih ⊢
    rw [List.filterMap_cons, List.filterMap_cons, ih]
    cases hr : readFile f with
    | error e => simp [getLatestBody, hr, Except.toOption]
    | ok d =>
      by_cases hm : d.Resource.Kind = kind ∧ d.Resource.Name = name ∧
          d.Resource.Namespace = namespace_
      · simp [getLatestBody, hr, Except.toOption, aboutResource, hm]
      · simp [getLatestBody, hr, Except.toOption, aboutResource, hm]

theorem GetLatest_eq (dir : Dir) (kind name namespace_ : String) :
    GetLatest dir kind name namespace_ =
      match ((readable (sortSlice nameGreater (listDecisionFiles dir))).filter
          (aboutResource kind name namespace_)).head? with
      | some d => Except.ok d
      | none =>
        Except.error (RepoError.wrapped RepoError.ErrNotFound
          ("latest decision for " ++ kind ++ "/" ++ name ++ " in " ++ namespace_)) := by
  unfold GetLatest
  dsimp only
  have hbody : getLatestBody kind name namespace_ =
      fun _ f => getLatestBody kind name namespace_ 0 f := rfl
  rw [hbody, rangeFirst_filterMap (getLatestBody kind name namespace_ 0),
    filterMap_getLatestBody]

/-- How far the latest lookup is right, beside its defect on decisions of one
second: after successful saves, into an empty store, of decisions whose
record filenames are pairwise different, when some saved
decision is about the resource, `GetLatest` returns a saved decision about the
resource, the one whose record filename is the greatest, and it has the latest
Unix second among them when the Unix seconds of the timestamps are not
negative and have the same number of decimal digits; when no saved decision is
about the resource, it fails with an error that matches `ErrNotFound`. Within
one second the timestamps play no part. -/
theorem GetLatest_after_saves (ds : List SecurityDecision)
    (hvalid : ∀ d ∈ ds, Validate d = none) (hnames : (ds.map recordFilename).Nodup)
    (kind name namespace_ : String) :
    ((∃ d ∈ ds, aboutResource kind name namespace_ d = true) →
      ∃ d, GetLatest (saveAll [] ds) kind name namespace_ = Except.ok d ∧
        d ∈ ds ∧ aboutResource kind name namespace_ d = true ∧
        (∀ x ∈ ds, aboutResource kind name namespace_ x = true →
          strLess (recordFilename d) (recordFilename x) = false) ∧
        ((∀ x ∈ ds, 0 ≤ Unix x.Timestamp) →
          (∀ a ∈ ds, ∀ b ∈ ds,
            (fmtInt64 (Unix a.Timestamp)).length = (fmtInt64 (Unix b.Timestamp)).length) →
          ∀ x ∈ ds, aboutResource kind name namespace_ x = true →
            Unix x.Timestamp ≤ Unix d.Timestamp)) ∧
    ((∀ d ∈ ds, aboutResource kind name namespace_ d = false) →
      ∃ err, GetLatest (saveAll [] ds) kind name namespace_ = Except.error err ∧
        repoErrorsIs err RepoError.ErrNotFound = true) := by
  obtain ⟨hperm, hpw⟩ := readable_saveAll ds hvalid hnames
  rw [GetLatest_eq]
  have hpwf := hpw.filter (aboutResource kind name namespace_)
  cases hM : (readable (sortSlice nameGreater (listDecisionFiles (saveAll [] ds)))).filter
      (aboutResource kind name namespace_) with
  | nil =>
    constructor
    · rintro ⟨d, hd, habout⟩
      have hmem : d ∈ (readable (sortSlice nameGreater
          (listDecisionFiles (saveAll [] ds)))).filter (aboutResource kind name namespace_) :=
        List.mem_filter.2 ⟨hperm.symm.subset hd, habout⟩
      rw [hM] at hmem
      exact absurd hmem (List.not_mem_nil d)
    · intro _
      exact ⟨_, rfl, by simp [repoErrorsIs]⟩
  | cons d rest =>
    rw [hM] at hpwf
    have hdmem : d ∈ (readable (sortSlice nameGreater
        (listDecisionFiles (saveAll [] ds)))).filter (aboutResource kind name namespace_) := by
      rw [hM]
      exact List.mem_cons_self d rest
    have hd := List.mem_filter.1 hdmem
    have hrest : ∀ x ∈ ds, aboutResource kind name namespace_ x = true →
        x = d ∨ strLess (recordFilename x) (recordFilename d) = true := by
      intro x hx habout
      have hxmem : x ∈ d :: rest := by
        rw [← hM]
        exact List.mem_filter.2 ⟨hperm.symm.subset hx, habout⟩
      rcases List.mem_cons.1 hxmem with h | h
      · exact Or.inl h
      · exact Or.inr (List.rel_of_pairwise_cons hpwf h)
    constructor
    · intro _
      refine ⟨d, rfl, hperm.subset hd.1, hd.2, ?_, ?_⟩
      · intro x hx habout
        rcases hrest x hx habout with rfl | h
        · exact strLess_irrefl _
        · exact strLess_asymm _ _ h
      · intro hpos hlen x hx habout
        rcases hrest x hx habout with rfl | h
        · exact Int.le_refl _
        · exact unix_le_of_not_less d x (hpos d (hperm.subset hd.1))
            (hlen d (hperm.subset hd.1) x hx) h
    · intro hnone
      have := hnone d (hperm.subset hd.1)
      rw [hd.2] at this
      exact absurd this (by simp)

/-- Instance of `GetLatest_after_saves` on the saves of `retry_dec-1` and
`dec-1`, both about `Deployment/myapp` in `production`: `GetLatest` succeeds. -/
theorem GetLatest_after_saves_witness :
    ∃ d, GetLatest (saveAll [] [retryDecision, laterDecision]) "Deployment" "myapp"
        "production" = Except.ok d ∧ d ∈ [retryDecision, laterDecision] :=
  match (GetLatest_after_saves [retryDecision, laterDecision]
    (by
      intro d hd
      rcases List.mem_cons.1 hd with rfl | hd
      · decide
      · rw [List.mem_singleton] at hd
        subst hd
        decide)
    (by decide) "Deployment" "myapp" "production").1
    ⟨retryDecision, List.mem_cons_self _ _, by decide⟩ with
  | ⟨d, h1, h2, _⟩ => ⟨d, h1, h2⟩

/-! ## The store serves only valid decisions -/

theorem readFile_ok_valid (f : DirEntry) (d : SecurityDecision)
    (h : readFile f = Except.ok d) : Validate d = none := by
  unfold readFile at h
  cases hd : f.data with
  | corrupt text => rw [hd] at h; cases h
  | json d0 =>
    rw [hd] at h
    cases hv : Validate d0 with
    | some err => simp only [hv] at h; cases h
    | none =>
      simp only [hv] at h
      cases h
      exact hv

theorem mem_readable_valid (files : List DirEntry) (d : SecurityDecision)
    (h : d ∈ readable files) : Validate d = none := by
  unfold readable at h
  obtain ⟨f, _, hf⟩ := List.mem_filterMap.1 h
  cases hr : readFile f with
  | error e => simp [hr, Except.toOption] at hf
  | ok d0 =>
    simp only [hr, Except.toOption, Option.some.injEq] at hf
    subst hf
    exact readFile_ok_valid f d0 hr

/-- C21: whatever the store directory holds, a decision returned by `GetByID`
or by `GetLatest`, and every decision of the slice returned by `List`, passes
`Validate`. -/
theorem store_serves_valid (dir : Dir) :
    (∀ (id : String) (d : SecurityDecision),
        GetByID dir id = Except.ok d → Validate d = none) ∧
    (∀ (kind name namespace_ : String) (d : SecurityDecision),
        GetLatest dir kind name namespace_ = Except.ok d → Validate d = none) ∧
    (∀ (namespace_ : String) (limit : Int) (d : SecurityDecision),
        d ∈ items (List_ dir namespace_ limit) → Validate d = none) := by
  refine ⟨?_, ?_, ?_⟩
  · intro id d h
    unfold GetByID at h
    dsimp only at h
    cases h1 : rangeFirst (getByIDNameBody id) 0 (listDecisionFiles dir) with
    | some r =>
      rw [h1] at h
      dsimp only at h
      obtain ⟨j, f, _, hb, _⟩ := (rangeFirst_eq_some _ _ _ _).1 h1
      unfold getByIDNameBody at hb
      split at hb
      · cases hb
        exact readFile_ok_valid f d h
      · cases hb
    | none =>
      rw [h1] at h
      dsimp only at h
      cases h2 : rangeFirst (getByIDScanBody id) 0 (listDecisionFiles dir) with
      | none => rw [h2] at h; cases h
      | some d0 =>
        rw [h2] at h
        cases h
        obtain ⟨j, f, _, hb, _⟩ := (rangeFirst_eq_some _ _ _ _).1 h2
        unfold getByIDScanBody at hb
        cases hr : readFile f with
        | error e => simp [hr] at hb
        | ok d1 =>
          simp only [hr] at hb
          split at hb
          · cases hb
            exact readFile_ok_valid f _ hr
          · cases hb
  · intro kind name namespace_ d h
    rw [GetLatest_eq] at h
    cases hh : ((readable (sortSlice nameGreater (listDecisionFiles dir))).filter
        (aboutResource kind name namespace_)).head? with
    | none => rw [hh] at h; cases h
    | some d0 =>
      rw [hh] at h
      cases h
      have hm := List.mem_of_mem_head? hh
      exact mem_readable_valid _ _ (List.mem_of_mem_filter hm)
  · intro namespace_ limit d h
    rw [items_List_] at h
    split at h
    · exact mem_readable_valid _ _ (List.mem_of_mem_filter (List.mem_of_mem_take h))
    · exact mem_readable_valid _ _ (List.mem_of_mem_filter h)

/-- Witness of C21: the tampered store holds one record, which `Validate`
rejects, and serves nothing. -/
theorem store_serves_valid_witness :
    (∀ (id : String) (d : SecurityDecision),
        GetByID tamperedStore id = Except.ok d → Validate d = none) ∧
    (∀ (kind name namespace_ : String) (d : SecurityDecision),
        GetLatest tamperedStore kind name namespace_ = Except.ok d → Validate d = none) ∧
    (∀ (namespace_ : String) (limit : Int) (d : SecurityDecision),
        d ∈ items (List_ tamperedStore namespace_ limit) → Validate d = none) :=
  store_serves_valid tamperedStore

/-! ## WriteAtomic call by call -/

theorem Write_fresh (dir : Dir) (name : String) (data : FileData)
    (hfresh : ∀ f ∈ dir, f.Name ≠ name) : Write dir name data = dir := by
  unfold Write
  induction dir with
  | nil => rfl
  | cons f rest ih =>
    have hf : f.Name ≠ name := hfresh f (List.mem_cons_self _ _)
    rw [List.map_cons, ih (fun g hg => hfresh g (List.mem_cons_of_mem _ hg))]
    simp [hf]

theorem Remove_fresh (dir : Dir) (name : String)
    (hfresh : ∀ f ∈ dir, f.Name ≠ name) : Remove dir name = dir := by
  unfold Remove
  apply List.filter_eq_self.2
  intro f hf
  simpa using hfresh f hf

theorem Write_CreateTemp (dir : Dir) (tmpName : String) (data : FileData)
    (hfresh : ∀ f ∈ dir, f.Name ≠ tmpName) :
    Write (CreateTemp dir tmpName) tmpName data = dir ++ [{ Name := tmpName, data := data }] := by
  have h := Write_fresh dir tmpName data hfresh
  unfold Write at h ⊢
  unfold CreateTemp
  rw [List.map_append, h]
  simp

theorem Remove_Write_CreateTemp (dir : Dir) (tmpName : String) (data : FileData)
    (hfresh : ∀ f ∈ dir, f.Name ≠ tmpName) :
    Remove (Write (CreateTemp dir tmpName) tmpName data) tmpName = dir := by
  rw [Write_CreateTemp dir tmpName data hfresh]
  have h := Remove_fresh dir tmpName hfresh
  unfold Remove at h ⊢
  rw [List.filter_append, h]
  simp

theorem Rename_Write_CreateTemp (dir : Dir) (path tmpName : String) (data : FileData)
    (hfresh : ∀ f ∈ dir, f.Name ≠ tmpName) :
    Rename (Write (CreateTemp dir tmpName) tmpName data) tmpName path =
      writeFile dir path data := by
  rw [Write_CreateTemp dir tmpName data hfresh]
  unfold Rename writeFile
  by_cases hp : tmpName = path
  · subst hp
    rw [if_pos rfl]
    have h := Remove_fresh dir tmpName hfresh
    unfold Remove at h
    rw [h]
  · rw [if_neg hp, List.filter_append, List.map_append]
    have hkeep : ∀ f ∈ dir.filter (fun f => f.Name != path), f.Name ≠ tmpName :=
      fun f hf => hfresh f (List.mem_of_mem_filter hf)
    have hmap : ∀ l : Dir, (∀ f ∈ l, f.Name ≠ tmpName) →
        l.map (fun f => if f.Name = tmpName then { f with Name := path } else f) = l := by
      intro l hl
      induction l with
      | nil => rfl
      | cons f rest ih =>
        rw [List.map_cons, ih (fun g hg => hl g (List.mem_cons_of_mem _ hg))]
        simp [hl f (List.mem_cons_self _ _)]
    rw [hmap _ hkeep]
    simp [hp]

theorem fileAt_fresh (dir : Dir) (name : String)
    (hfresh : ∀ f ∈ dir, f.Name ≠ name) : fileAt dir name = none := by
  unfold fileAt
  rw [Option.map_eq_none', List.find?_eq_none]
  intro f hf
  simpa using hfresh f hf

theorem fileAt_writeFile (dir : Dir) (path : String) (data : FileData) :
    fileAt (writeFile dir path data) path = some data := by
  unfold fileAt writeFile
  rw [List.find?_append]
  have h : (dir.filter (fun f => f.Name != path)).find? (fun f => f.Name == path) = none := by
    rw [List.find?_eq_none]
    intro f hf
    have := (List.mem_filter.1 hf).2
    simpa using this
  rw [h]
  simp

theorem WriteAtomicSteps_fault (dir : Dir) (path : String) (data : FileData)
    (tmpName : String) (written : FileData) (hfresh : ∀ f ∈ dir, f.Name ≠ tmpName)
    (step : AtomicStep) :
    ∃ err, WriteAtomicSteps dir path data tmpName (some step) written = (dir, some err) := by
  unfold WriteAtomicSteps
  cases step <;>
    simp [Remove_Write_CreateTemp dir tmpName _ hfresh]

theorem WriteAtomicSteps_success (dir : Dir) (path : String) (data : FileData)
    (tmpName : String) (written : FileData) (hfresh : ∀ f ∈ dir, f.Name ≠ tmpName) :
    WriteAtomicSteps dir path data tmpName none written = (writeFile dir path data, none) := by
  unfold WriteAtomicSteps
  simp [Rename_Write_CreateTemp dir path tmpName data hfresh]

/-- The directory-level `WriteAtomic` is what the calls add up to. -/
theorem WriteAtomicSteps_directory (dir : Dir) (path : String) (data : FileData)
    (tmpName : String) (written : FileData) (hfresh : ∀ f ∈ dir, f.Name ≠ tmpName)
    (fault : Option AtomicStep) :
    (WriteAtomicSteps dir path data tmpName fault written).1 =
        (WriteAtomic dir path data fault.isSome).1 ∧
      (WriteAtomicSteps dir path data tmpName fault written).2.isSome =
        (WriteAtomic dir path data fault.isSome).2.isSome := by
  cases fault with
  | none =>
    rw [WriteAtomicSteps_success dir path data tmpName written hfresh]
    simp [WriteAtomic]
  | some step =>
    obtain ⟨err, h⟩ := WriteAtomicSteps_fault dir path data tmpName written hfresh step
    rw [h]
    simp [WriteAtomic]

/-- C22: when a call of `WriteAtomic` fails (creating the temporary file,
write, sync, close, chmod or rename), an error is returned, the directory is
what it was before the call, so the target path shows its former content, and
no file is left under the temporary name; when no call fails, nil is returned
and the target path holds exactly the given data. The temporary name is one
the directory does not have, as `os.CreateTemp` ensures. -/
theorem WriteAtomic_all_or_nothing (dir : Dir) (path : String) (data : FileData)
    (tmpName : String) (written : FileData) (hfresh : ∀ f ∈ dir, f.Name ≠ tmpName) :
    (∀ step : AtomicStep,
      (WriteAtomicSteps dir path data tmpName (some step) written).2.isSome = true ∧
      (WriteAtomicSteps dir path data tmpName (some step) written).1 = dir ∧
      fileAt (WriteAtomicSteps dir path data tmpName (some step) written).1 path =
        fileAt dir path ∧
      fileAt (WriteAtomicSteps dir path data tmpName (some step) written).1 tmpName = none) ∧
    ((WriteAtomicSteps dir path data tmpName none written).2 = none ∧
      (WriteAtomicSteps dir path data tmpName none written).1 = writeFile dir path data ∧
      fileAt (WriteAtomicSteps dir path data tmpName none written).1 path = some data) := by
  constructor
  · intro step
    obtain ⟨err, h⟩ := WriteAtomicSteps_fault dir path data tmpName written hfresh step
    rw [h]
    exact ⟨rfl, rfl, rfl, fileAt_fresh dir tmpName hfresh⟩
  · rw [WriteAtomicSteps_success dir path data tmpName written hfresh]
    exact ⟨rfl, rfl, fileAt_writeFile dir path data⟩

/-- Witness of C22: a write over the record of a one-record store, with the
temporary name `atomic-1`. -/
theorem WriteAtomic_all_or_nothing_witness :
    (∀ f ∈ oneRecordStore, f.Name ≠ "atomic-1") ∧
    (∀ step : AtomicStep,
      (WriteAtomicSteps oneRecordStore (recordFilename laterDecision)
        (FileData.json retryDecision) "atomic-1" (some step) halfWritten).1 = oneRecordStore) ∧
    fileAt (WriteAtomicSteps oneRecordStore (recordFilename laterDecision)
      (FileData.json retryDecision) "atomic-1" none halfWritten).1
        (recordFilename laterDecision) = some (FileData.json retryDecision) :=
  have hfresh : ∀ f ∈ oneRecordStore, f.Name ≠ "atomic-1" := by
    intro f hf
    have hf2 : f = recordOf laterDecision := by simpa [oneRecordStore] using hf
    rw [hf2]
    decide
  ⟨hfresh,
    fun step => ((WriteAtomic_all_or_nothing oneRecordStore (recordFilename laterDecision)
      (FileData.json retryDecision) "atomic-1" halfWritten hfresh).1 step).2.1,
    (WriteAtomic_all_or_nothing oneRecordStore (recordFilename laterDecision)
      (FileData.json retryDecision) "atomic-1" halfWritten hfresh).2.2.2⟩

/-! ## Translator -/

theorem New_fallback (rt : Runtime) (lang : String) (t : Translator)
    (h : i18n.New rt lang = some t) : rt.locales "en" = some t.fallback := by
  unfold i18n.New loadLocale at h
  cases hen : rt.locales "en" with
  | none => rw [hen] at h; cases h
  | some en =>
    rw [hen] at h
    cases h
    rfl

/-- C23: `resolve(key)` is the value of `key` in the active bundle when it has
one; otherwise the value of `key` in the fallback bundle, which for a
translator built by `New` is the English bundle, when that has one; otherwise
`key` itself. It is a total function: there is no error to return. -/
theorem resolve_fallback_order (t : Translator) (key : String) :
    (∀ s, t.msgs.lookup key = some s → t.resolve key = s) ∧
    (t.msgs.lookup key = none → ∀ s, t.fallback.lookup key = some s → t.resolve key = s) ∧
    (t.msgs.lookup key = none → t.fallback.lookup key = none → t.resolve key = key) ∧
    (∀ (rt : Runtime) (lang : String), i18n.New rt lang = some t →
      rt.locales "en" = some t.fallback) := by
  refine ⟨?_, ?_, ?_, ?_⟩
  · intro s h
    simp [Translator.resolve, h]
  · intro h s hs
    simp [Translator.resolve, h, hs]
  · intro h hs
    simp [Translator.resolve, h, hs]
  · intro rt lang h
    exact New_fallback rt lang t h

/-- Witness of C23: a bundle with `label.evidence` only, over an English
bundle that also has `label.fix`. -/
theorem resolve_fallback_order_witness :
    sparseTranslator.resolve "label.evidence" = "証拠:" ∧
    sparseTranslator.resolve "label.fix" = "Fix (minimal):" ∧
    sparseTranslator.resolve "no.such.key" = "no.such.key" :=
  ⟨(resolve_fallback_order sparseTranslator "label.evidence").1 _ (by decide),
    (resolve_fallback_order sparseTranslator "label.fix").2.1 (by decide) _ (by decide),
    (resolve_fallback_order sparseTranslator "no.such.key").2.2.1 (by decide) (by decide)⟩

/-- C24: when the locale of `lang` cannot be loaded, `New(lang)` succeeds
whenever `New("en")` does, and its translator renders every key with every
argument exactly as the English translator does. -/
theorem New_unloadable_language (rt : Runtime) (lang : String) (ten : Translator)
    (hload : loadLocale rt lang = none) (hen : i18n.New rt "en" = some ten) :
    ∃ tl, i18n.New rt lang = some tl ∧ tl.lang = lang ∧
      tl.msgs = ten.msgs ∧ tl.fallback = ten.fallback ∧
      ∀ (key : String) (data : TemplateData), tl.T rt key data = ten.T rt key data := by
  unfold i18n.New at hen ⊢
  cases hl : loadLocale rt "en" with
  | none => rw [hl] at hen; cases hen
  | some en =>
    rw [hl] at hen
    simp only [ne_eq, not_true_eq_false, if_false, Option.some.injEq] at hen
    subst hen
    refine ⟨_, rfl, rfl, ?_, rfl, ?_⟩
    · by_cases h : lang = "en"
      · simp [h]
      · simp [h, hload]
    · intro key data
      by_cases h : lang = "en"
      · simp [h, Translator.T, Translator.resolve]
      · simp [h, hload, Translator.T, Translator.resolve]

/-- Witness of C24: there is no locale `fr`. -/
theorem New_unloadable_language_witness :
    ∃ tl, i18n.New testRuntime "fr" = some tl ∧ tl.lang = "fr" ∧
      tl.msgs = (⟨"en", (testLocales "en").getD [], (testLocales "en").getD []⟩ : Translator).msgs ∧
      tl.fallback =
        (⟨"en", (testLocales "en").getD [], (testLocales "en").getD []⟩ : Translator).fallback ∧
      ∀ (key : String) (data : TemplateData), tl.T testRuntime key data =
        (⟨"en", (testLocales "en").getD [], (testLocales "en").getD []⟩ :
          Translator).T testRuntime key data :=
  New_unloadable_language testRuntime "fr" _ (by decide) (by decide)

/-- C25 (evaluation at the failing input): the key `\x7b\x7b.ID\x7d\x7d` is
in neither bundle of the English translator, and `T` renders it as a template:
with the argument `ID` it returns the value of the argument, `test-001`, where
`TestT_MissingKey_ReturnsKey` and the comments of the translator tests say
that an unknown key returns the key itself. -/
theorem T_template_key_rendered :
    (i18n.New testRuntime "en").map (fun t =>
      (t.msgs.lookup "\x7b\x7b.ID\x7d\x7d", t.fallback.lookup "\x7b\x7b.ID\x7d\x7d",
        t.T testRuntime "\x7b\x7b.ID\x7d\x7d"
          (TemplateData.map (some [("ID", TemplateValue.str "test-001")])))) =
      some (none, none, "test-001") := by
  decide

/-- How far `T` is right on unknown keys, beside its defect on keys that
read as templates: for a key that is in neither bundle, `T` returns the
key unchanged when the key contains no `\x7b\x7b`, and also when parsing or
executing the key as a template fails; otherwise the key that `resolve` fell
back to goes through the template engine, and `T` returns what the engine
makes of it. -/
theorem T_unknown_key (rt : Runtime) (t : Translator) (key : String) (data : TemplateData)
    (hmsgs : t.msgs.lookup key = none) (hfallback : t.fallback.lookup key = none) :
    (Contains key "\x7b\x7b" = false → t.T rt key data = key) ∧
    (rt.Execute key data = none → t.T rt key data = key) ∧
    (∀ s, Contains key "\x7b\x7b" = true → rt.Execute key data = some s →
      t.T rt key data = s) := by
  have hres : t.resolve key = key := by
    simp [Translator.resolve, hmsgs, hfallback]
  unfold Translator.T
  simp only [hres]
  unfold renderTemplate
  refine ⟨?_, ?_, ?_⟩
  · intro h
    simp [h]
  · intro h
    simp [h]
  · intro s hc h
    simp [hc, h]

/-- Instance of `T_unknown_key` on the key of `TestT_MissingKey_ReturnsKey`. -/
theorem T_unknown_key_witness :
    sparseTranslator.T testRuntime "no.such.key" TemplateData.nil = "no.such.key" :=
  (T_unknown_key testRuntime sparseTranslator "no.such.key" TemplateData.nil
    (by decide) (by decide)).1 (by decide)

/-- C26: with an empty key `resolveText` returns the plain-string field as it
is, whatever the translator, the runtime and the arguments; with a non-empty
key it returns `T(key, args)`, whatever the plain-string field. -/
theorem resolveText_key_or_fallback (rt : Runtime) (tr : Translator) (key : String)
    (args : StringMap) (fallback : String) :
    (key = "" → ∀ (rt2 : Runtime) (tr2 : Translator) (args2 : StringMap),
      resolveText rt tr key args fallback = fallback ∧
      resolveText rt2 tr2 key args2 fallback = fallback) ∧
    (key ≠ "" → ∀ fallback2 : String,
      resolveText rt tr key args fallback = tr.T rt key (toAnyMap args) ∧
      resolveText rt tr key args fallback2 = tr.T rt key (toAnyMap args)) := by
  constructor
  · intro h rt2 tr2 args2
    simp [resolveText, h]
  · intro h fallback2
    simp [resolveText, h]

/-- Witness of C26: a title without key, and the key `label.fix`. -/
theorem resolveText_key_or_fallback_witness :
    resolveText testRuntime sparseTranslator "" none "Raw English Title" =
        "Raw English Title" ∧
    resolveText testRuntime sparseTranslator "label.fix" none "Raw fix title" =
        sparseTranslator.T testRuntime "label.fix" (toAnyMap none) :=
  ⟨((resolveText_key_or_fallback testRuntime sparseTranslator "" none
      "Raw English Title").1 rfl testRuntime sparseTranslator none).1,
    ((resolveText_key_or_fallback testRuntime sparseTranslator "label.fix" none
      "Raw fix title").2 (by decide) "Raw fix title").1⟩

/-! ## Trimming does not lengthen -/

theorem trimLeftLoop_length_le (fuel : Nat) (s : Bytes) :
    (trimLeftLoop fuel s).length ≤ s.length := by
  induction fuel generalizing s with
  | zero => exact Nat.le_refl _
  | succ fuel ih =>
    unfold trimLeftLoop
    cases s with
    | nil => exact Nat.le_refl _
    | cons c rest =>
      dsimp only
      split
      · exact Nat.le_trans (ih _) (by rw [List.length_drop]; exact Nat.sub_le _ _)
      · exact Nat.le_refl _

theorem TrimRightSpace_length_le (s : Bytes) : (TrimRightSpace s).length ≤ s.length := by
  unfold TrimRightSpace
  split
  · rw [List.length_take]; exact Nat.min_le_right _ _
  · split
    · rw [List.length_take]; exact Nat.min_le_right _ _
    · rw [List.length_take]; exact Nat.min_le_right _ _

theorem length_dropWhile_le {α : Type} (p : α → Bool) (l : List α) :
    (l.dropWhile p).length ≤ l.length := by
  induction l with
  | nil => exact Nat.le_refl _
  | cons a l ih =>
    rw [List.dropWhile_cons]
    split
    · exact Nat.le_trans ih (Nat.le_succ _)
    · exact Nat.le_refl _

theorem TrimSpace_length_le (s : Bytes) : (TrimSpace s).length ≤ s.length := by
  have h1 : (s.dropWhile asciiSpace).length ≤ s.length := length_dropWhile_le _ _
  unfold TrimSpace
  dsimp only
  cases hs : s.dropWhile asciiSpace with
  | nil => exact Nat.zero_le _
  | cons c rest =>
    rw [hs] at h1
    dsimp only
    split
    · refine Nat.le_trans (TrimRightSpace_length_le _) (Nat.le_trans ?_ h1)
      exact trimLeftLoop_length_le _ _
    · have h2 : (((c :: rest).reverse.dropWhile asciiSpace).reverse).length ≤
          (c :: rest).length := by
        rw [List.length_reverse]
        exact Nat.le_trans (length_dropWhile_le _ _) (by rw [List.length_reverse])
      split
      · exact Nat.zero_le _
      · split
        · exact Nat.le_trans (TrimRightSpace_length_le _) (Nat.le_trans h2 h1)
        · exact Nat.le_trans h2 h1

/-! ## The break point -/

theorem getD_eq_iff_getElem? (r : Bytes) (k : Nat) (hk : k < r.length) :
    r.getD k 0 = 32 ↔ r[k]? = some 32 := by
  rw [List.getD_eq_getElem?_getD, List.getElem?_eq_getElem hk]
  simp

theorem searchBack_eq_some (r : Bytes) (half i j : Nat) (hi : i < r.length)
    (h : searchBack r half i = some j) :
    half < j ∧ j ≤ i ∧ r[j]? = some 32 ∧ ∀ k, j < k → k ≤ i → r[k]? ≠ some 32 := by
  induction i with
  | zero => simp [searchBack] at h
  | succ i ih =>
    unfold searchBack at h
    split at h
    · rename_i hc
      split at h
      · rename_i h32
        cases h
        refine ⟨hc.1, Nat.le_refl _, (getD_eq_iff_getElem? r _ hi).1 h32, ?_⟩
        intro k hk1 hk2
        omega
      · rename_i h32
        obtain ⟨h1, h2, h3, h4⟩ := ih (by omega) h
        refine ⟨h1, by omega, h3, ?_⟩
        intro k hk1 hk2
        by_cases hk : k = i + 1
        · subst hk
          exact fun hh => h32 ((getD_eq_iff_getElem? r _ hi).2 hh)
        · exact h4 k hk1 (by omega)
    · cases h

theorem searchBack_eq_none (r : Bytes) (half i : Nat) (hi : i < r.length)
    (h : searchBack r half i = none) :
    ∀ k, half < k → k ≤ i → r[k]? ≠ some 32 := by
  induction i with
  | zero => intro k hk1 hk2; omega
  | succ i ih =>
    unfold searchBack at h
    split at h
    · rename_i hc
      split at h
      · cases h
      · rename_i h32
        intro k hk1 hk2
        by_cases hk : k = i + 1
        · subst hk
          exact fun hh => h32 ((getD_eq_iff_getElem? r _ hi).2 hh)
        · exact ih (by omega) h k hk1 (by omega)
    · rename_i hc
      intro k hk1 hk2
      omega

theorem indexOf_first (s : Bytes) (c : Nat) (h : c ∈ s) :
    s[s.indexOf c]? = some c ∧ ∀ m, m < s.indexOf c → s[m]? ≠ some c := by
  induction s with
  | nil => cases h
  | cons a s ih =>
    by_cases hac : a = c
    · subst hac
      simp [List.indexOf_cons_self]
    · have hmem : c ∈ s := by
        rcases List.mem_cons.1 h with h1 | h1
        · exact absurd h1.symm hac
        · exact h1
      have hidx : (a :: s).indexOf c = s.indexOf c + 1 := by
        rw [List.indexOf_cons_ne _ hac]
      rw [hidx]
      obtain ⟨h1, h2⟩ := ih hmem
      refine ⟨by simpa using h1, ?_⟩
      intro m hm
      cases m with
      | zero => simpa using hac
      | succ m => simpa using h2 m (by omega)

theorem IndexByte_eq_neg_one (s : Bytes) (c : Nat) : IndexByte s c = -1 ↔ c ∉ s := by
  unfold IndexByte
  split
  · rename_i h
    constructor
    · intro h1; omega
    · intro h1; exact absurd h h1
  · rename_i h
    simp [h]

theorem IndexByte_of_mem (s : Bytes) (c : Nat) (h : c ∈ s) :
    IndexByte s c = (s.indexOf c : Int) := by
  unfold IndexByte
  rw [if_pos h]

theorem breakPoint_isBreakPoint (r : Bytes) (t : Nat) (ht : t < r.length) :
    IsBreakPoint r t (breakPoint r t) := by
  unfold breakPoint
  dsimp only
  cases hs : searchBack r (t / 2) t with
  | some j =>
    obtain ⟨h1, h2, h3, h4⟩ := searchBack_eq_some r (t / 2) t j ht hs
    simp only [Option.getD_some]
    by_cases hjt : j = t
    · subst hjt
      have hmem : 32 ∈ r.drop j := by
        rw [List.mem_iff_getElem?]
        exact ⟨0, by rw [List.getElem?_drop]; simpa using h3⟩
      have hidx : (r.drop j).indexOf 32 = 0 := by
        obtain ⟨_, hfirst⟩ := indexOf_first (r.drop j) 32 hmem
        by_contra hne
        have := hfirst 0 (Nat.pos_of_ne_zero hne)
        rw [List.getElem?_drop] at this
        exact this (by simpa using h3)
      rw [if_pos ⟨rfl, ht⟩, IndexByte_of_mem _ _ hmem, hidx]
      simp only [Nat.cast_zero, Int.toNat_zero, Nat.add_zero]
      rw [if_pos (by constructor <;> omega)]
      exact Or.inl ⟨h1, Nat.le_refl _, h3, h4⟩
    · rw [if_neg (fun hh => hjt hh.1)]
      exact Or.inl ⟨h1, h2, h3, h4⟩
  | none =>
    have hno := searchBack_eq_none r (t / 2) t ht hs
    simp only [Option.getD_none]
    rw [if_pos ⟨trivial, ht⟩]
    by_cases hmem : 32 ∈ r.drop t
    · obtain ⟨hat, hfirst⟩ := indexOf_first (r.drop t) 32 hmem
      rw [IndexByte_of_mem _ _ hmem]
      rw [List.getElem?_drop] at hat
      by_cases hlt : (r.drop t).indexOf 32 < 20
      · rw [if_pos (by constructor <;> omega)]
        refine Or.inr (Or.inl ⟨hno, (r.drop t).indexOf 32, hlt, by simp, hat, ?_⟩)
        intro m hm
        have := hfirst m hm
        rwa [List.getElem?_drop] at this
      · rw [if_neg (by intro hh; omega)]
        refine Or.inr (Or.inr ⟨hno, ?_, rfl⟩)
        intro k hk hh
        have := hfirst k (by omega)
        rw [List.getElem?_drop] at this
        exact this hh
    · rw [(IndexByte_eq_neg_one _ _).2 hmem]
      rw [if_neg (by intro hh; exact hh.1 rfl)]
      refine Or.inr (Or.inr ⟨hno, ?_, rfl⟩)
      intro k hk hh
      apply hmem
      rw [List.mem_iff_getElem?]
      exact ⟨k, by rw [List.getElem?_drop]; exact hh⟩

theorem IsBreakPoint_unique (r : Bytes) (t a b : Nat)
    (ha : IsBreakPoint r t a) (hb : IsBreakPoint r t b) : a = b := by
  rcases ha with ⟨a1, a2, a3, a4⟩ | ⟨a1, k, a2, a3, a4, a5⟩ | ⟨a1, a2, a3⟩ <;>
    rcases hb with ⟨b1, b2, b3, b4⟩ | ⟨b1, m, b2, b3, b4, b5⟩ | ⟨b1, b2, b3⟩
  · rcases Nat.lt_trichotomy a b with h | h | h
    · exact absurd b3 (a4 b h b2)
    · exact h
    · exact absurd a3 (b4 a h a2)
  · exact absurd a3 (b1 a a1 a2)
  · exact absurd a3 (b1 a a1 a2)
  · exact absurd b3 (a1 b b1 b2)
  · rcases Nat.lt_trichotomy k m with h | h | h
    · exact absurd a4 (b5 k h)
    · omega
    · exact absurd b4 (a5 m h)
  · exact absurd a4 (b2 k a2)
  · exact absurd b3 (a1 b b1 b2)
  · exact absurd b4 (a2 m b2)
  · omega

theorem IsBreakPoint_pos (r : Bytes) (t bp : Nat) (ht : 1 ≤ t)
    (h : IsBreakPoint r t bp) : 1 ≤ bp := by
  rcases h with ⟨a1, _, _, _⟩ | ⟨_, k, _, a3, _, _⟩ | ⟨_, _, a3⟩ <;> omega


/-! ## The lines of wrapIndent -/

theorem continuationLines_cons (indent line : Bytes) (lines : List Bytes) :
    continuationLines indent (line :: lines) =
      [10] ++ indent ++ line ++ continuationLines indent lines := by
  simp [continuationLines]

theorem continuationLines_nil (indent : Bytes) : continuationLines indent [] = [] := rfl

theorem wrapLoop_lines (width : Int) (indent : Bytes) (hw : (indent.length : Int) < width)
    (fuel : Nat) (remaining : Bytes) (firstLine : Bool) (result : Bytes)
    (hfuel : remaining.length < fuel) :
    ∃ lines, WrappedLines width indent remaining firstLine lines ∧
      wrapLoop width indent fuel remaining firstLine result =
        some (result ++
          (if firstLine then joinLines indent lines else continuationLines indent lines)) := by
  induction fuel generalizing remaining firstLine result with
  | zero => omega
  | succ fuel ih =>
    unfold wrapLoop
    by_cases hlen : remaining.length > 0
    · rw [if_pos hlen]
      dsimp only
      have hne : remaining ≠ [] := by
        intro h
        rw [h] at hlen
        exact Nat.lt_irrefl _ hlen
      have htake : 1 ≤ takeLen width indent firstLine := by
        unfold takeLen
        split <;> omega
      by_cases hfit : (remaining.length : Int) ≤ takeLen width indent firstLine
      · rw [if_pos hfit]
        refine ⟨[remaining], WrappedLines.last remaining firstLine hne hfit, ?_⟩
        cases firstLine <;>
          simp [joinLines, continuationLines_cons, continuationLines_nil]
      · rw [if_neg hfit, if_neg (by omega)]
        have hnat : ((takeLen width indent firstLine).toNat : Int) =
            takeLen width indent firstLine := Int.toNat_of_nonneg (by omega)
        have hlong : (takeLen width indent firstLine).toNat < remaining.length := by omega
        have hbreak := breakPoint_isBreakPoint remaining _ hlong
        have hpos := IsBreakPoint_pos remaining _ _ (by omega) hbreak
        have hshrink : (TrimSpace (remaining.drop
            (breakPoint remaining (takeLen width indent firstLine).toNat))).length < fuel := by
          refine Nat.lt_of_le_of_lt (TrimSpace_length_le _) ?_
          rw [List.length_drop]
          omega
        obtain ⟨lines, hl, heq⟩ := ih _ false
          ((if (!firstLine) = true then result ++ [10] ++ indent else result) ++
            remaining.take (breakPoint remaining (takeLen width indent firstLine).toNat))
          hshrink
        refine ⟨_ :: lines,
          WrappedLines.cut remaining firstLine _ _ lines hnat.symm hlong hbreak hl, ?_⟩
        rw [heq]
        cases firstLine <;>
          simp [joinLines, continuationLines_cons]
    · rw [if_neg hlen]
      have hnil : remaining = [] := by
        cases remaining with
        | nil => rfl
        | cons a l => exact absurd (Nat.succ_pos _) hlen
      subst hnil
      refine ⟨[], WrappedLines.done firstLine, ?_⟩
      cases firstLine <;> simp [joinLines, continuationLines_nil]

/-- C30: `wrapIndent` returns a text of at most `width` bytes unchanged. For
an indent shorter than `width` it returns the lines of the text joined, the
first line as it is and every other line after a line feed and the indent,
where a text longer than the limit of its line (`width` on the first line,
`width` less the length of the indent on the others) is cut at the break
point: the nearest space at or before the limit beyond half the limit, else
the first space fewer than 20 bytes after the limit, else the limit itself.
The break point computed by the code is the only one of this description. -/
theorem wrapIndent_lines (text : Bytes) (width : Int) (indent : Bytes) :
    ((text.length : Int) ≤ width → wrapIndent text width indent = some text) ∧
    ((indent.length : Int) < width →
      ∃ lines, WrappedLines width indent text true lines ∧
        wrapIndent text width indent = some (joinLines indent lines)) ∧
    (∀ (remaining : Bytes) (limit : Nat), limit < remaining.length →
      IsBreakPoint remaining limit (breakPoint remaining limit) ∧
      ∀ bp, IsBreakPoint remaining limit bp → bp = breakPoint remaining limit) := by
  refine ⟨?_, ?_, ?_⟩
  · intro h
    unfold wrapIndent
    rw [if_pos h]
  · intro hw
    unfold wrapIndent
    by_cases h : (text.length : Int) ≤ width
    · rw [if_pos h]
      cases text with
      | nil => exact ⟨[], WrappedLines.done true, rfl⟩
      | cons a l =>
        refine ⟨[a :: l], WrappedLines.last _ true (List.cons_ne_nil _ _) ?_, ?_⟩
        · simpa [takeLen] using h
        · simp [joinLines, continuationLines_nil]
    · rw [if_neg h]
      obtain ⟨lines, hl, heq⟩ := wrapLoop_lines width indent hw (text.length + 2) text true []
        (by omega)
      refine ⟨lines, hl, ?_⟩
      rw [heq]
      simp
  · intro remaining limit hlimit
    have h := breakPoint_isBreakPoint remaining limit hlimit
    exact ⟨h, fun bp hbp => IsBreakPoint_unique remaining limit _ _ hbp h⟩

/-- Witness of C30: a sentence of 70 bytes at width 20 with an indent of
three spaces. -/
theorem wrapIndent_lines_witness :
    ∃ lines, WrappedLines 20 (utf8 "   ") foxText true lines ∧
      wrapIndent foxText 20 (utf8 "   ") = some (joinLines (utf8 "   ") lines) :=
  (wrapIndent_lines foxText 20 (utf8 "   ")).2.1 (by decide)

set_option maxRecDepth 100000 in
/-- The wrapped sentence of the example. -/
theorem wrapIndent_foxText :
    wrapIndent foxText 20 (utf8 "   ") =
      some (utf8 "The quick brown fox\n   jumps over the\n   lazy dog and\n   keeps running far\n   away") := by
  decide

/-! ## The renderer returns -/

theorem wrapIndent_isSome (text : Bytes) (width : Int) (indent : Bytes)
    (hw : (indent.length : Int) < width) :
    wrapIndent text width indent = some ((wrapIndent text width indent).getD []) := by
  unfold wrapIndent
  by_cases h : (text.length : Int) ≤ width
  · rw [if_pos h]
    rfl
  · rw [if_neg h]
    obtain ⟨lines, _, heq⟩ := wrapLoop_lines width indent hw (text.length + 2) text true []
      (by omega)
    rw [heq]
    rfl

theorem wrapIndent_80 (text : Bytes) (indent : String) (h : (utf8 indent).length < 80) :
    wrapIndent text 80 (utf8 indent) = some (wrap80 text indent) := by
  unfold wrap80
  exact wrapIndent_isSome text 80 (utf8 indent) (by omega)

theorem rangeWrite_entries {α : Type} (body : Nat → α → Option Bytes) (g : Nat → α → Bytes)
    (h : ∀ i x, body i x = some (g i x)) (i : Nat) (xs : List α) :
    rangeWrite body i xs = some (entriesFrom g i xs).flatten := by
  induction xs generalizing i with
  | nil => rfl
  | cons x xs ih =>
    unfold rangeWrite entriesFrom
    rw [h i x, ih (i + 1)]
    simp

theorem entriesFrom_length {α : Type} (g : Nat → α → Bytes) (i : Nat) (xs : List α) :
    (entriesFrom g i xs).length = xs.length := by
  induction xs generalizing i with
  | nil => rfl
  | cons x xs ih =>
    unfold entriesFrom
    rw [List.length_cons, List.length_cons, ih]

theorem entriesFrom_getElem? {α : Type} (g : Nat → α → Bytes) (i j : Nat) (xs : List α)
    (x : α) (h : xs[j]? = some x) : (entriesFrom g i xs)[j]? = some (g (i + j) x) := by
  induction xs generalizing i j with
  | nil => simp at h
  | cons y ys ih =>
    unfold entriesFrom
    cases j with
    | zero =>
      simp only [List.getElem?_cons_zero, Option.some.injEq] at h
      subst h
      simp
    | succ j =>
      simp only [List.getElem?_cons_succ] at h
      rw [List.getElem?_cons_succ, ih (i + 1) j h]
      congr 2
      omega

theorem entriesFrom_const {α : Type} (f : α → Bytes) (i : Nat) (xs : List α) :
    entriesFrom (fun _ x => f x) i xs = xs.map f := by
  induction xs generalizing i with
  | nil => rfl
  | cons x xs ih =>
    unfold entriesFrom
    rw [ih, List.map_cons]

theorem renderEvidence_eq (e : Evidence) : renderEvidence e = some (evidenceLine e) := by
  unfold renderEvidence evidenceLine
  dsimp only
  rw [wrapIndent_80 _ "     " (by decide)]

theorem renderEvidenceBlock_eq (rt : Runtime) (tr : Translator) (v : Violation) :
    renderEvidenceBlock rt tr v =
      some (evidenceLabel rt tr v ++ evidenceLines (items v.Evidence)) := by
  unfold renderEvidenceBlock evidenceLabel evidenceLines
  by_cases h : len v.Evidence > 0
  · rw [if_pos h, if_pos h,
      rangeWrite_entries (fun _ e => renderEvidence e) (fun _ e => evidenceLine e)
        (fun _ e => renderEvidence_eq e), entriesFrom_const]
  · rw [if_neg h, if_neg h]
    have h0 : items v.Evidence = [] := by
      unfold len at h
      exact List.length_eq_zero.1 (by omega)
    rw [h0]
    rfl

theorem renderWhat_isSome (rt : Runtime) (tr : Translator) (v : Violation) :
    renderWhat rt tr v = some ((renderWhat rt tr v).getD []) := by
  unfold renderWhat
  dsimp only
  split
  · rw [wrapIndent_80 _ "   " (by decide)]
    rfl
  · rfl

theorem renderFix_isSome (rt : Runtime) (tr : Translator) (f : Action) :
    renderFix rt tr f = some ((renderFix rt tr f).getD []) := by
  unfold renderFix
  dsimp only
  rw [wrapIndent_80 _ "     " (by decide)]
  rfl

theorem renderFixBlock_isSome (rt : Runtime) (tr : Translator) (v : Violation) :
    renderFixBlock rt tr v = some ((renderFixBlock rt tr v).getD []) := by
  unfold renderFixBlock
  split
  · rw [rangeWrite_entries (fun _ f => renderFix rt tr f)
      (fun _ f => (renderFix rt tr f).getD []) (fun _ f => renderFix_isSome rt tr f)]
    rfl
  · rfl

/-- The text that the loop of `renderViolations` writes for a violation. -/
theorem renderViolationBody_eq (rt : Runtime) (tr : Translator) (n i : Nat) (v : Violation) :
    renderViolationBody rt tr n i v = some (violationEntry rt tr n i v) := by
  unfold renderViolationBody violationEntry
  dsimp only
  rw [renderWhat_isSome, renderEvidenceBlock_eq, renderFixBlock_isSome]
  rfl

theorem renderNextAction_eq (rt : Runtime) (tr : Translator) (a : Action) :
    renderNextAction rt tr a = some (nextActionEntry rt tr a) := by
  unfold renderNextAction nextActionEntry actionText
  dsimp only
  rw [wrapIndent_80 _ "  " (by decide)]
  by_cases h : resolveText rt tr a.DetailKey a.DetailArgs a.Detail = ""
  · simp [h]
  · simp [h]

theorem renderNextActions_eq (rt : Runtime) (actions : Slice Action) (tr : Translator) :
    renderNextActions rt actions tr =
      some (if len actions = 0 then []
        else utf8 (Bold rt (tr.T rt "section.nextActions" TemplateData.nil) ++ "\n") ++
          (((items actions).take 4).map (nextActionEntry rt tr)).flatten) := by
  unfold renderNextActions
  by_cases h : len actions = 0
  · rw [if_pos h, if_pos h]
  · rw [if_neg h, if_neg h]
    dsimp only
    rw [rangeWrite_entries (fun _ a => renderNextAction rt tr a)
      (fun _ a => nextActionEntry rt tr a) (fun _ a => renderNextAction_eq rt tr a),
      entriesFrom_const]
    have htake : (items actions).take (if len actions > 4 then 4 else len actions) =
        (items actions).take 4 := by
      split
      · rfl
      · rename_i h4
        unfold len at h4 ⊢
        rw [List.take_of_length_le (Nat.le_refl _), List.take_of_length_le (by omega)]
    rw [htake]

theorem renderViolations_eq (rt : Runtime) (violations : Slice Violation) (tr : Translator) :
    renderViolations rt violations tr =
      some (if len violations = 0 then []
        else utf8 (Bold rt (tr.T rt "section.violations"
            (TemplateData.map (some [("Count", TemplateValue.int (len violations))]))) ++ "\n") ++
          (entriesFrom (violationEntry rt tr (len violations)) 0 (items violations)).flatten ++
          utf8 "\n") := by
  unfold renderViolations
  by_cases h : len violations = 0
  · rw [if_pos h, if_pos h]
  · rw [if_neg h, if_neg h]
    rw [rangeWrite_entries (renderViolationBody rt tr (len violations))
      (violationEntry rt tr (len violations))
      (fun i v => renderViolationBody_eq rt tr (len violations) i v)]

theorem RenderDecision_eq (rt : Runtime) (d : SecurityDecision) (tr : Translator) :
    RenderDecision rt d (some tr) =
      some (renderHeader rt d tr ++ (renderViolations rt d.Violations tr).getD [] ++
        (renderNextActions rt d.NextActions tr).getD []) := by
  unfold RenderDecision
  dsimp only
  rw [renderViolations_eq, renderNextActions_eq]
  rfl

theorem utf8_append (a b : String) : utf8 (a ++ b) = utf8 a ++ utf8 b := by
  unfold utf8
  rw [String.data_append, List.map_append, List.flatten_append]

theorem utf8_newline_ne_nil (s : String) : utf8 (s ++ "\n") ≠ [] := by
  rw [utf8_append]
  have h : utf8 "\n" = [10] := by decide
  rw [h]
  simp

/-! ## The sections of the rendered text -/

theorem flatten_entriesFrom_split {α : Type} (g : Nat → α → Bytes) (i j : Nat) (xs : List α)
    (x : α) (h : xs[j]? = some x) :
    ∃ pre post, (entriesFrom g i xs).flatten = pre ++ g (i + j) x ++ post := by
  induction xs generalizing i j with
  | nil => simp at h
  | cons y ys ih =>
    unfold entriesFrom
    cases j with
    | zero =>
      simp only [List.getElem?_cons_zero, Option.some.injEq] at h
      subst h
      exact ⟨[], (entriesFrom g (i + 1) ys).flatten, by simp⟩
    | succ j =>
      simp only [List.getElem?_cons_succ] at h
      obtain ⟨pre, post, heq⟩ := ih (i + 1) j h
      refine ⟨g i y ++ pre, post, ?_⟩
      rw [List.flatten_cons, heq]
      have hidx : i + 1 + j = i + (j + 1) := by omega
      rw [hidx]
      simp

theorem RenderDecision_contains_entry (rt : Runtime) (d : SecurityDecision) (tr : Translator)
    (j : Nat) (v : Violation) (hv : (items d.Violations)[j]? = some v) :
    ∃ pre post, RenderDecision rt d (some tr) =
      some (pre ++ violationEntry rt tr (len d.Violations) j v ++ post) := by
  have hlen : ¬ len d.Violations = 0 := by
    intro h0
    unfold len at h0
    have hnil := List.length_eq_zero.1 h0
    rw [hnil] at hv
    simp at hv
  obtain ⟨pre, post, heq⟩ :=
    flatten_entriesFrom_split (violationEntry rt tr (len d.Violations)) 0 j _ v hv
  rw [Nat.zero_add] at heq
  rw [RenderDecision_eq, renderViolations_eq, if_neg hlen, heq]
  refine ⟨renderHeader rt d tr ++ utf8 (Bold rt (tr.T rt "section.violations"
      (TemplateData.map (some [("Count", TemplateValue.int (len d.Violations))]))) ++ "\n") ++ pre,
    post ++ utf8 "\n" ++ (renderNextActions rt d.NextActions tr).getD [], ?_⟩
  simp [List.append_assoc]

theorem evidence_block_in_entry (rt : Runtime) (tr : Translator) (n i : Nat) (v : Violation) :
    ∃ pre post, violationEntry rt tr n i v =
      pre ++ evidenceLabel rt tr v ++ evidenceLines (items v.Evidence) ++ post := by
  unfold violationEntry
  exact ⟨violationHead rt tr i v ++ (renderWhat rt tr v).getD [],
    (renderFixBlock rt tr v).getD [] ++ (if i + 1 < n then utf8 "\n" else []),
    by simp [List.append_assoc]⟩

theorem RenderDecision_contains_evidence (rt : Runtime) (d : SecurityDecision)
    (tr : Translator) (v : Violation) (hv : v ∈ items d.Violations) :
    ∃ pre post, RenderDecision rt d (some tr) =
      some (pre ++ evidenceLabel rt tr v ++ evidenceLines (items v.Evidence) ++ post) := by
  obtain ⟨j, hj⟩ := List.mem_iff_getElem?.1 hv
  obtain ⟨pre, post, heq⟩ := RenderDecision_contains_entry rt d tr j v hj
  obtain ⟨pre2, post2, heq2⟩ := evidence_block_in_entry rt tr (len d.Violations) j v
  rw [heq, heq2]
  exact ⟨pre ++ pre2, post2 ++ post, by simp [List.append_assoc]⟩

/-- C27: for a violation of the decision and any two translators, the text of
`RenderDecision` holds, after the label line of each translator, one and the
same block of evidence lines, a function of the evidence entries alone: each
entry is the list item `(type) subject: detail`, wrapped at width 80 with an
indent of five spaces, and unchanged when it has at most 80 bytes. -/
theorem evidence_not_translated (rt : Runtime) (d : SecurityDecision) (tr1 tr2 : Translator)
    (v : Violation) (hv : v ∈ items d.Violations) :
    (∃ pre post, RenderDecision rt d (some tr1) =
      some (pre ++ evidenceLabel rt tr1 v ++ evidenceLines (items v.Evidence) ++ post)) ∧
    (∃ pre post, RenderDecision rt d (some tr2) =
      some (pre ++ evidenceLabel rt tr2 v ++ evidenceLines (items v.Evidence) ++ post)) ∧
    evidenceLines (items v.Evidence) = ((items v.Evidence).map evidenceLine).flatten ∧
    (∀ e : Evidence, ∃ wrapped,
      wrapIndent (utf8 ("(" ++ e.Type_ ++ ") " ++ e.Subject ++ ": " ++ e.Detail)) 80
        (utf8 "     ") = some wrapped ∧
      renderEvidence e = some (utf8 "     - " ++ wrapped ++ utf8 "\n") ∧
      evidenceLine e = utf8 "     - " ++ wrapped ++ utf8 "\n" ∧
      ((utf8 ("(" ++ e.Type_ ++ ") " ++ e.Subject ++ ": " ++ e.Detail)).length ≤ 80 →
        wrapped = utf8 ("(" ++ e.Type_ ++ ") " ++ e.Subject ++ ": " ++ e.Detail))) := by
  refine ⟨RenderDecision_contains_evidence rt d tr1 v hv,
    RenderDecision_contains_evidence rt d tr2 v hv, rfl, ?_⟩
  intro e
  have hw := wrapIndent_80 (utf8 ("(" ++ e.Type_ ++ ") " ++ e.Subject ++ ": " ++ e.Detail))
    "     " (by decide)
  refine ⟨_, hw, ?_, rfl, ?_⟩
  · rw [renderEvidence_eq]
    rfl
  · intro hlen
    have hs : wrapIndent (utf8 ("(" ++ e.Type_ ++ ") " ++ e.Subject ++ ": " ++ e.Detail)) 80
        (utf8 "     ") = some (utf8 ("(" ++ e.Type_ ++ ") " ++ e.Subject ++ ": " ++ e.Detail)) := by
      unfold wrapIndent
      rw [if_pos (by omega)]
    rw [hw] at hs
    exact Option.some.inj hs

/-- Witness of C27: the decision of `TestRenderDecision_Japanese` under the
Japanese translator and under a translator with a single Japanese label. -/
theorem evidence_not_translated_witness :
    japaneseTestViolation ∈ items japaneseTestDecision.Violations ∧
    (∃ pre post, RenderDecision testRuntime japaneseTestDecision (some japaneseTranslator) =
      some (pre ++ evidenceLabel testRuntime japaneseTranslator japaneseTestViolation ++
        evidenceLines (items japaneseTestViolation.Evidence) ++ post)) ∧
    (∃ pre post, RenderDecision testRuntime japaneseTestDecision (some sparseTranslator) =
      some (pre ++ evidenceLabel testRuntime sparseTranslator japaneseTestViolation ++
        evidenceLines (items japaneseTestViolation.Evidence) ++ post)) :=
  have hv : japaneseTestViolation ∈ items japaneseTestDecision.Violations :=
    List.mem_singleton.2 rfl
  ⟨hv,
    (evidence_not_translated testRuntime japaneseTestDecision japaneseTranslator
      sparseTranslator japaneseTestViolation hv).1,
    (evidence_not_translated testRuntime japaneseTestDecision japaneseTranslator
      sparseTranslator japaneseTestViolation hv).2.1⟩

set_option maxRecDepth 100000 in
/-- The evidence line of the example. -/
theorem evidenceLines_japaneseTest :
    evidenceLines (items japaneseTestViolation.Evidence) =
      utf8 "     - (K8S_FIELD) spec.containers[0].securityContext.privileged: set to true\n" := by
  decide

theorem colorSeverity_plain (rt : Runtime) (h : rt.colorEnabled = false) (s : String) :
    colorSeverity rt s = s := by
  unfold colorSeverity Red Yellow Cyan
  simp [h]

theorem violationEntry_head (rt : Runtime) (tr : Translator) (n i : Nat) (v : Violation) :
    ∃ rest, violationEntry rt tr n i v =
      utf8 (fmtInt (i + 1) ++ ") [" ++ colorSeverity rt v.Severity ++ "] " ++
        resolveText rt tr v.TitleKey v.TitleArgs v.Title ++ "\n") ++ rest := by
  unfold violationEntry violationHead
  exact ⟨(renderWhat rt tr v).getD [] ++
    (evidenceLabel rt tr v ++ evidenceLines (items v.Evidence)) ++
    (renderFixBlock rt tr v).getD [] ++ (if i + 1 < n then utf8 "\n" else []),
    by simp [List.append_assoc]⟩

/-- C28: the text of `RenderDecision` is the header followed by a violations
section and a next-actions section. The violations section is empty exactly
when there is no violation; otherwise it is the count header, one entry per
violation in sequence order, and a line feed, and the entry at index `j`
begins with the line `<j+1>) [<severity>] <title>`, the severity in its
colour, which is the plain severity when colours are off. The next-actions
section is empty exactly when there is no next action; otherwise it begins
with its header. With no violation and no next action the text is the header
alone. -/
theorem RenderDecision_sections (rt : Runtime) (d : SecurityDecision) (tr : Translator) :
    ∃ vs na, RenderDecision rt d (some tr) = some (renderHeader rt d tr ++ vs ++ na) ∧
      renderViolations rt d.Violations tr = some vs ∧
      renderNextActions rt d.NextActions tr = some na ∧
      (vs = [] ↔ len d.Violations = 0) ∧
      (na = [] ↔ len d.NextActions = 0) ∧
      (len d.Violations ≠ 0 → ∃ entries : List Bytes,
        vs = utf8 (Bold rt (tr.T rt "section.violations"
            (TemplateData.map (some [("Count", TemplateValue.int (len d.Violations))]))) ++ "\n") ++
          entries.flatten ++ utf8 "\n" ∧
        entries.length = len d.Violations ∧
        ∀ (j : Nat) (v : Violation), (items d.Violations)[j]? = some v →
          renderViolationBody rt tr (len d.Violations) j v = entries[j]? ∧
          ∃ rest, entries[j]? = some
            (utf8 (fmtInt (j + 1) ++ ") [" ++ colorSeverity rt v.Severity ++ "] " ++
              resolveText rt tr v.TitleKey v.TitleArgs v.Title ++ "\n") ++ rest)) ∧
      (len d.NextActions ≠ 0 → ∃ entries,
        na = utf8 (Bold rt (tr.T rt "section.nextActions" TemplateData.nil) ++ "\n") ++
          entries) ∧
      (rt.colorEnabled = false → ∀ s, colorSeverity rt s = s) ∧
      (len d.Violations = 0 → len d.NextActions = 0 →
        RenderDecision rt d (some tr) = some (renderHeader rt d tr)) := by
  refine ⟨_, _, ?_, renderViolations_eq rt d.Violations tr,
    renderNextActions_eq rt d.NextActions tr, ?_, ?_, ?_, ?_, ?_, ?_⟩
  · rw [RenderDecision_eq, renderViolations_eq, renderNextActions_eq]
    rfl
  · constructor
    · intro h
      by_contra hne
      rw [if_neg hne] at h
      have h2 := congrArg List.length h
      rw [List.length_append, List.length_append] at h2
      have h3 : (utf8 "\n").length = 1 := by decide
      rw [h3] at h2
      simp at h2
    · intro h
      rw [if_pos h]
  · constructor
    · intro h
      by_contra hne
      rw [if_neg hne] at h
      exact utf8_newline_ne_nil _ (List.append_eq_nil.1 h).1
    · intro h
      rw [if_pos h]
  · intro hne
    refine ⟨entriesFrom (violationEntry rt tr (len d.Violations)) 0 (items d.Violations),
      ?_, ?_, ?_⟩
    · rw [if_neg hne]
    · rw [entriesFrom_length]
      rfl
    · intro j v hv
      have hentry := entriesFrom_getElem? (violationEntry rt tr (len d.Violations)) 0 j
        (items d.Violations) v hv
      rw [Nat.zero_add] at hentry
      refine ⟨by rw [hentry, renderViolationBody_eq], ?_⟩
      obtain ⟨rest, hrest⟩ := violationEntry_head rt tr (len d.Violations) j v
      exact ⟨rest, by rw [hentry, hrest]⟩
  · intro hne
    rw [if_neg hne]
    exact ⟨_, rfl⟩
  · intro h s
    exact colorSeverity_plain rt h s
  · intro hv hn
    rw [RenderDecision_eq, renderViolations_eq, renderNextActions_eq, if_pos hv, if_pos hn]
    simp

/-- Witness of C28: the decision of `TestRenderDecision_Japanese`, with one
violation and one next action. -/
theorem RenderDecision_sections_witness :
    ∃ vs na, RenderDecision testRuntime japaneseTestDecision (some japaneseTranslator) =
        some (renderHeader testRuntime japaneseTestDecision japaneseTranslator ++ vs ++ na) ∧
      (vs = [] ↔ len japaneseTestDecision.Violations = 0) ∧
      (na = [] ↔ len japaneseTestDecision.NextActions = 0) :=
  match RenderDecision_sections testRuntime japaneseTestDecision japaneseTranslator with
  | ⟨vs, na, h1, _, _, h2, h3, _⟩ => ⟨vs, na, h1, h2, h3⟩

/-- C29: the next-actions section of the text of `RenderDecision` is, after
its header, the entries of the first four next actions, in their order, and
of all of them when there are fewer: `min k 4` entries for `k` next actions.
An entry is the list item of the action, wrapped at width 80 with an indent of
two spaces; the text of the action is `title: detail`, and the title alone
when the detail is empty. -/
theorem RenderDecision_next_actions (rt : Runtime) (d : SecurityDecision) (tr : Translator) :
    (∃ vs, renderViolations rt d.Violations tr = some vs ∧
      RenderDecision rt d (some tr) =
        some (renderHeader rt d tr ++ vs ++
          (if len d.NextActions = 0 then []
          else utf8 (Bold rt (tr.T rt "section.nextActions" TemplateData.nil) ++ "\n") ++
            (((items d.NextActions).take 4).map (nextActionEntry rt tr)).flatten))) ∧
    (((items d.NextActions).take 4).map (nextActionEntry rt tr)).length =
      min (len d.NextActions) 4 ∧
    (∀ (j : Nat) (a : Action), j < 4 → (items d.NextActions)[j]? = some a →
      (((items d.NextActions).take 4).map (nextActionEntry rt tr))[j]? =
        some (nextActionEntry rt tr a)) ∧
    (∀ a : Action, ∃ wrapped,
      wrapIndent (utf8 (actionText rt tr a)) 80 (utf8 "  ") = some wrapped ∧
      renderNextAction rt tr a = some (utf8 "- " ++ wrapped ++ utf8 "\n") ∧
      nextActionEntry rt tr a = utf8 "- " ++ wrapped ++ utf8 "\n" ∧
      ((utf8 (actionText rt tr a)).length ≤ 80 → wrapped = utf8 (actionText rt tr a)) ∧
      (resolveText rt tr a.DetailKey a.DetailArgs a.Detail = "" →
        actionText rt tr a = resolveText rt tr a.TitleKey a.TitleArgs a.Title) ∧
      (resolveText rt tr a.DetailKey a.DetailArgs a.Detail ≠ "" →
        actionText rt tr a = resolveText rt tr a.TitleKey a.TitleArgs a.Title ++ ": " ++
          resolveText rt tr a.DetailKey a.DetailArgs a.Detail)) := by
  refine ⟨⟨_, renderViolations_eq rt d.Violations tr, ?_⟩, ?_, ?_, ?_⟩
  · rw [RenderDecision_eq, renderViolations_eq, renderNextActions_eq]
    rfl
  · rw [List.length_map, List.length_take]
    unfold len
    exact Nat.min_comm _ _
  · intro j a hj ha
    rw [List.getElem?_map, List.getElem?_take_of_lt hj, ha]
    rfl
  · intro a
    have hw := wrapIndent_80 (utf8 (actionText rt tr a)) "  " (by decide)
    refine ⟨_, hw, ?_, rfl, ?_, ?_, ?_⟩
    · rw [renderNextAction_eq]
      rfl
    · intro hlen
      have hs : wrapIndent (utf8 (actionText rt tr a)) 80 (utf8 "  ") =
          some (utf8 (actionText rt tr a)) := by
        unfold wrapIndent
        rw [if_pos (by omega)]
      rw [hw] at hs
      exact Option.some.inj hs
    · intro h
      unfold actionText
      rw [if_pos h]
    · intro h
      unfold actionText
      rw [if_neg h]

set_option maxRecDepth 100000 in
/-- Witness of C29: the six actions of `TestRenderDecision_NextActionsLimit`
give the entries of the first four. -/
theorem RenderDecision_next_actions_witness :
    (((items sixActionsDecision.NextActions).take 4).map
      (nextActionEntry testRuntime japaneseTranslator)).length = 4 ∧
    (((items sixActionsDecision.NextActions).take 4).map
      (nextActionEntry testRuntime japaneseTranslator)).flatten =
        utf8 "- Action 1\n- Action 2\n- Action 3\n- Action 4\n" :=
  ⟨(RenderDecision_next_actions testRuntime sixActionsDecision japaneseTranslator).2.1,
    by decide⟩

/-- A nil translator stands for the English one. -/
theorem RenderDecision_nil (rt : Runtime) (d : SecurityDecision) (ten : Translator)
    (h : i18n.New rt "en" = some ten) :
    RenderDecision rt d none = RenderDecision rt d (some ten) := by
  unfold RenderDecision
  simp only [h]

/-! ## The violation sequence -/

theorem checkPrivileged_builtBy (podSpec : Obj) (v : Violation)
    (h : checkPrivileged podSpec = some v) : builtBy "POL-SEC-001" v := by
  unfold checkPrivileged at h
  split at h
  · cases h
  · obtain ⟨j, c, _, hb, _⟩ := (rangeFirst_eq_some _ _ _ _).1 h
    unfold checkPrivilegedBody at hb
    split at hb
    · cases hb
    · split at hb
      · cases hb
      · split at hb
        · simp only [Option.some.injEq] at hb
          subst hb
          exact ⟨rfl, Or.inl rfl, _, _, rfl, rfl, rfl⟩
        · cases hb

theorem checkHostPath_builtBy (podSpec : Obj) (v : Violation)
    (h : checkHostPath podSpec = some v) : builtBy "POL-SEC-002" v := by
  unfold checkHostPath at h
  split at h
  · cases h
  · obtain ⟨j, c, _, hb, _⟩ := (rangeFirst_eq_some _ _ _ _).1 h
    unfold checkHostPathBody at hb
    split at hb
    · cases hb
    · split at hb
      · simp only [Option.some.injEq] at hb
        subst hb
        exact ⟨rfl, Or.inr rfl, _, _, rfl, rfl, rfl⟩
      · cases hb

theorem checkRunAsNonRoot_builtBy (podSpec : Obj) (v : Violation)
    (h : checkRunAsNonRoot podSpec = some v) : builtBy "POL-SEC-003" v := by
  unfold checkRunAsNonRoot at h
  split at h
  · cases h
  · split at h
    · cases h
    · obtain ⟨j, c, _, hb, _⟩ := (rangeFirst_eq_some _ _ _ _).1 h
      unfold checkRunAsNonRootBody at hb
      split at hb
      · cases hb
      · dsimp only at hb
        split at hb
        · simp only [Option.some.injEq] at hb
          subst hb
          exact ⟨rfl, Or.inr rfl, _, _, rfl, rfl, rfl⟩
        · cases hb

theorem checkLatestTag_builtBy (podSpec : Obj) (v : Violation)
    (h : checkLatestTag podSpec = some v) : builtBy "POL-SEC-004" v := by
  unfold checkLatestTag at h
  split at h
  · cases h
  · obtain ⟨j, c, _, hb, _⟩ := (rangeFirst_eq_some _ _ _ _).1 h
    unfold checkLatestTagBody at hb
    split at hb
    · cases hb
    · split at hb
      · cases hb
      · dsimp only at hb
        split at hb
        · simp only [Option.some.injEq] at hb
          subst hb
          exact ⟨rfl, Or.inr rfl, _, _, rfl, rfl, rfl⟩
        · cases hb

theorem toList_policy_sublist (o : Option Violation) (policy : String)
    (h : ∀ v, o = some v → v.PolicyID = policy) :
    (o.toList.map (fun v => v.PolicyID)).Sublist [policy] := by
  cases o with
  | none => exact List.nil_sublist _
  | some v =>
    have hv := h v rfl
    simp [hv]

theorem checksAgainst_policies (podSpec : Obj) :
    ((checksAgainst podSpec).map (fun v => v.PolicyID)).Sublist policyOrder := by
  unfold checksAgainst
  rw [List.map_append, List.map_append, List.map_append]
  have h1 := toList_policy_sublist (checkPrivileged podSpec) "POL-SEC-001"
    (fun v h => (checkPrivileged_builtBy podSpec v h).1)
  have h2 := toList_policy_sublist (checkHostPath podSpec) "POL-SEC-002"
    (fun v h => (checkHostPath_builtBy podSpec v h).1)
  have h3 := toList_policy_sublist (checkRunAsNonRoot podSpec) "POL-SEC-003"
    (fun v h => (checkRunAsNonRoot_builtBy podSpec v h).1)
  have h4 := toList_policy_sublist (checkLatestTag podSpec) "POL-SEC-004"
    (fun v h => (checkLatestTag_builtBy podSpec v h).1)
  exact ((h1.append h2).append h3).append h4

theorem mem_checksAgainst_builtBy (podSpec : Obj) (v : Violation)
    (h : v ∈ checksAgainst podSpec) : ∃ policy ∈ policyOrder, builtBy policy v := by
  rcases (mem_checksAgainst podSpec v).1 h with h | h | h | h
  · exact ⟨_, by simp [policyOrder], checkPrivileged_builtBy podSpec v h⟩
  · exact ⟨_, by simp [policyOrder], checkHostPath_builtBy podSpec v h⟩
  · exact ⟨_, by simp [policyOrder], checkRunAsNonRoot_builtBy podSpec v h⟩
  · exact ⟨_, by simp [policyOrder], checkLatestTag_builtBy podSpec v h⟩

theorem items_Evaluate_cases (e : Evaluator) (spec : Obj) (timestamp : Time)
    (decisionID : String) :
    items (Evaluate e spec timestamp decisionID).Violations = [] ∨
      ∃ podSpec, items (Evaluate e spec timestamp decisionID).Violations =
        checksAgainst podSpec := by
  cases h : extractPodSpec spec with
  | none =>
    left
    rw [items_Evaluate_Violations, items_checkViolations_of_none e spec h]
  | some podSpec =>
    right
    exact ⟨podSpec, items_Evaluate_of_podSpec e spec podSpec timestamp decisionID h⟩

/-- C37: the policy identifiers of the violations of a decision of `Evaluate`
are a subsequence of POL-SEC-001, POL-SEC-002, POL-SEC-003, POL-SEC-004 in
this order, so none occurs twice and there are at most four violations; every
violation has one of these identifiers, severity CRITICAL or HIGH, exactly one
evidence entry, of type K8S_FIELD, and exactly one fix. -/
theorem Evaluate_violation_sequence (e : Evaluator) (spec : Obj) (timestamp : Time)
    (decisionID : String) :
    ((items (Evaluate e spec timestamp decisionID).Violations).map
      (fun v => v.PolicyID)).Sublist policyOrder ∧
    ((items (Evaluate e spec timestamp decisionID).Violations).map
      (fun v => v.PolicyID)).Nodup ∧
    len (Evaluate e spec timestamp decisionID).Violations ≤ 4 ∧
    ∀ v ∈ items (Evaluate e spec timestamp decisionID).Violations,
      v.PolicyID ∈ policyOrder ∧
      (v.Severity = SeverityCritical ∨ v.Severity = SeverityHigh) ∧
      v.Severity ≠ SeverityMedium ∧ v.Severity ≠ SeverityLow ∧
      ∃ ev f, v.Evidence = some [ev] ∧ ev.Type_ = EvidenceK8sField ∧ v.Fix = some [f] := by
  have hsub : ((items (Evaluate e spec timestamp decisionID).Violations).map
      (fun v => v.PolicyID)).Sublist policyOrder := by
    rcases items_Evaluate_cases e spec timestamp decisionID with h | ⟨podSpec, h⟩
    · rw [h]
      exact List.nil_sublist _
    · rw [h]
      exact checksAgainst_policies podSpec
  refine ⟨hsub, hsub.nodup (by decide), ?_, ?_⟩
  · have hlen := hsub.length_le
    rw [List.length_map] at hlen
    exact hlen
  · intro v hv
    have hb : ∃ policy ∈ policyOrder, builtBy policy v := by
      rcases items_Evaluate_cases e spec timestamp decisionID with h | ⟨podSpec, h⟩
      · rw [h] at hv
        cases hv
      · rw [h] at hv
        exact mem_checksAgainst_builtBy podSpec v hv
    obtain ⟨policy, hp, hid, hsev, hshape⟩ := hb
    refine ⟨by rw [hid]; exact hp, hsev, ?_, ?_, hshape⟩
    · rcases hsev with h | h <;> rw [h] <;> decide
    · rcases hsev with h | h <;> rw [h] <;> decide

/-- Witness of C37: the privileged Deployment of the tests. -/
theorem Evaluate_violation_sequence_witness :
    ((items (Evaluate (New "v1alpha1") privilegedDeployment testTimestamp
      "dec-1").Violations).map (fun v => v.PolicyID)).Sublist policyOrder ∧
    len (Evaluate (New "v1alpha1") privilegedDeployment testTimestamp "dec-1").Violations ≤ 4 :=
  ⟨(Evaluate_violation_sequence (New "v1alpha1") privilegedDeployment testTimestamp "dec-1").1,
    (Evaluate_violation_sequence (New "v1alpha1") privilegedDeployment testTimestamp
      "dec-1").2.2.1⟩

/-! ## Determinism and validity of the decisions of Evaluate -/

theorem extractResourceRef_congr (spec1 spec2 : Obj)
    (h : ∀ k, index spec1 k = index spec2 k) :
    extractResourceRef spec1 = extractResourceRef spec2 := by
  unfold extractResourceRef
  rw [h "kind", h "apiVersion", h "metadata"]

theorem checkViolations_congr (e : Evaluator) (spec1 spec2 : Obj)
    (h : ∀ k, index spec1 k = index spec2 k) :
    checkViolations e spec1 = checkViolations e spec2 := by
  unfold checkViolations extractPodSpec
  rw [h "spec"]

theorem Evaluate_congr (e : Evaluator) (spec1 spec2 : Obj) (timestamp : Time)
    (decisionID : String) (h : ∀ k, index spec1 k = index spec2 k) :
    Evaluate e spec1 timestamp decisionID = Evaluate e spec2 timestamp decisionID := by
  unfold Evaluate
  rw [extractResourceRef_congr spec1 spec2 h, checkViolations_congr e spec1 spec2 h]

/-- C34: `Evaluate` is a function of the evaluator, the resource description,
the timestamp and the identifier: it reads no clock and no variable, and it
reads the description by key only, never in the iteration order of a map. Two
evaluations of descriptions that hold the same value under every key, with the
same evaluator, timestamp and identifier, give the same decision, in
particular the same status, the same number of violations and the same policy
identifiers in the same order. -/
theorem Evaluate_deterministic (e : Evaluator) (spec1 spec2 : Obj) (timestamp : Time)
    (decisionID : String) (hsame : ∀ k, index spec1 k = index spec2 k) :
    Evaluate e spec1 timestamp decisionID = Evaluate e spec2 timestamp decisionID ∧
    (Evaluate e spec1 timestamp decisionID).Status =
      (Evaluate e spec2 timestamp decisionID).Status ∧
    len (Evaluate e spec1 timestamp decisionID).Violations =
      len (Evaluate e spec2 timestamp decisionID).Violations ∧
    (items (Evaluate e spec1 timestamp decisionID).Violations).map (fun v => v.PolicyID) =
      (items (Evaluate e spec2 timestamp decisionID).Violations).map (fun v => v.PolicyID) := by
  rw [Evaluate_congr e spec1 spec2 timestamp decisionID hsame]
  exact ⟨rfl, rfl, rfl, rfl⟩

theorem index_reorderedDeployment (k : String) :
    index privilegedDeployment k = index reorderedDeployment k := by
  unfold index reorderedDeployment privilegedDeployment
  simp only [List.reverse_cons, List.reverse_nil, List.nil_append, List.cons_append,
    List.lookup_cons, List.lookup_nil]
  by_cases h1 : k = "apiVersion"
  · subst h1; rfl
  · by_cases h2 : k = "kind"
    · subst h2; rfl
    · by_cases h3 : k = "metadata"
      · subst h3; rfl
      · by_cases h4 : k = "spec"
        · subst h4; rfl
        · have e1 : (k == "apiVersion") = false := by simpa using h1
          have e2 : (k == "kind") = false := by simpa using h2
          have e3 : (k == "metadata") = false := by simpa using h3
          have e4 : (k == "spec") = false := by simpa using h4
          simp only [e1, e2, e3, e4]

/-- Witness of C34: the privileged Deployment of the tests and the same
description with its entries in the reverse order. -/
theorem Evaluate_deterministic_witness :
    (∀ k, index privilegedDeployment k = index reorderedDeployment k) ∧
    Evaluate (New "v1alpha1") privilegedDeployment testTimestamp "dec-1" =
      Evaluate (New "v1alpha1") reorderedDeployment testTimestamp "dec-1" :=
  ⟨index_reorderedDeployment,
    (Evaluate_deterministic (New "v1alpha1") privilegedDeployment reorderedDeployment
      testTimestamp "dec-1" index_reorderedDeployment).1⟩

theorem Evaluate_fields (e : Evaluator) (spec : Obj) (timestamp : Time) (decisionID : String) :
    (Evaluate e spec timestamp decisionID).ID = decisionID ∧
    (Evaluate e spec timestamp decisionID).Version = e.version ∧
    (Evaluate e spec timestamp decisionID).Resource = extractResourceRef spec ∧
    ((Evaluate e spec timestamp decisionID).Status = StatusBlocked ∨
      (Evaluate e spec timestamp decisionID).Status = StatusAllowed) := by
  unfold Evaluate
  dsimp only
  split
  · exact ⟨rfl, rfl, rfl, Or.inl rfl⟩
  · exact ⟨rfl, rfl, rfl, Or.inr rfl⟩

/-- Counterexample of C36: a description whose `kind` is the empty string is
evaluated to a decision with an empty resource kind, which `Validate` and
`Save` reject, although the identifier and the schema version are not
empty. -/
theorem Evaluate_emptyKind_invalid :
    Validate (Evaluate (New "v1alpha1") emptyKindResource testTimestamp "dec-1") =
      some ValidationError.ErrInvalidResource ∧
    (Save [] (Evaluate (New "v1alpha1") emptyKindResource testTimestamp "dec-1")
      Fault.noFault).2 =
      some (RepoError.wrapped RepoError.ErrInvalidData
        "resource Kind, Name, and Namespace are required") := by
  constructor
  · decide
  · have h : Validate (Evaluate (New "v1alpha1") emptyKindResource testTimestamp "dec-1") =
        some ValidationError.ErrInvalidResource := by decide
    unfold Save
    rw [h]
    rfl

/-- C36, amended: for a non-empty identifier and a non-empty schema version,
the decision of `Evaluate` passes `Validate`, and a `Save` of it without a
fault succeeds, whenever none of `kind`, `metadata.name` and
`metadata.namespace` is present as the empty string; a field that is missing
or not a string gets its default. -/
theorem Evaluate_valid (e : Evaluator) (spec : Obj) (timestamp : Time) (decisionID : String)
    (hid : decisionID ≠ "") (hversion : e.version ≠ "")
    (hkind : assertString (index spec "kind") ≠ some "")
    (hname : ∀ metadata, assertMap (index spec "metadata") = some metadata →
      assertString (index metadata "name") ≠ some "")
    (hnamespace : ∀ metadata, assertMap (index spec "metadata") = some metadata →
      assertString (index metadata "namespace") ≠ some "") :
    Validate (Evaluate e spec timestamp decisionID) = none ∧
    ∀ dir, (Save dir (Evaluate e spec timestamp decisionID) Fault.noFault).2 = none := by
  obtain ⟨h1, h2, h3, h4⟩ := Evaluate_fields e spec timestamp decisionID
  obtain ⟨k1, _, k3, k4⟩ := extractResourceRef_fields spec
  have hk : (Evaluate e spec timestamp decisionID).Resource.Kind ≠ "" := by
    rw [h3, k1]
    cases hs : assertString (index spec "kind") with
    | none => decide
    | some s =>
      intro h0
      apply hkind
      rw [hs]
      exact congrArg some h0
  have hn : (Evaluate e spec timestamp decisionID).Resource.Name ≠ "" := by
    rw [h3, k3]
    cases hm : assertMap (index spec "metadata") with
    | none => decide
    | some metadata =>
      show (assertString (index metadata "name")).getD _ ≠ ""
      cases hs : assertString (index metadata "name") with
      | none => decide
      | some s =>
        intro h0
        apply hname metadata hm
        rw [hs]
        exact congrArg some h0
  have hns : (Evaluate e spec timestamp decisionID).Resource.Namespace ≠ "" := by
    rw [h3, k4]
    cases hm : assertMap (index spec "metadata") with
    | none => decide
    | some metadata =>
      show (assertString (index metadata "namespace")).getD _ ≠ ""
      cases hs : assertString (index metadata "namespace") with
      | none => decide
      | some s =>
        intro h0
        apply hnamespace metadata hm
        rw [hs]
        exact congrArg some h0
  have hvalid : Validate (Evaluate e spec timestamp decisionID) = none := by
    have hst : IsValid (Evaluate e spec timestamp decisionID).Status = true := by
      unfold IsValid
      rw [if_pos h4]
    unfold Validate
    rw [if_neg (by rw [h1]; exact hid), if_neg (by simp [hk, hn, hns])]
    simp [hst, h2, hversion]
  refine ⟨hvalid, fun dir => ?_⟩
  rw [Save_valid dir _ hvalid]

/-- Witness of C36: the privileged Deployment of the tests. -/
theorem Evaluate_valid_witness :
    Validate (Evaluate (New "v1alpha1") privilegedDeployment testTimestamp "dec-1") = none :=
  (Evaluate_valid (New "v1alpha1") privilegedDeployment testTimestamp "dec-1"
    (by decide) (by decide) (by decide)
    (fun metadata h => by
      have hm : metadata = [("name", Value.string "nginx-deployment"),
          ("namespace", Value.string "production")] := by
        have h2 : some [("name", Value.string "nginx-deployment"),
            ("namespace", Value.string "production")] = some metadata := h
        exact (Option.some.inj h2).symm
      rw [hm]
      decide)
    (fun metadata h => by
      have hm : metadata = [("name", Value.string "nginx-deployment"),
          ("namespace", Value.string "production")] := by
        have h2 : some [("name", Value.string "nginx-deployment"),
            ("namespace", Value.string "production")] = some metadata := h
        exact (Option.some.inj h2).symm
      rw [hm]
      decide)).1

/-! ## The structured output -/

theorem member_RenderDecisionJSON (rt : Runtime) (d : SecurityDecision) :
    member (RenderDecisionJSON rt d) "schemaVersion" = some (Value.string "v1") ∧
    member (RenderDecisionJSON rt d) "decision" = some (marshalDecision (toDecisionView rt d)) :=
  ⟨rfl, rfl⟩

theorem member_marshalDecision (v : decisionView) :
    member (marshalDecision v) "id" = some (Value.string v.ID) ∧
    member (marshalDecision v) "timestamp" = some (Value.string v.Timestamp) ∧
    member (marshalDecision v) "version" = some (Value.string v.Version) ∧
    member (marshalDecision v) "status" = some (Value.string v.Status) ∧
    member (marshalDecision v) "summary" = some (Value.string v.Summary) ∧
    member (marshalDecision v) "resource" = some (marshalResource v.Resource) ∧
    member (marshalDecision v) "violations" = some (marshalSlice marshalViolation v.Violations) ∧
    member (marshalDecision v) "nextActions" = some (marshalSlice marshalAction v.NextActions) ∧
    member (marshalDecision v) "metadata" = some (marshalStringMap v.Metadata) :=
  ⟨rfl, rfl, rfl, rfl, rfl, rfl, rfl, rfl, rfl⟩

theorem member_marshalViolation (v : violationView) :
    member (marshalViolation v) "policyId" = some (Value.string v.PolicyID) ∧
    member (marshalViolation v) "title" = some (Value.string v.Title) ∧
    member (marshalViolation v) "severity" = some (Value.string v.Severity) ∧
    member (marshalViolation v) "message" = some (Value.string v.Message) ∧
    member (marshalViolation v) "evidence" = some (marshalSlice marshalEvidence v.Evidence) ∧
    member (marshalViolation v) "fix" = some (marshalSlice marshalAction v.Fix) ∧
    member (marshalViolation v) "references" = some (marshalSlice Value.string v.References) :=
  ⟨rfl, rfl, rfl, rfl, rfl, rfl, rfl⟩

theorem member_marshalResource (r : resourceView) :
    member (marshalResource r) "kind" = some (Value.string r.Kind) ∧
    member (marshalResource r) "name" = some (Value.string r.Name) ∧
    member (marshalResource r) "namespace" = some (Value.string r.Namespace) :=
  ⟨rfl, rfl, rfl⟩

theorem toViolationView_collections (v : Violation) :
    (toViolationView v).Evidence = some ((items v.Evidence).map toEvidenceView) ∧
    (toViolationView v).Fix = some ((items v.Fix).map toActionView) ∧
    (toViolationView v).References = some (items v.References) := by
  refine ⟨rfl, rfl, ?_⟩
  unfold toViolationView
  cases v.References <;> rfl

theorem toDecisionView_collections (rt : Runtime) (d : SecurityDecision) :
    (toDecisionView rt d).Violations = some ((items d.Violations).map toViolationView) ∧
    (toDecisionView rt d).NextActions = some ((items d.NextActions).map toActionView) ∧
    (toDecisionView rt d).Metadata = some (d.Metadata.getD []) := by
  refine ⟨rfl, rfl, ?_⟩
  unfold toDecisionView
  cases d.Metadata <;> rfl

/-- C31: in the document of `RenderDecisionJSON`, for every decision, the
members `violations` and `nextActions` of the decision are arrays, with one
element per violation and per next action, and `metadata` is an object, with
the entries of the metadata; in every violation the members `evidence`, `fix`
and `references` are arrays, with one element per entry. A nil slice or map of
the decision gives the empty array or the empty object, never `null` and
never a missing member. -/
theorem projection_collections (rt : Runtime) (d : SecurityDecision) :
    ∃ doc, member (RenderDecisionJSON rt d) "decision" = some doc ∧
      member doc "violations" =
        some (Value.array ((items d.Violations).map
          (fun v => marshalViolation (toViolationView v)))) ∧
      member doc "nextActions" =
        some (Value.array ((items d.NextActions).map
          (fun a => marshalAction (toActionView a)))) ∧
      member doc "metadata" =
        some (Value.object ((d.Metadata.getD []).map (fun kv => (kv.1, Value.string kv.2)))) ∧
      (d.Violations = none → member doc "violations" = some (Value.array [])) ∧
      (d.NextActions = none → member doc "nextActions" = some (Value.array [])) ∧
      (d.Metadata = none → member doc "metadata" = some (Value.object [])) ∧
      ∀ v : Violation,
        member (marshalViolation (toViolationView v)) "evidence" =
          some (Value.array ((items v.Evidence).map
            (fun e => marshalEvidence (toEvidenceView e)))) ∧
        member (marshalViolation (toViolationView v)) "fix" =
          some (Value.array ((items v.Fix).map (fun a => marshalAction (toActionView a)))) ∧
        member (marshalViolation (toViolationView v)) "references" =
          some (Value.array ((items v.References).map Value.string)) ∧
        (v.Evidence = none →
          member (marshalViolation (toViolationView v)) "evidence" = some (Value.array [])) ∧
        (v.Fix = none →
          member (marshalViolation (toViolationView v)) "fix" = some (Value.array [])) ∧
        (v.References = none →
          member (marshalViolation (toViolationView v)) "references" =
            some (Value.array [])) := by
  obtain ⟨h1, h2, h3⟩ := toDecisionView_collections rt d
  have hv : member (marshalDecision (toDecisionView rt d)) "violations" =
      some (Value.array ((items d.Violations).map
        (fun v => marshalViolation (toViolationView v)))) := by
    rw [(member_marshalDecision _).2.2.2.2.2.2.1, h1]
    simp [marshalSlice]
  have hn : member (marshalDecision (toDecisionView rt d)) "nextActions" =
      some (Value.array ((items d.NextActions).map
        (fun a => marshalAction (toActionView a)))) := by
    rw [(member_marshalDecision _).2.2.2.2.2.2.2.1, h2]
    simp [marshalSlice]
  have hm : member (marshalDecision (toDecisionView rt d)) "metadata" =
      some (Value.object ((d.Metadata.getD []).map (fun kv => (kv.1, Value.string kv.2)))) := by
    rw [(member_marshalDecision _).2.2.2.2.2.2.2.2, h3]
    rfl
  refine ⟨_, (member_RenderDecisionJSON rt d).2, hv, hn, hm, ?_, ?_, ?_, ?_⟩
  · intro h
    rw [hv, h]
    rfl
  · intro h
    rw [hn, h]
    rfl
  · intro h
    rw [hm, h]
    rfl
  · intro v
    obtain ⟨g1, g2, g3⟩ := toViolationView_collections v
    have he : member (marshalViolation (toViolationView v)) "evidence" =
        some (Value.array ((items v.Evidence).map
          (fun e => marshalEvidence (toEvidenceView e)))) := by
      rw [(member_marshalViolation _).2.2.2.2.1, g1]
      simp [marshalSlice]
    have hf : member (marshalViolation (toViolationView v)) "fix" =
        some (Value.array ((items v.Fix).map (fun a => marshalAction (toActionView a)))) := by
      rw [(member_marshalViolation _).2.2.2.2.2.1, g2]
      simp [marshalSlice]
    have hr : member (marshalViolation (toViolationView v)) "references" =
        some (Value.array ((items v.References).map Value.string)) := by
      rw [(member_marshalViolation _).2.2.2.2.2.2, g3]
      rfl
    refine ⟨he, hf, hr, ?_, ?_, ?_⟩
    · intro h
      rw [he, h]
      rfl
    · intro h
      rw [hf, h]
      rfl
    · intro h
      rw [hr, h]
      rfl

/-- Witness of C31: the decision of `TestRenderDecisionJSON_EmptyArrays`. -/
theorem projection_collections_witness :
    ∃ doc, member (RenderDecisionJSON testRuntime emptyArraysDecision) "decision" = some doc ∧
      member doc "violations" = some (Value.array []) ∧
      member doc "nextActions" = some (Value.array []) ∧
      member doc "metadata" = some (Value.object []) :=
  match projection_collections testRuntime emptyArraysDecision with
  | ⟨doc, h, _, _, _, hv, hn, hm, _⟩ => ⟨doc, h, hv rfl, hn rfl, hm rfl⟩

/-- C32: the view of an action has no patch exactly when format and content of
the action's patch are both empty, and its JSON then has no member `patch`;
otherwise the view holds the patch of the action, and the member `patch` is
the object of its format and its content. Title and detail are always
members. -/
theorem patch_omitted_when_unset (a : Action) :
    ((toActionView a).Patch = none ↔ a.Patch.Format = "" ∧ a.Patch.Content = "") ∧
    (a.Patch.Format = "" ∧ a.Patch.Content = "" →
      member (marshalAction (toActionView a)) "patch" = none ∧
      marshalAction (toActionView a) =
        Value.object [("title", Value.string a.Title), ("detail", Value.string a.Detail)]) ∧
    (¬ (a.Patch.Format = "" ∧ a.Patch.Content = "") →
      (toActionView a).Patch = some a.Patch ∧
      member (marshalAction (toActionView a)) "patch" =
        some (Value.object [("format", Value.string a.Patch.Format),
          ("content", Value.string a.Patch.Content)])) ∧
    member (marshalAction (toActionView a)) "title" = some (Value.string a.Title) ∧
    member (marshalAction (toActionView a)) "detail" = some (Value.string a.Detail) := by
  by_cases h : a.Patch.Format ≠ "" ∨ a.Patch.Content ≠ ""
  · have hv : toActionView a = { Title := a.Title, Detail := a.Detail, Patch := some a.Patch } := by
      unfold toActionView
      rw [if_pos h]
    have hne : ¬ (a.Patch.Format = "" ∧ a.Patch.Content = "") := by
      intro h2
      rcases h with h | h
      · exact h h2.1
      · exact h h2.2
    rw [hv]
    exact ⟨Iff.intro (fun h0 => by cases h0) (fun h2 => absurd h2 hne),
      (fun h2 => absurd h2 hne), (fun _ => ⟨rfl, rfl⟩), rfl, rfl⟩
  · have hv : toActionView a = { Title := a.Title, Detail := a.Detail, Patch := none } := by
      unfold toActionView
      rw [if_neg h]
    have he : a.Patch.Format = "" ∧ a.Patch.Content = "" := by
      constructor
      · by_contra h1
        exact h (Or.inl h1)
      · by_contra h1
        exact h (Or.inr h1)
    rw [hv]
    exact ⟨Iff.intro (fun _ => he) (fun _ => rfl), (fun _ => ⟨rfl, rfl⟩),
      (fun h2 => absurd he h2), rfl, rfl⟩

/-- Witness of C32: a fix without patch and a fix with one. -/
theorem patch_omitted_when_unset_witness :
    member (marshalAction (toActionView plainFix)) "patch" = none ∧
    member (marshalAction (toActionView patchedFix)) "patch" =
      some (Value.object [("format", Value.string "strategic-merge"),
        ("content", Value.string "privileged: false")]) :=
  ⟨((patch_omitted_when_unset plainFix).2.1 (by decide)).1,
    ((patch_omitted_when_unset patchedFix).2.2.1 (by decide)).2⟩

/-- C33: the document of `RenderDecisionJSON` has the member `schemaVersion`
equal to `v1`, whatever the version of the decision, and the member
`decision` with the identifier, the version, the status, the summary and the
kind, name and namespace of the resource of the decision; the views of the
violations and of the next actions are the images of the violations and of
the next actions, in their order, and the view of a violation has its policy
identifier, title, severity and message, the views of its evidence entries
(type, subject and detail unchanged) and of its fixes (title and detail
unchanged) in their order. -/
theorem RenderDecisionJSON_projection (rt : Runtime) (d : SecurityDecision) :
    member (RenderDecisionJSON rt d) "schemaVersion" = some (Value.string "v1") ∧
    (∃ doc res, member (RenderDecisionJSON rt d) "decision" = some doc ∧
      doc = marshalDecision (toDecisionView rt d) ∧
      member doc "id" = some (Value.string d.ID) ∧
      member doc "version" = some (Value.string d.Version) ∧
      member doc "status" = some (Value.string d.Status) ∧
      member doc "summary" = some (Value.string d.Summary) ∧
      member doc "timestamp" = some (Value.string (rt.Format d.Timestamp)) ∧
      member doc "resource" = some res ∧
      member res "kind" = some (Value.string d.Resource.Kind) ∧
      member res "name" = some (Value.string d.Resource.Name) ∧
      member res "namespace" = some (Value.string d.Resource.Namespace) ∧
      member doc "violations" =
        some (Value.array ((items d.Violations).map
          (fun v => marshalViolation (toViolationView v)))) ∧
      member doc "nextActions" =
        some (Value.array ((items d.NextActions).map
          (fun a => marshalAction (toActionView a))))) ∧
    items (toDecisionView rt d).Violations = (items d.Violations).map toViolationView ∧
    items (toDecisionView rt d).NextActions = (items d.NextActions).map toActionView ∧
    len (toDecisionView rt d).Violations = len d.Violations ∧
    len (toDecisionView rt d).NextActions = len d.NextActions ∧
    (∀ v : Violation,
      (toViolationView v).PolicyID = v.PolicyID ∧ (toViolationView v).Title = v.Title ∧
      (toViolationView v).Severity = v.Severity ∧ (toViolationView v).Message = v.Message ∧
      items (toViolationView v).Evidence = (items v.Evidence).map toEvidenceView ∧
      items (toViolationView v).Fix = (items v.Fix).map toActionView ∧
      member (marshalViolation (toViolationView v)) "policyId" =
        some (Value.string v.PolicyID) ∧
      member (marshalViolation (toViolationView v)) "title" = some (Value.string v.Title) ∧
      member (marshalViolation (toViolationView v)) "severity" =
        some (Value.string v.Severity) ∧
      member (marshalViolation (toViolationView v)) "message" =
        some (Value.string v.Message) ∧
      member (marshalViolation (toViolationView v)) "evidence" =
        some (Value.array ((items v.Evidence).map
          (fun e => marshalEvidence (toEvidenceView e)))) ∧
      member (marshalViolation (toViolationView v)) "fix" =
        some (Value.array ((items v.Fix).map (fun a => marshalAction (toActionView a))))) ∧
    (∀ e : Evidence,
      (toEvidenceView e).Type_ = e.Type_ ∧ (toEvidenceView e).Subject = e.Subject ∧
      (toEvidenceView e).Detail = e.Detail ∧ (toEvidenceView e).Raw = some (e.Raw.getD [])) ∧
    (∀ a : Action, (toActionView a).Title = a.Title ∧ (toActionView a).Detail = a.Detail) := by
  obtain ⟨h1, h2, _⟩ := toDecisionView_collections rt d
  have hv : member (marshalDecision (toDecisionView rt d)) "violations" =
      some (Value.array ((items d.Violations).map
        (fun v => marshalViolation (toViolationView v)))) := by
    rw [(member_marshalDecision _).2.2.2.2.2.2.1, h1]
    simp [marshalSlice]
  have hn : member (marshalDecision (toDecisionView rt d)) "nextActions" =
      some (Value.array ((items d.NextActions).map
        (fun a => marshalAction (toActionView a)))) := by
    rw [(member_marshalDecision _).2.2.2.2.2.2.2.1, h2]
    simp [marshalSlice]
  refine ⟨rfl, ⟨_, _, (member_RenderDecisionJSON rt d).2, rfl, rfl, rfl, rfl, rfl, rfl, rfl,
    rfl, rfl, rfl, hv, hn⟩, ?_, ?_, ?_, ?_, ?_, ?_, ?_⟩
  · rw [h1]; rfl
  · rw [h2]; rfl
  · rw [h1]; simp [len, items]
  · rw [h2]; simp [len, items]
  · intro v
    obtain ⟨g1, g2, _⟩ := toViolationView_collections v
    refine ⟨rfl, rfl, rfl, rfl, by rw [g1]; rfl, by rw [g2]; rfl, rfl, rfl, rfl, rfl, ?_, ?_⟩
    · rw [(member_marshalViolation _).2.2.2.2.1, g1]
      simp [marshalSlice]
    · rw [(member_marshalViolation _).2.2.2.2.2.1, g2]
      simp [marshalSlice]
  · intro e
    refine ⟨rfl, rfl, rfl, ?_⟩
    unfold toEvidenceView
    cases e.Raw <;> rfl
  · intro a
    unfold toActionView
    dsimp only
    split <;> exact ⟨rfl, rfl⟩

/-- Witness of C33: the decision of `TestRenderDecision_Japanese`. -/
theorem RenderDecisionJSON_projection_witness :
    member (RenderDecisionJSON testRuntime japaneseTestDecision) "schemaVersion" =
      some (Value.string "v1") ∧
    len (toDecisionView testRuntime japaneseTestDecision).Violations = 1 ∧
    len (toDecisionView testRuntime japaneseTestDecision).NextActions = 1 :=
  ⟨(RenderDecisionJSON_projection testRuntime japaneseTestDecision).1,
    (RenderDecisionJSON_projection testRuntime japaneseTestDecision).2.2.2.2.1,
    (RenderDecisionJSON_projection testRuntime japaneseTestDecision).2.2.2.2.2.1⟩

/-! ## Scanner reports -/

theorem items_collect_inner (vs : List trivyVuln) (acc : Slice String) :
    items (vs.foldl (fun allCVEs v => append allCVEs v.VulnerabilityID) acc) =
      items acc ++ vs.map (fun v => v.VulnerabilityID) := by
  induction vs generalizing acc with
  | nil => simp
  | cons v vs ih =>
    rw [List.foldl_cons, ih, items_append]
    simp

theorem items_collect_outer (rs : List trivyResult) (acc : Slice String) :
    items (rs.foldl
      (fun allCVEs r =>
        (items r.Vulnerabilities).foldl (fun allCVEs v => append allCVEs v.VulnerabilityID)
          allCVEs) acc) =
      items acc ++
        (rs.map (fun r => (items r.Vulnerabilities).map (fun v => v.VulnerabilityID))).flatten := by
  induction rs generalizing acc with
  | nil => simp
  | cons r rs ih =>
    rw [List.foldl_cons, ih, items_collect_inner]
    simp

theorem items_collectCVEs (out : trivyOutput) :
    items (collectCVEs out.Results) = reportCVEs out := by
  unfold collectCVEs reportCVEs
  rw [items_collect_outer]
  rfl

theorem length_flatten_map_sum {α β : Type} (f : α → List β) (xs : List α) :
    ((xs.map f).flatten).length = (xs.map (fun x => (f x).length)).sum := by
  induction xs with
  | nil => rfl
  | cons x xs ih => simp [ih]

/-- C35: a report that decodes is parsed without error. `parseTrivyJSON`
counts the vulnerabilities of all results and keeps the first five
identifiers in report order, all of them when there are at most five;
`parseSyftJSON` counts the artifacts and keeps the first five names in order;
a report without entries gives the count 0 and a top list without
elements. -/
theorem parse_counts_and_top (tout : trivyOutput) (sout : syftOutput) :
    (∃ r, parseTrivyJSON (ReportData.decoded tout) = Except.ok r ∧ r.Scanner = "trivy" ∧
      r.VulnCount = (reportCVEs tout).length ∧
      r.VulnCount =
        ((items tout.Results).map (fun res => len res.Vulnerabilities)).sum ∧
      items r.TopCVEs = (reportCVEs tout).take 5 ∧
      len r.TopCVEs = min 5 r.VulnCount ∧
      (reportCVEs tout = [] → r.VulnCount = 0 ∧ items r.TopCVEs = [])) ∧
    (∃ r, parseSyftJSON (ReportData.decoded sout) = Except.ok r ∧ r.Scanner = "syft" ∧
      r.PackageCount = len sout.Artifacts ∧
      items r.TopPackages = (reportPackages sout).take 5 ∧
      len r.TopPackages = min 5 r.PackageCount ∧
      (len sout.Artifacts = 0 → r.PackageCount = 0 ∧ items r.TopPackages = [])) := by
  constructor
  · have hitems := items_collectCVEs tout
    have hlen : len (collectCVEs tout.Results) = (reportCVEs tout).length := by
      unfold len
      rw [hitems]
    have htop : items (if len (collectCVEs tout.Results) > maxTopCVEs then
        slicePrefix (collectCVEs tout.Results) maxTopCVEs else collectCVEs tout.Results) =
        (reportCVEs tout).take 5 := by
      split
      · unfold slicePrefix
        rw [hitems]
        rfl
      · rename_i hle
        rw [hitems, List.take_of_length_le]
        rw [hlen] at hle
        unfold maxTopCVEs at hle
        omega
    refine ⟨_, rfl, rfl, hlen, ?_, htop, ?_, ?_⟩
    · show len (collectCVEs tout.Results) = _
      rw [hlen]
      unfold reportCVEs
      rw [length_flatten_map_sum]
      simp [len, Function.comp]
    · change (items (if len (collectCVEs tout.Results) > maxTopCVEs then
        slicePrefix (collectCVEs tout.Results) maxTopCVEs else collectCVEs tout.Results)).length =
        min 5 (len (collectCVEs tout.Results))
      rw [htop, hlen, List.length_take]
    · intro h0
      constructor
      · show len (collectCVEs tout.Results) = 0
        rw [hlen, h0]
        rfl
      · rw [htop, h0]
        rfl
  · have hlen : len (some ((items sout.Artifacts).map (fun a => a.Name)) : Slice String) =
        len sout.Artifacts := by
      simp [len, items]
    have htop : items (if len (some ((items sout.Artifacts).map (fun a => a.Name)) :
          Slice String) > maxTopPackages then
        slicePrefix (some ((items sout.Artifacts).map (fun a => a.Name))) maxTopPackages
        else some ((items sout.Artifacts).map (fun a => a.Name))) =
        (reportPackages sout).take 5 := by
      split
      · rfl
      · rename_i hle
        unfold reportPackages
        rw [List.take_of_length_le]
        · rfl
        · rw [hlen] at hle
          unfold maxTopPackages at hle
          simp only [List.length_map]
          unfold len at hle
          omega
    refine ⟨_, rfl, rfl, hlen, htop, ?_, ?_⟩
    · change (items (if len (some ((items sout.Artifacts).map (fun a => a.Name)) :
          Slice String) > maxTopPackages then
        slicePrefix (some ((items sout.Artifacts).map (fun a => a.Name))) maxTopPackages
        else some ((items sout.Artifacts).map (fun a => a.Name)))).length =
        min 5 (len (some ((items sout.Artifacts).map (fun a => a.Name)) : Slice String))
      rw [htop, hlen]
      unfold reportPackages len
      rw [List.length_take, List.length_map]
    · intro h0
      constructor
      · show len (some ((items sout.Artifacts).map (fun a => a.Name)) : Slice String) = 0
        rw [hlen, h0]
      · rw [htop]
        unfold reportPackages
        unfold len at h0
        rw [List.length_eq_zero.1 h0]
        rfl

/-- Witness of C35: seven vulnerabilities and six packages. -/
theorem parse_counts_and_top_witness :
    parseTrivyJSON (ReportData.decoded sevenCVEs) =
      Except.ok (ScanResult.mk "trivy" 7 (some ["CVE-1", "CVE-2", "CVE-3", "CVE-4", "CVE-5"])
        0 none) ∧
    parseSyftJSON (ReportData.decoded sixPackages) =
      Except.ok (ScanResult.mk "syft" 0 none 6
        (some ["openssl", "zlib", "libc6", "bash", "curl"])) ∧
    (∃ r, parseTrivyJSON (ReportData.decoded sevenCVEs) = Except.ok r ∧
      r.VulnCount = (reportCVEs sevenCVEs).length) :=
  ⟨rfl, rfl,
    match (parse_counts_and_top sevenCVEs sixPackages).1 with
    | ⟨r, h, _, hc, _⟩ => ⟨r, h, hc⟩⟩

/-! ## wrapIndent returns -/

theorem IsBreakPoint_lt (r : Bytes) (t bp : Nat) (ht : t < r.length)
    (h : IsBreakPoint r t bp) : bp < r.length := by
  rcases h with ⟨_, a2, _, _⟩ | ⟨_, k, _, a3, a4, _⟩ | ⟨_, _, a3⟩
  · omega
  · rw [a3]
    by_contra hge
    rw [List.getElem?_eq_none (by omega)] at a4
    cases a4
  · omega

theorem wrapLoop_fuel_succ (width : Int) (indent : Bytes) (fuel : Nat) (remaining : Bytes)
    (firstLine : Bool) (result out : Bytes)
    (h : wrapLoop width indent fuel remaining firstLine result = some out) :
    wrapLoop width indent (fuel + 1) remaining firstLine result = some out := by
  induction fuel generalizing remaining firstLine result with
  | zero => simp [wrapLoop] at h
  | succ fuel ih =>
    unfold wrapLoop at h ⊢
    split
    · rename_i hlen
      rw [if_pos hlen] at h
      dsimp only at h ⊢
      split
      · rename_i hfit
        rw [if_pos hfit] at h
        exact h
      · rename_i hfit
        rw [if_neg hfit] at h
        split
        · rename_i hneg
          rw [if_pos hneg] at h
          cases h
        · rename_i hneg
          rw [if_neg hneg] at h
          exact ih _ _ _ h
    · rename_i hlen
      rw [if_neg hlen] at h
      exact h

theorem wrapLoop_fuel_le (width : Int) (indent : Bytes) (fuel1 fuel2 : Nat) (hle : fuel1 ≤ fuel2)
    (remaining : Bytes) (firstLine : Bool) (result out : Bytes)
    (h : wrapLoop width indent fuel1 remaining firstLine result = some out) :
    wrapLoop width indent fuel2 remaining firstLine result = some out := by
  induction hle with
  | refl => exact h
  | step _ ih => exact wrapLoop_fuel_succ width indent _ remaining firstLine result out ih

/-- C40: for a width of at least 1 and an indent shorter than the width,
`wrapIndent` returns: it does not panic and its loop ends, within the rounds
the model allows and with the same result when more rounds are allowed. On
every line the limit is at least 1, and in a round that cuts, the break point
is at least 1 and within the remaining text, so the slices `remaining[:bp]`
and `remaining[bp:]` are in range, and what remains after the cut and the
trimming is strictly shorter. -/
theorem wrapIndent_terminates (text : Bytes) (width : Int) (indent : Bytes)
    (hwidth : 1 ≤ width) (hindent : (indent.length : Int) < width) :
    (∃ result, wrapIndent text width indent = some result ∧
      ∀ fuel, text.length + 2 ≤ fuel → width < text.length →
        wrapLoop width indent fuel text true [] = some result) ∧
    (∀ firstLine : Bool, 1 ≤ takeLen width indent firstLine) ∧
    (∀ (remaining : Bytes) (firstLine : Bool),
      takeLen width indent firstLine < remaining.length →
      1 ≤ breakPoint remaining (takeLen width indent firstLine).toNat ∧
      breakPoint remaining (takeLen width indent firstLine).toNat < remaining.length ∧
      (TrimSpace (remaining.drop
        (breakPoint remaining (takeLen width indent firstLine).toNat))).length <
          remaining.length) := by
  have htake : ∀ firstLine : Bool, 1 ≤ takeLen width indent firstLine := by
    intro firstLine
    unfold takeLen
    split <;> omega
  refine ⟨⟨_, wrapIndent_isSome text width indent hindent, ?_⟩, htake, ?_⟩
  · intro fuel hfuel hlong
    have h := wrapIndent_isSome text width indent hindent
    have hw : wrapIndent text width indent =
        wrapLoop width indent (text.length + 2) text true [] := by
      unfold wrapIndent
      rw [if_neg (by omega)]
    rw [hw] at h
    rw [hw]
    exact wrapLoop_fuel_le width indent _ fuel hfuel text true [] _ h
  · intro remaining firstLine hlong
    have h1 := htake firstLine
    have hlt : (takeLen width indent firstLine).toNat < remaining.length := by omega
    have hb := breakPoint_isBreakPoint remaining _ hlt
    have hpos := IsBreakPoint_pos remaining _ _ (by omega) hb
    have hlt2 := IsBreakPoint_lt remaining _ _ hlt hb
    refine ⟨hpos, hlt2, ?_⟩
    refine Nat.lt_of_le_of_lt (TrimSpace_length_le _) ?_
    rw [List.length_drop]
    omega

/-- Witness of C40: the sentence of 70 bytes at width 20 with an indent of
three spaces. -/
theorem wrapIndent_terminates_witness :
    ∃ result, wrapIndent foxText 20 (utf8 "   ") = some result ∧
      ∀ fuel, foxText.length + 2 ≤ fuel → (20 : Int) < foxText.length →
        wrapLoop 20 (utf8 "   ") fuel foxText true [] = some result :=
  (wrapIndent_terminates foxText 20 (utf8 "   ") (by decide) (by decide)).1

/-! ## wrapIndent on ASCII text -/

theorem dropWhile_suffix_mem {α : Type} (p : α → Bool) (l : List α) (x : α)
    (h : x ∈ l.dropWhile p) : x ∈ l :=
  (List.dropWhile_sublist p).subset h

theorem TrimSpace_ascii (s : Bytes) (hascii : ∀ b ∈ s, b < 128) :
    TrimSpace s = ((s.dropWhile asciiSpace).reverse.dropWhile asciiSpace).reverse := by
  unfold TrimSpace
  dsimp only
  cases hs : s.dropWhile asciiSpace with
  | nil => rfl
  | cons c rest =>
    dsimp only
    have hmem : ∀ b ∈ c :: rest, b < 128 := by
      intro b hb
      rw [← hs] at hb
      exact hascii b (dropWhile_suffix_mem _ _ _ hb)
    have hc : ¬ c ≥ 128 := by
      have := hmem c (List.mem_cons_self _ _)
      omega
    rw [if_neg hc]
    cases hl : (((c :: rest).reverse.dropWhile asciiSpace).reverse).getLast? with
    | none =>
      dsimp only
      rw [List.getLast?_eq_none_iff] at hl
      rw [hl]
    | some c2 =>
      dsimp only
      have hc2 : c2 ∈ ((c :: rest).reverse.dropWhile asciiSpace).reverse :=
        List.mem_of_getLast?_eq_some hl
      have hc2' : c2 < 128 := by
        apply hmem
        have h1 := List.mem_reverse.1 hc2
        exact List.mem_reverse.1 (dropWhile_suffix_mem _ _ _ h1)
      rw [if_neg (by omega)]

theorem nonSpace_append (a b : Bytes) : nonSpace (a ++ b) = nonSpace a ++ nonSpace b := by
  unfold nonSpace
  rw [List.filter_append]

theorem nonSpace_dropWhile (l : Bytes) : nonSpace (l.dropWhile asciiSpace) = nonSpace l := by
  induction l with
  | nil => rfl
  | cons a l ih =>
    rw [List.dropWhile_cons]
    by_cases h : asciiSpace a = true
    · rw [if_pos h, ih]
      unfold nonSpace
      rw [List.filter_cons]
      simp [h]
    · rw [if_neg h]

theorem nonSpace_reverse (l : Bytes) : nonSpace l.reverse = (nonSpace l).reverse := by
  unfold nonSpace
  rw [List.filter_reverse]

theorem nonSpace_TrimSpace (s : Bytes) (hascii : ∀ b ∈ s, b < 128) :
    nonSpace (TrimSpace s) = nonSpace s := by
  rw [TrimSpace_ascii s hascii, nonSpace_reverse, nonSpace_dropWhile, nonSpace_reverse,
    List.reverse_reverse, nonSpace_dropWhile]

theorem mem_TrimSpace_ascii (s : Bytes) (hascii : ∀ b ∈ s, b < 128) (b : Nat)
    (hb : b ∈ TrimSpace s) : b ∈ s := by
  rw [TrimSpace_ascii s hascii] at hb
  have h1 := List.mem_reverse.1 hb
  have h2 := List.mem_reverse.1 (dropWhile_suffix_mem _ _ _ h1)
  exact dropWhile_suffix_mem _ _ _ h2

theorem nonSpace_spaces (indent : Bytes) (h : ∀ b ∈ indent, b = 32) : nonSpace indent = [] := by
  unfold nonSpace
  rw [List.filter_eq_nil_iff]
  intro b hb
  rw [h b hb]
  decide

theorem nonSpace_separator (indent : Bytes) (hspaces : ∀ b ∈ indent, b = 32)
    (firstLine : Bool) (result : Bytes) :
    nonSpace (if (!firstLine) = true then result ++ [10] ++ indent else result) =
      nonSpace result := by
  cases firstLine
  · simp only [Bool.not_false, if_true]
    rw [nonSpace_append, nonSpace_append, nonSpace_spaces indent hspaces]
    simp [nonSpace, asciiSpace]
  · simp

theorem ascii_separator (indent : Bytes) (hspaces : ∀ b ∈ indent, b = 32)
    (firstLine : Bool) (result : Bytes) (hr : ∀ b ∈ result, b < 128) :
    ∀ b ∈ (if (!firstLine) = true then result ++ [10] ++ indent else result), b < 128 := by
  intro b hb
  cases firstLine
  · simp only [Bool.not_false, if_true, List.mem_append, List.mem_singleton] at hb
    rcases hb with (hb | hb) | hb
    · exact hr b hb
    · omega
    · rw [hspaces b hb]
      omega
  · simp only [Bool.not_true, Bool.false_eq_true, if_false] at hb
    exact hr b hb

theorem wrapLoop_nonSpace (width : Int) (indent : Bytes) (hspaces : ∀ b ∈ indent, b = 32)
    (fuel : Nat) (remaining : Bytes) (firstLine : Bool) (result out : Bytes)
    (hascii : ∀ b ∈ remaining, b < 128)
    (h : wrapLoop width indent fuel remaining firstLine result = some out) :
    nonSpace out = nonSpace result ++ nonSpace remaining ∧
    ((∀ b ∈ result, b < 128) → ∀ b ∈ out, b < 128) := by
  induction fuel generalizing remaining firstLine result with
  | zero => simp [wrapLoop] at h
  | succ fuel ih =>
    unfold wrapLoop at h
    split at h
    · dsimp only at h
      split at h
      · cases h
        constructor
        · rw [nonSpace_append, nonSpace_separator indent hspaces]
        · intro hr b hb
          rcases List.mem_append.1 hb with hb | hb
          · exact ascii_separator indent hspaces firstLine result hr b hb
          · exact hascii b hb
      · split at h
        · cases h
        · have hdrop : ∀ b ∈ remaining.drop
              (breakPoint remaining (takeLen width indent firstLine).toNat), b < 128 :=
            fun b hb => hascii b (List.mem_of_mem_drop hb)
          have htrim : ∀ b ∈ TrimSpace (remaining.drop
              (breakPoint remaining (takeLen width indent firstLine).toNat)), b < 128 :=
            fun b hb => hdrop b (mem_TrimSpace_ascii _ hdrop b hb)
          obtain ⟨h1, h2⟩ := ih _ false _ htrim h
          constructor
          · rw [h1, nonSpace_append, nonSpace_separator indent hspaces,
              nonSpace_TrimSpace _ hdrop, List.append_assoc, ← nonSpace_append,
              List.take_append_drop]
          · intro hr
            apply h2
            intro b hb
            rcases List.mem_append.1 hb with hb | hb
            · exact ascii_separator indent hspaces firstLine result hr b hb
            · exact hascii b (List.mem_of_mem_take hb)
    · cases h
      have hnil : remaining = [] := by
        cases remaining with
        | nil => rfl
        | cons a l => rename_i hl; exact absurd (Nat.succ_pos _) hl
      subst hnil
      exact ⟨by simp [nonSpace], fun hr => hr⟩

theorem wrapIndent_ascii (text : Bytes) (width : Int) (indent : Bytes)
    (hascii : ∀ b ∈ text, b < 128) (hspaces : ∀ b ∈ indent, b = 32)
    (hindent : (indent.length : Int) < width) :
    ∃ result, wrapIndent text width indent = some result ∧
      nonSpace result = nonSpace text ∧ ∀ b ∈ result, b < 128 := by
  have hsome := wrapIndent_isSome text width indent hindent
  refine ⟨_, hsome, ?_⟩
  generalize (wrapIndent text width indent).getD [] = out at hsome
  unfold wrapIndent at hsome
  split at hsome
  · cases hsome
    exact ⟨rfl, hascii⟩
  · obtain ⟨h1, h2⟩ := wrapLoop_nonSpace width indent hspaces _ text true [] out hascii hsome
    refine ⟨?_, h2 (fun b hb => by cases hb)⟩
    rw [h1]
    rfl

/-- C38: for an ASCII text, a width of at least 1 and an indent of spaces
shorter than the width, `wrapIndent` returns a text whose bytes other than
white space (tab, line feed, vertical tab, form feed, carriage return and
space) are those of the text, in the same order: a break loses, repeats or
moves no character. -/
theorem wrapIndent_keeps_characters (text : Bytes) (width : Int) (indent : Bytes)
    (hascii : ∀ b ∈ text, b < 128) (_hwidth : 1 ≤ width) (hspaces : ∀ b ∈ indent, b = 32)
    (hindent : (indent.length : Int) < width) :
    ∃ result, wrapIndent text width indent = some result ∧
      nonSpace result = nonSpace text := by
  obtain ⟨result, h1, h2, _⟩ := wrapIndent_ascii text width indent hascii hspaces hindent
  exact ⟨result, h1, h2⟩

set_option maxRecDepth 100000 in
/-- Witness of C38: the sentence of 70 bytes at width 20 with an indent of
three spaces. -/
theorem wrapIndent_keeps_characters_witness :
    ∃ result, wrapIndent foxText 20 (utf8 "   ") = some result ∧
      nonSpace result = nonSpace foxText :=
  wrapIndent_keeps_characters foxText 20 (utf8 "   ") (by decide) (by decide) (by decide)
    (by decide)

/-! ## UTF-8 -/

theorem Char_toNat_valid (c : Char) :
    c.toNat < 0xD800 ∨ (0xDFFF < c.toNat ∧ c.toNat < 0x110000) := by
  have h := c.valid
  unfold UInt32.isValidChar Nat.isValidChar at h
  exact h

theorem decode1 (s0 : Nat) (rest : Bytes) (h0 : s0 < 0x80) :
    DecodeRuneInString (s0 :: rest) = (s0, 1) := by
  unfold DecodeRuneInString
  dsimp only
  rw [if_pos h0]

theorem decode2 (s0 s1 : Nat) (rest : Bytes) (h0 : 0xC2 ≤ s0) (h0' : s0 < 0xE0)
    (h1 : 0x80 ≤ s1) (h1' : s1 ≤ 0xBF) :
    DecodeRuneInString (s0 :: s1 :: rest) = (s0 % 32 * 64 + s1 % 64, 2) := by
  unfold DecodeRuneInString
  have e1 : ¬ s0 < 128 := by omega
  have e2 : ¬ (s0 < 194 ∨ 244 < s0) := by omega
  have e3 : ¬ s0 = 224 := by omega
  have e4 : ¬ s0 = 240 := by omega
  have e5 : ¬ s0 = 237 := by omega
  have e6 : ¬ s0 = 244 := by omega
  have e7 : ¬ (s1 < 128 ∨ 191 < s1) := by omega
  simp only [e1, e2, e3, e4, e5, e6, e7, h0', if_true, if_false, List.length_cons]
  rw [if_neg (by omega), if_pos (Nat.le_refl 2)]

theorem decode3 (s0 s1 s2 : Nat) (rest : Bytes) (h0 : 0xE0 ≤ s0) (h0' : s0 < 0xF0)
    (h1 : 0x80 ≤ s1) (h1' : s1 ≤ 0xBF) (hlo : s0 = 0xE0 → 0xA0 ≤ s1)
    (hhi : s0 = 0xED → s1 ≤ 0x9F) (h2 : 0x80 ≤ s2) (h2' : s2 ≤ 0xBF) :
    DecodeRuneInString (s0 :: s1 :: s2 :: rest) =
      (s0 % 16 * 4096 + s1 % 64 * 64 + s2 % 64, 3) := by
  unfold DecodeRuneInString
  have e1 : ¬ s0 < 128 := by omega
  have e2 : ¬ (s0 < 194 ∨ 244 < s0) := by omega
  have e3 : ¬ s0 < 224 := by omega
  have e4 : ¬ s0 = 240 := by omega
  have e6 : ¬ s0 = 244 := by omega
  have e7 : ¬ (s2 < 128 ∨ 191 < s2) := by omega
  have e8 : ¬ (s1 < (if s0 = 224 then 160 else 128) ∨
      (if s0 = 237 then 159 else 191) < s1) := by
    split_ifs <;> omega
  simp only [e1, e2, e3, e4, e6, e7, e8, h0', if_true, if_false, List.length_cons]
  rw [if_neg (by omega), if_neg (by omega), if_pos (Nat.le_refl 3)]

theorem decode4 (s0 s1 s2 s3 : Nat) (rest : Bytes) (h0 : 0xF0 ≤ s0) (h0' : s0 ≤ 0xF4)
    (h1 : 0x80 ≤ s1) (h1' : s1 ≤ 0xBF) (hlo : s0 = 0xF0 → 0x90 ≤ s1)
    (hhi : s0 = 0xF4 → s1 ≤ 0x8F) (h2 : 0x80 ≤ s2) (h2' : s2 ≤ 0xBF)
    (h3 : 0x80 ≤ s3) (h3' : s3 ≤ 0xBF) :
    DecodeRuneInString (s0 :: s1 :: s2 :: s3 :: rest) =
      (s0 % 8 * 262144 + s1 % 64 * 4096 + s2 % 64 * 64 + s3 % 64, 4) := by
  unfold DecodeRuneInString
  have e1 : ¬ s0 < 128 := by omega
  have e2 : ¬ (s0 < 194 ∨ 244 < s0) := by omega
  have e3 : ¬ s0 < 224 := by omega
  have e4 : ¬ s0 < 240 := by omega
  have e5 : ¬ s0 = 224 := by omega
  have e6 : ¬ s0 = 237 := by omega
  have e7 : ¬ (s2 < 128 ∨ 191 < s2) := by omega
  have e9 : ¬ (s3 < 128 ∨ 191 < s3) := by omega
  have e8 : ¬ (s1 < (if s0 = 240 then 144 else 128) ∨
      (if s0 = 244 then 143 else 191) < s1) := by
    split_ifs <;> omega
  simp only [e1, e2, e3, e4, e5, e6, e7, e8, e9, if_true, if_false, List.length_cons]
  rw [if_neg (by omega), if_neg (by omega), if_neg (by omega)]

theorem decode_encode (r : Nat) (hr : r < 0xD800 ∨ (0xDFFF < r ∧ r < 0x110000))
    (rest : Bytes) :
    DecodeRuneInString (encodeRune r ++ rest) = (r, (encodeRune r).length) := by
  unfold encodeRune
  by_cases h1 : r < 0x80
  · rw [if_pos h1]
    exact decode1 r rest h1
  · rw [if_neg h1]
    by_cases h2 : r < 0x800
    · rw [if_pos h2]
      have h := decode2 (0xC0 + r / 64) (0x80 + r % 64) rest (by omega) (by omega) (by omega)
        (by omega)
      simp only [List.cons_append, List.nil_append, List.length_cons, List.length_nil]
      rw [h]
      apply Prod.ext
      · show (192 + r / 64) % 32 * 64 + (128 + r % 64) % 64 = r
        omega
      · rfl
    · rw [if_neg h2]
      by_cases h3 : r < 0x10000
      · rw [if_pos h3]
        have h := decode3 (0xE0 + r / 4096) (0x80 + r / 64 % 64) (0x80 + r % 64) rest
          (by omega) (by omega) (by omega) (by omega) (by omega) (by omega) (by omega) (by omega)
        simp only [List.cons_append, List.nil_append, List.length_cons, List.length_nil]
        rw [h]
        apply Prod.ext
        · show (224 + r / 4096) % 16 * 4096 + (128 + r / 64 % 64) % 64 * 64 +
            (128 + r % 64) % 64 = r
          omega
        · rfl
      · rw [if_neg h3]
        have h := decode4 (0xF0 + r / 262144) (0x80 + r / 4096 % 64) (0x80 + r / 64 % 64)
          (0x80 + r % 64) rest
          (by omega) (by omega) (by omega) (by omega) (by omega) (by omega) (by omega) (by omega)
          (by omega) (by omega)
        simp only [List.cons_append, List.nil_append, List.length_cons, List.length_nil]
        rw [h]
        apply Prod.ext
        · show (240 + r / 262144) % 8 * 262144 + (128 + r / 4096 % 64) % 64 * 4096 +
            (128 + r / 64 % 64) % 64 * 64 + (128 + r % 64) % 64 = r
          omega
        · rfl

theorem encodeRune_cases (r : Nat) :
    (r < 128 ∧ encodeRune r = [r]) ∨
      (128 ≤ r ∧ 2 ≤ (encodeRune r).length ∧ ∀ b ∈ encodeRune r, 128 ≤ b) := by
  unfold encodeRune
  by_cases h1 : r < 0x80
  · left
    exact ⟨h1, by rw [if_pos h1]⟩
  · right
    refine ⟨by omega, ?_⟩
    rw [if_neg h1]
    split_ifs <;> simp <;> omega

theorem utf8_cons (c : Char) (cs : List Char) :
    utf8 ⟨c :: cs⟩ = encodeRune c.toNat ++ utf8 ⟨cs⟩ := rfl

theorem utf8_mk_append (a b : List Char) : utf8 ⟨a ++ b⟩ = utf8 ⟨a⟩ ++ utf8 ⟨b⟩ := by
  unfold utf8
  simp

theorem validLoop_utf8 (cs : List Char) (fuel : Nat) (hfuel : (utf8 ⟨cs⟩).length ≤ fuel) :
    validLoop fuel (utf8 ⟨cs⟩) = true := by
  induction cs generalizing fuel with
  | nil => cases fuel <;> rfl
  | cons c cs ih =>
    rw [utf8_cons] at hfuel ⊢
    have hdec := decode_encode c.toNat (Char_toNat_valid c) (utf8 ⟨cs⟩)
    have hcases := encodeRune_cases c.toNat
    cases he : encodeRune c.toNat with
    | nil =>
      rcases hcases with ⟨_, h⟩ | ⟨_, h, _⟩
      · rw [he] at h; cases h
      · rw [he] at h; simp at h
    | cons b e =>
      rw [he] at hdec hfuel
      cases fuel with
      | zero => simp at hfuel
      | succ fuel =>
        rw [List.cons_append] at hdec ⊢
        unfold validLoop
        rw [hdec]
        have hnot : ¬ ((c.toNat, (b :: e).length).1 = RuneError ∧
            (c.toNat, (b :: e).length).2 = 1) := by
          rintro ⟨h1, h2⟩
          rcases hcases with ⟨hlt, _⟩ | ⟨_, hlen, _⟩
          · simp only [RuneError] at h1
            omega
          · rw [he] at hlen
            simp only at h2
            omega
        rw [if_neg hnot]
        have hdrop : (b :: (e ++ utf8 ⟨cs⟩)).drop (c.toNat, (b :: e).length).2 = utf8 ⟨cs⟩ := by
          show ((b :: e) ++ utf8 ⟨cs⟩).drop (b :: e).length = _
          rw [List.drop_left]
        rw [hdrop]
        apply ih
        simp only [List.length_append, List.length_cons] at hfuel
        omega

theorem ValidString_utf8 (str : String) : ValidString (utf8 str) = true :=
  validLoop_utf8 str.data _ (Nat.le_refl _)

theorem space_at_boundary (cs : List Char) (bp b : Nat) (hb : (utf8 ⟨cs⟩)[bp]? = some b)
    (hascii : b < 128) :
    ∃ c1 c2, cs = c1 ++ c2 ∧ (utf8 ⟨cs⟩).take bp = utf8 ⟨c1⟩ ∧
      (utf8 ⟨cs⟩).drop bp = utf8 ⟨c2⟩ := by
  induction cs generalizing bp with
  | nil => simp [utf8] at hb
  | cons c cs ih =>
    rw [utf8_cons] at hb ⊢
    by_cases hlt : bp < (encodeRune c.toNat).length
    · rw [List.getElem?_append_left hlt] at hb
      rcases encodeRune_cases c.toNat with ⟨_, he⟩ | ⟨_, _, hall⟩
      · rw [he] at hlt
        have h0 : bp = 0 := by simpa using hlt
        subst h0
        exact ⟨[], c :: cs, rfl, rfl, rfl⟩
      · have := hall b (List.mem_iff_getElem?.2 ⟨bp, hb⟩)
        omega
    · have hge : (encodeRune c.toNat).length ≤ bp := by omega
      rw [List.getElem?_append_right hge] at hb
      obtain ⟨c1, c2, hcs, htake, hdrop⟩ := ih _ hb
      refine ⟨c :: c1, c2, by rw [hcs]; rfl, ?_, ?_⟩
      · rw [utf8_cons, ← htake, List.take_append_eq_append_take,
          List.take_of_length_le hge]
      · rw [← hdrop, List.drop_append_eq_append_drop, List.drop_of_length_le hge,
          List.nil_append]

theorem validLoop_ascii (s : Bytes) (hascii : ∀ b ∈ s, b < 128) (fuel : Nat)
    (hfuel : s.length ≤ fuel) : validLoop fuel s = true := by
  induction s generalizing fuel with
  | nil => cases fuel <;> rfl
  | cons b s ih =>
    cases fuel with
    | zero => simp at hfuel
    | succ fuel =>
      have hb := hascii b (List.mem_cons_self _ _)
      unfold validLoop
      rw [decode1 b s hb]
      rw [if_neg (by
        rintro ⟨h1, _⟩
        simp only [RuneError] at h1
        omega)]
      exact ih (fun x hx => hascii x (List.mem_cons_of_mem _ hx)) fuel
        (by simp only [List.length_cons] at hfuel; omega)

set_option maxRecDepth 100000 in
/-- Counterexample of C39: a Japanese message of 96 bytes without a space is
valid UTF-8, and `wrapIndent` at width 80 with an indent of three spaces cuts
it after byte 80, inside its 27th character: the result is not valid UTF-8,
and is the encoding of no string. -/
theorem wrapIndent_splits_character :
    ValidString japaneseMessage = true ∧
    (wrapIndent japaneseMessage 80 (utf8 "   ")).map ValidString = some false ∧
    ¬ ∃ str : String, wrapIndent japaneseMessage 80 (utf8 "   ") = some (utf8 str) := by
  have h2 : (wrapIndent japaneseMessage 80 (utf8 "   ")).map ValidString = some false := by
    decide
  refine ⟨ValidString_utf8 _, h2, ?_⟩
  rintro ⟨str, hstr⟩
  rw [hstr] at h2
  simp only [Option.map_some', Option.some.injEq] at h2
  rw [ValidString_utf8] at h2
  cases h2

theorem asciiSpace_lt (b : Nat) (h : asciiSpace b = true) : b < 128 := by
  unfold asciiSpace at h
  simp only [decide_eq_true_eq] at h
  omega

theorem dropWhile_asciiSpace_utf8 (cs : List Char) :
    ∃ cs', (utf8 ⟨cs⟩).dropWhile asciiSpace = utf8 ⟨cs'⟩ := by
  induction cs with
  | nil => exact ⟨[], rfl⟩
  | cons c cs ih =>
    rw [utf8_cons]
    rcases encodeRune_cases c.toNat with ⟨_, he⟩ | ⟨_, hlen, hall⟩
    · rw [he, List.singleton_append, List.dropWhile_cons]
      split
      · exact ih
      · refine ⟨c :: cs, ?_⟩
        rw [utf8_cons, he]
        rfl
    · cases he : encodeRune c.toNat with
      | nil => rw [he] at hlen; simp at hlen
      | cons b e =>
        have hb : 128 ≤ b := hall b (by rw [he]; exact List.mem_cons_self _ _)
        have hns : ¬ asciiSpace b = true := fun h => by
          have := asciiSpace_lt b h
          omega
        rw [List.cons_append, List.dropWhile_cons, if_neg hns]
        refine ⟨c :: cs, ?_⟩
        rw [utf8_cons, he]
        rfl

theorem trimLeftLoop_utf8 (fuel : Nat) (cs : List Char) :
    ∃ cs', trimLeftLoop fuel (utf8 ⟨cs⟩) = utf8 ⟨cs'⟩ := by
  induction fuel generalizing cs with
  | zero => exact ⟨cs, rfl⟩
  | succ fuel ih =>
    cases cs with
    | nil => exact ⟨[], rfl⟩
    | cons c cs =>
      have hdec := decode_encode c.toNat (Char_toNat_valid c) (utf8 ⟨cs⟩)
      rw [utf8_cons]
      cases he : encodeRune c.toNat with
      | nil =>
        rcases encodeRune_cases c.toNat with ⟨_, h⟩ | ⟨_, h, _⟩
        · rw [he] at h; cases h
        · rw [he] at h; simp at h
      | cons b e =>
        rw [he] at hdec
        rw [List.cons_append] at hdec ⊢
        unfold trimLeftLoop
        dsimp only
        rw [hdec]
        split
        · have hdrop : (b :: (e ++ utf8 ⟨cs⟩)).drop (c.toNat, (b :: e).length).2 = utf8 ⟨cs⟩ := by
            show ((b :: e) ++ utf8 ⟨cs⟩).drop (b :: e).length = _
            rw [List.drop_left]
          rw [hdrop]
          exact ih cs
        · refine ⟨c :: cs, ?_⟩
          rw [utf8_cons, he]
          rfl

theorem TrimLeftSpace_utf8 (cs : List Char) : ∃ cs', TrimLeftSpace (utf8 ⟨cs⟩) = utf8 ⟨cs'⟩ :=
  trimLeftLoop_utf8 _ cs

theorem utf8_snoc (l : List Char) (c : Char) :
    utf8 ⟨l ++ [c]⟩ = utf8 ⟨l⟩ ++ encodeRune c.toNat := by
  rw [utf8_mk_append, utf8_cons]
  have h : utf8 ⟨[]⟩ = [] := rfl
  rw [h, List.append_nil]

theorem revDropWhile_utf8 (cs : List Char) :
    ∃ cs', ((utf8 ⟨cs⟩).reverse.dropWhile asciiSpace).reverse = utf8 ⟨cs'⟩ := by
  induction cs using List.reverseRecOn with
  | nil => exact ⟨[], rfl⟩
  | append_singleton l c ih =>
    rw [utf8_snoc, List.reverse_append]
    rcases encodeRune_cases c.toNat with ⟨_, he⟩ | ⟨_, hlen, hall⟩
    · rw [he, List.reverse_singleton, List.singleton_append, List.dropWhile_cons]
      split
      · exact ih
      · refine ⟨l ++ [c], ?_⟩
        rw [utf8_snoc, he]
        simp
    · cases hrev : (encodeRune c.toNat).reverse with
      | nil =>
        have := congrArg List.length hrev
        simp at this
        rw [this] at hlen
        simp at hlen
      | cons b e =>
        have hb : 128 ≤ b := hall b (by
          rw [← List.mem_reverse, hrev]
          exact List.mem_cons_self _ _)
        have hns : ¬ asciiSpace b = true := fun h => by
          have := asciiSpace_lt b h
          omega
        rw [List.cons_append, List.dropWhile_cons, if_neg hns]
        refine ⟨l ++ [c], ?_⟩
        rw [utf8_snoc, ← List.cons_append, ← hrev, ← List.reverse_append, List.reverse_reverse]

theorem encodeRune_shape (r : Nat) :
    (r < 128 ∧ encodeRune r = [r]) ∨
    (∃ a b, encodeRune r = [a, b] ∧ 0xC0 ≤ a ∧ 0x80 ≤ b ∧ b < 0xC0) ∨
    (∃ a b c, encodeRune r = [a, b, c] ∧ 0xC0 ≤ a ∧ 0x80 ≤ b ∧ b < 0xC0 ∧
      0x80 ≤ c ∧ c < 0xC0) ∨
    (∃ a b c d, encodeRune r = [a, b, c, d] ∧ 0xC0 ≤ a ∧ 0x80 ≤ b ∧ b < 0xC0 ∧
      0x80 ≤ c ∧ c < 0xC0 ∧ 0x80 ≤ d ∧ d < 0xC0) := by
  unfold encodeRune
  by_cases h1 : r < 0x80
  · left
    exact ⟨h1, by rw [if_pos h1]⟩
  · right
    rw [if_neg h1]
    by_cases h2 : r < 0x800
    · left
      rw [if_pos h2]
      exact ⟨_, _, rfl, by omega, by omega, by omega⟩
    · right
      rw [if_neg h2]
      by_cases h3 : r < 0x10000
      · left
        rw [if_pos h3]
        exact ⟨_, _, _, rfl, by omega, by omega, by omega, by omega, by omega⟩
      · right
        rw [if_neg h3]
        exact ⟨_, _, _, _, rfl, by omega, by omega, by omega, by omega, by omega, by omega,
          by omega⟩

theorem getD_append_at (p l : Bytes) (j : Nat) :
    (p ++ l).getD (p.length + j) 0 = l.getD j 0 := by
  rw [List.getD_eq_getElem?_getD, List.getD_eq_getElem?_getD,
    List.getElem?_append_right (Nat.le_add_right _ _), Nat.add_sub_cancel_left]

theorem RuneStart_lead (a : Nat) (h : 0xC0 ≤ a) : RuneStart a = true := by
  unfold RuneStart
  simp
  omega

theorem RuneStart_cont (b : Nat) (h1 : 0x80 ≤ b) (h2 : b < 0xC0) : RuneStart b = false := by
  unfold RuneStart
  simp
  omega

/-- The last character of a text that ends with the encoding `e` of `r`. -/
theorem decodeLast_of_start (s : Bytes) (r size start : Nat)
    (hlast : ¬ s.getD (s.length - 1) 0 < 0x80) (hlen : s.length ≠ 0)
    (hstart : lastRuneStart s (if (s.length : Int) - 4 < 0 then 0 else (s.length : Int) - 4) 4
      ((s.length : Int) - 2) = (start : Int))
    (hdec : DecodeRuneInString (s.drop start) = (r, size)) (hend : start + size = s.length) :
    DecodeLastRuneInString s = (r, size) := by
  unfold DecodeLastRuneInString
  dsimp only
  rw [if_neg hlen, if_neg hlast, hstart]
  have h0 : ¬ ((start : Int) < 0) := by omega
  rw [if_neg h0, Int.toNat_ofNat, hdec]
  dsimp only
  rw [if_neg (by omega)]

theorem decodeLast_encode (p : Bytes) (r : Nat)
    (hr : r < 0xD800 ∨ (0xDFFF < r ∧ r < 0x110000)) :
    DecodeLastRuneInString (p ++ encodeRune r) = (r, (encodeRune r).length) := by
  have hdec := decode_encode r hr []
  rw [List.append_nil] at hdec
  rcases encodeRune_shape r with ⟨hlt, he⟩ | ⟨a, b, he, ha, hb1, hb2⟩ |
      ⟨a, b, c, he, ha, hb1, hb2, hc1, hc2⟩ | ⟨a, b, c, d, he, ha, hb1, hb2, hc1, hc2, hd1, hd2⟩
  · rw [he]
    unfold DecodeLastRuneInString
    dsimp only
    have hl : (p ++ [r]).length - 1 = p.length + 0 := by simp
    rw [if_neg (by simp), hl, getD_append_at, List.length_singleton]
    rw [if_pos (by simpa using hlt)]
    rfl
  · rw [he] at hdec ⊢
    apply decodeLast_of_start _ r _ p.length
    · have hl : (p ++ [a, b]).length - 1 = p.length + 1 := by simp
      rw [hl, getD_append_at]
      simp
      omega
    · simp
    · have hn : ((p ++ [a, b]).length : Int) = (p.length : Int) + 2 := by simp
      rw [hn]
      have hl : (p.length : Int) + 2 - 2 = (p.length : Int) := by omega
      rw [hl]
      unfold lastRuneStart
      have h1 : ((p.length : Int)).toNat = p.length + 0 := by simp
      rw [if_pos (by split <;> omega), h1, getD_append_at]
      rw [if_pos (by simpa using RuneStart_lead a ha)]
    · rw [List.drop_left]
      exact hdec
    · simp
  · rw [he] at hdec ⊢
    apply decodeLast_of_start _ r _ p.length
    · have hl : (p ++ [a, b, c]).length - 1 = p.length + 2 := by simp
      rw [hl, getD_append_at]
      simp
      omega
    · simp
    · have hn : ((p ++ [a, b, c]).length : Int) = (p.length : Int) + 3 := by simp
      rw [hn]
      have hl : (p.length : Int) + 3 - 2 = (p.length : Int) + 1 := by omega
      rw [hl]
      unfold lastRuneStart
      have h1 : ((p.length : Int) + 1).toNat = p.length + 1 := by omega
      rw [if_pos (by split <;> omega), h1, getD_append_at]
      rw [if_neg (by simpa using RuneStart_cont b hb1 hb2)]
      unfold lastRuneStart
      have h2 : ((p.length : Int) + 1 - 1).toNat = p.length + 0 := by omega
      rw [if_pos (by split <;> omega), h2, getD_append_at]
      rw [if_pos (by simpa using RuneStart_lead a ha)]
      omega
    · rw [List.drop_left]
      exact hdec
    · simp
  · rw [he] at hdec ⊢
    apply decodeLast_of_start _ r _ p.length
    · have hl : (p ++ [a, b, c, d]).length - 1 = p.length + 3 := by simp
      rw [hl, getD_append_at]
      simp
      omega
    · simp
    · have hn : ((p ++ [a, b, c, d]).length : Int) = (p.length : Int) + 4 := by simp
      rw [hn]
      have hl : (p.length : Int) + 4 - 2 = (p.length : Int) + 2 := by omega
      rw [hl]
      unfold lastRuneStart
      have h1 : ((p.length : Int) + 2).toNat = p.length + 2 := by omega
      rw [if_pos (by split <;> omega), h1, getD_append_at]
      rw [if_neg (by simpa using RuneStart_cont c hc1 hc2)]
      unfold lastRuneStart
      have h2 : ((p.length : Int) + 2 - 1).toNat = p.length + 1 := by omega
      rw [if_pos (by split <;> omega), h2, getD_append_at]
      rw [if_neg (by simpa using RuneStart_cont b hb1 hb2)]
      unfold lastRuneStart
      have h3 : ((p.length : Int) + 2 - 1 - 1).toNat = p.length + 0 := by omega
      rw [if_pos (by split <;> omega), h3, getD_append_at]
      rw [if_pos (by simpa using RuneStart_lead a ha)]
      omega
    · rw [List.drop_left]
      exact hdec
    · simp

theorem lastIndexLoop_some (fuel : Nat) (pre suf : List Char) (j : Nat)
    (h : lastIndexLoop (utf8 ⟨pre ++ suf⟩) fuel (utf8 ⟨pre⟩).length = some j) :
    ∃ pre' c suf', pre ++ suf = pre' ++ c :: suf' ∧ j = (utf8 ⟨pre'⟩).length := by
  induction fuel generalizing pre suf with
  | zero => simp [lastIndexLoop] at h
  | succ fuel ih =>
    unfold lastIndexLoop at h
    split at h
    · rename_i hpos
      rcases List.eq_nil_or_concat pre with hnil | ⟨l, c, hconcat⟩
      · subst hnil
        simp [utf8] at hpos
      · rw [List.concat_eq_append] at hconcat
        subst hconcat
        have htake : (utf8 ⟨l ++ [c] ++ suf⟩).take (utf8 ⟨l ++ [c]⟩).length =
            utf8 ⟨l⟩ ++ encodeRune c.toNat := by
          have e1 : utf8 ⟨l ++ [c] ++ suf⟩ = utf8 ⟨l ++ [c]⟩ ++ utf8 ⟨suf⟩ := utf8_mk_append _ _
          rw [e1, List.take_left, utf8_snoc]
        have hdec := decodeLast_encode (utf8 ⟨l⟩) c.toNat (Char_toNat_valid c)
        dsimp only at h
        rw [htake, hdec] at h
        have hi2 : (utf8 ⟨l ++ [c]⟩).length - (c.toNat, (encodeRune c.toNat).length).2 =
            (utf8 ⟨l⟩).length := by
          rw [utf8_snoc, List.length_append]
          simp
        rw [hi2] at h
        have hrew : l ++ [c] ++ suf = l ++ c :: suf := by simp
        split at h
        · rw [hrew] at h
          obtain ⟨pre', c', suf', h1, h2⟩ := ih l (c :: suf) h
          exact ⟨pre', c', suf', by rw [hrew]; exact h1, h2⟩
        · cases h
          exact ⟨l, c, suf, hrew, rfl⟩
    · cases h

theorem TrimRightSpace_utf8 (cs : List Char) :
    ∃ cs', TrimRightSpace (utf8 ⟨cs⟩) = utf8 ⟨cs'⟩ := by
  unfold TrimRightSpace
  cases hl : lastIndexLoop (utf8 ⟨cs⟩) ((utf8 ⟨cs⟩).length + 1) (utf8 ⟨cs⟩).length with
  | none => exact ⟨[], rfl⟩
  | some j =>
    dsimp only
    have hl2 : lastIndexLoop (utf8 ⟨cs ++ []⟩) ((utf8 ⟨cs⟩).length + 1) (utf8 ⟨cs⟩).length =
        some j := by
      rw [List.append_nil]
      exact hl
    obtain ⟨pre', c, suf', hcs, hj⟩ := lastIndexLoop_some _ cs [] j hl2
    rw [List.append_nil] at hcs
    have hs : utf8 ⟨cs⟩ = utf8 ⟨pre'⟩ ++ (encodeRune c.toNat ++ utf8 ⟨suf'⟩) := by
      rw [hcs, utf8_mk_append, utf8_cons]
    have hdrop : (utf8 ⟨cs⟩).drop j = encodeRune c.toNat ++ utf8 ⟨suf'⟩ := by
      rw [hs, hj, List.drop_left]
    have hdec := decode_encode c.toNat (Char_toNat_valid c) (utf8 ⟨suf'⟩)
    have htake : (utf8 ⟨cs⟩).take (j + (encodeRune c.toNat).length) = utf8 ⟨pre' ++ [c]⟩ := by
      rw [hs, hj, ← List.append_assoc, ← List.length_append, List.take_left, utf8_snoc]
    refine ⟨pre' ++ [c], ?_⟩
    split
    · rw [hdrop, hdec]
      exact htake
    · rename_i hlt
      have hget : (utf8 ⟨cs⟩).getD j 0 = (encodeRune c.toNat ++ utf8 ⟨suf'⟩).getD 0 0 := by
        rw [hs, hj]
        exact getD_append_at _ _ 0
      rcases encodeRune_cases c.toNat with ⟨_, he⟩ | ⟨_, hlen, hall⟩
      · rw [← htake, he]
        rfl
      · exfalso
        apply hlt
        rw [hget]
        cases he : encodeRune c.toNat with
        | nil => rw [he] at hlen; simp at hlen
        | cons b e =>
          have hb : 128 ≤ b := hall b (by rw [he]; exact List.mem_cons_self _ _)
          simpa using hb

theorem TrimSpace_utf8 (cs : List Char) : ∃ cs', TrimSpace (utf8 ⟨cs⟩) = utf8 ⟨cs'⟩ := by
  obtain ⟨cs1, h1⟩ := dropWhile_asciiSpace_utf8 cs
  unfold TrimSpace
  dsimp only
  rw [h1]
  cases hs : utf8 ⟨cs1⟩ with
  | nil => exact ⟨[], rfl⟩
  | cons c rest =>
    dsimp only
    rw [← hs]
    split
    · obtain ⟨cs2, h2⟩ := TrimLeftSpace_utf8 cs1
      rw [h2]
      exact TrimRightSpace_utf8 cs2
    · obtain ⟨cs4, h4⟩ := revDropWhile_utf8 cs1
      rw [h4]
      cases hg : (utf8 ⟨cs4⟩).getLast? with
      | none => exact ⟨[], rfl⟩
      | some c2 =>
        dsimp only
        split
        · exact TrimRightSpace_utf8 cs4
        · exact ⟨cs4, rfl⟩

theorem wrapLoop_utf8 (width : Int) (indentStr : String) (fuel : Nat) (remaining : Bytes)
    (firstLine : Bool) (resultStr : String) (out : Bytes)
    (hvalid : ∃ r : String, remaining = utf8 r)
    (hcuts : CutsOnBoundaries width (utf8 indentStr) remaining firstLine)
    (h : wrapLoop width (utf8 indentStr) fuel remaining firstLine (utf8 resultStr) = some out) :
    ∃ outStr : String, out = utf8 outStr := by
  induction fuel generalizing remaining firstLine resultStr with
  | zero => simp [wrapLoop] at h
  | succ fuel ih =>
    have hsep : ∃ sepStr : String,
        (if (!firstLine) = true then utf8 resultStr ++ [10] ++ utf8 indentStr
          else utf8 resultStr) = utf8 sepStr := by
      cases firstLine
      · refine ⟨resultStr ++ "\n" ++ indentStr, ?_⟩
        rw [utf8_append, utf8_append]
        rfl
      · exact ⟨resultStr, rfl⟩
    obtain ⟨sepStr, hsepStr⟩ := hsep
    unfold wrapLoop at h
    split at h
    · dsimp only at h
      rw [hsepStr] at h
      split at h
      · obtain ⟨r, hr⟩ := hvalid
        cases h
        exact ⟨sepStr ++ r, by rw [utf8_append, hr]⟩
      · rename_i hnofit
        split at h
        · cases h
        · cases hcuts with
          | fits _ _ hfit => exact absurd hfit hnofit
          | cut _ _ limit hlimit hlong hcut hrest =>
            have hl : (takeLen width (utf8 indentStr) firstLine).toNat = limit := by
              rw [hlimit]
              exact Int.toNat_ofNat limit
            rw [hl] at h
            obtain ⟨line, rest, htake, hdrop⟩ := hcut
            rw [htake, ← utf8_append] at h
            obtain ⟨cs', htrim⟩ := TrimSpace_utf8 rest.data
            have hrem : ∃ r : String,
                TrimSpace (remaining.drop (breakPoint remaining limit)) = utf8 r := by
              rw [hdrop]
              exact ⟨⟨cs'⟩, htrim⟩
            exact ih _ false _ hrem hrest h
    · cases h
      exact ⟨resultStr, rfl⟩

theorem wrapIndent_utf8 (str indentStr : String) (width : Int)
    (hcuts : CutsOnBoundaries width (utf8 indentStr) (utf8 str) true)
    (out : Bytes) (h : wrapIndent (utf8 str) width (utf8 indentStr) = some out) :
    ∃ outStr : String, out = utf8 outStr := by
  unfold wrapIndent at h
  split at h
  · cases h
    exact ⟨str, rfl⟩
  · have hres : ([] : Bytes) = utf8 "" := rfl
    rw [hres] at h
    exact wrapLoop_utf8 width indentStr _ (utf8 str) true "" out ⟨str, rfl⟩ hcuts h

/-- C39, amended: at the width and with the indents of the renderer,
`wrapIndent` returns valid UTF-8 for every valid UTF-8 text in which every cut
falls between two characters. A cut at a space always does: in valid UTF-8 a
space is a whole character, so that the line and the rest are valid UTF-8.
Hence only a hard break can split a character. For an ASCII text the result
is ASCII, hence valid UTF-8. -/
theorem wrapIndent_valid_utf8 (str indentStr : String) (width : Int) (bp : Nat) :
    (((utf8 indentStr).length : Int) < width →
      CutsOnBoundaries width (utf8 indentStr) (utf8 str) true →
      ∃ out : String, wrapIndent (utf8 str) width (utf8 indentStr) = some (utf8 out) ∧
        ValidString (utf8 out) = true) ∧
    ((utf8 str)[bp]? = some 32 →
      OnBoundary (utf8 str) bp ∧
      ∃ line rest : String, str = line ++ rest ∧
        (utf8 str).take bp = utf8 line ∧ (utf8 str).drop bp = utf8 rest ∧
        ValidString ((utf8 str).take bp) = true ∧
        ValidString ((utf8 str).drop bp) = true) ∧
    (∀ text indent : Bytes, (∀ b ∈ text, b < 128) → (∀ b ∈ indent, b = 32) →
      indent.length < 80 →
      ∃ result, wrapIndent text 80 indent = some result ∧ (∀ b ∈ result, b < 128) ∧
        ValidString result = true) := by
  refine ⟨?_, ?_, ?_⟩
  · intro hindent hcuts
    have hsome := wrapIndent_isSome (utf8 str) width (utf8 indentStr) hindent
    obtain ⟨outStr, hout⟩ := wrapIndent_utf8 str indentStr width hcuts _ hsome
    refine ⟨outStr, by rw [← hout]; exact hsome, ValidString_utf8 _⟩
  · intro hb
    obtain ⟨c1, c2, hcs, htake, hdrop⟩ := space_at_boundary str.data bp 32 hb (by omega)
    have ht : (utf8 str).take bp = utf8 ⟨c1⟩ := htake
    have hd : (utf8 str).drop bp = utf8 ⟨c2⟩ := hdrop
    refine ⟨⟨⟨c1⟩, ⟨c2⟩, ht, hd⟩, ⟨c1⟩, ⟨c2⟩, ?_, ht, hd, ?_, ?_⟩
    · apply String.ext
      rw [String.data_append]
      exact hcs
    · rw [ht]
      exact ValidString_utf8 _
    · rw [hd]
      exact ValidString_utf8 _
  · intro text indent hascii hspaces hindent
    obtain ⟨result, h1, _, h3⟩ :=
      wrapIndent_ascii text 80 indent hascii hspaces (by omega)
    exact ⟨result, h1, h3, validLoop_ascii result h3 _ (Nat.le_refl _)⟩

set_option maxRecDepth 100000 in
/-- Witness of C39: a Japanese text of 28 bytes at width 20 is cut at its
space, after the sixth character, and what follows fits the second line. -/
theorem wrapIndent_valid_utf8_witness :
    CutsOnBoundaries 20 (utf8 "   ") japaneseWithSpace true ∧
    ∃ out : String, wrapIndent japaneseWithSpace 20 (utf8 "   ") = some (utf8 out) ∧
      ValidString (utf8 out) = true :=
  have hcuts : CutsOnBoundaries 20 (utf8 "   ") japaneseWithSpace true :=
    CutsOnBoundaries.cut _ true 20 (by decide) (by decide)
      ⟨"特権コンテナ", " は不可", by decide, by decide⟩
      (CutsOnBoundaries.fits _ false (by decide))
  ⟨hcuts, (wrapIndent_valid_utf8 "特権コンテナ は不可" "   " 20 0).1 (by decide) hcuts⟩

end WhyBlocked
